import Mathlib

/-!
Verification of the `TaskScheduler` engine (packages/task-scheduler).

The definitions below are a shallow embedding of the TypeScript class
`TaskScheduler` (file `TaskScheduler.ts`) together with the enums and
interfaces from `types.ts`.  Conventions used throughout:

* JS `Map`s keyed by task id are association lists `List (String × α)`;
  the scheduler guards against duplicate keys at insertion, and lookup
  returns the first match, exactly as `Map.get` does for unique keys.
* The ready queues hold task ids; the single authoritative task record
  lives in the task map (in JS the queues hold the very same object that
  the map holds, so id-indirection is faithful).
* `performance.now()` is an explicit `now : Nat` argument at every point
  the source reads the clock.
* The per-task `AbortController` is modelled by a generation counter
  `abortGen` (bumped when the source allocates a fresh controller) and an
  `aborted` flag (set when the source calls `abort()`).
* The asynchronous parts of `executeTask` are split at their suspension
  points: `dispatchTask` is the synchronous prefix, `completeStep` /
  `failStep` are the resolution paths (each including the `finally`
  block), and `retryRequeue` is the deferred `setTimeout` callback of
  `handleTaskError`.
* The comparison `performance.now() - frameStartTime >= timeBudget` in
  `processTasks` is abstracted by a boolean oracle `timeUp : Nat → Bool`
  consulted once per check, indexed by the number of checks made so far.
* Event emission (`emit`) only invokes external listeners and mutates no
  scheduler state, so it is not modelled.
* Opaque runtime values (executor results, error objects, task payloads)
  are modelled as `Nat` codes; executors themselves are identified by
  their registered type string.
-/

namespace Sched

/-- Task priority (enum `TaskPriority`): HIGH = 0, NORMAL = 1, LOW = 2. -/
inductive TaskPriority where
  | HIGH
  | NORMAL
  | LOW
deriving DecidableEq, Repr

/-- The numeric value of a priority, as declared in `types.ts`
(smaller number = more urgent). -/
def prioVal : TaskPriority → Nat
  | .HIGH => 0
  | .NORMAL => 1
  | .LOW => 2

/-- Task status (enum `TaskStatus`). -/
inductive TaskStatus where
  | PENDING
  | RUNNING
  | PAUSED
  | COMPLETED
  | FAILED
  | CANCELLED
deriving DecidableEq, Repr

/-- A status is terminal when it is COMPLETED, FAILED or CANCELLED. -/
def TaskStatus.isTerminal : TaskStatus → Bool
  | .COMPLETED => true
  | .FAILED => true
  | .CANCELLED => true
  | _ => false

/-- Retry strategy (enum `TaskRetryStrategy`). -/
inductive TaskRetryStrategy where
  | LINEAR
  | EXPONENTIAL
deriving DecidableEq, Repr

/-- The task record (interface `Task` in `types.ts`).  Function-valued
fields (`executor`, `onProgress`) and the opaque `data` payload are not
needed by any claim and are omitted; the executor is selected by `type`
from the registry.  `abortGen`/`aborted` model the `AbortController`. -/
structure Task where
  id : String
  type : String
  priority : TaskPriority
  status : TaskStatus
  interruptible : Bool
  retryCount : Nat
  retryStrategy : TaskRetryStrategy
  timeout : Nat
  dependencies : List String
  createdAt : Nat
  startedAt : Option Nat
  completedAt : Option Nat
  lastExecuteTime : Option Nat
  result : Option Nat
  error : Option Nat
  abortGen : Nat
  aborted : Bool
deriving DecidableEq, Repr

/-- The statistics snapshot (interface `SchedulerStats`).  The averages
are exact rationals standing for the JS float arithmetic. -/
structure SchedulerStats where
  totalTasks : Nat
  completedTasks : Nat
  failedTasks : Nat
  pendingTasks : Int
  runningTasks : Int
  averageWaitTime : ℚ
  averageExecuteTime : ℚ
  queueSizeHigh : Nat
  queueSizeNormal : Nat
  queueSizeLow : Nat
  frameTime : Nat
  fps : Nat
deriving DecidableEq, Repr

/-- The resolved scheduler configuration (`Required<SchedulerConfig>`). -/
structure SchedulerConfig where
  maxTasksPerFrame : Nat
  frameTimeBudget : Nat
  maxConcurrentTasks : Nat
  enableMonitoring : Bool
  queueSizeLimit : Nat
  retentionPeriod : Nat
deriving DecidableEq, Repr

/-- The three ready buckets (`queues` map of `TaskScheduler`). -/
structure Queues where
  high : List String
  normal : List String
  low : List String
deriving DecidableEq, Repr

/-- `queues.get(p)`. -/
def getQ (q : Queues) : TaskPriority → List String
  | .HIGH => q.high
  | .NORMAL => q.normal
  | .LOW => q.low

/-- Replace bucket `p` wholesale. -/
def setQ (q : Queues) : TaskPriority → List String → Queues
  | .HIGH, l => { q with high := l }
  | .NORMAL, l => { q with normal := l }
  | .LOW, l => { q with low := l }

/-- The scheduler instance state (the private fields of `TaskScheduler`).
`eventListeners`, the FPS helpers and the cleanup timer handle carry no
claim-relevant state and are omitted. -/
structure Scheduler where
  queues : Queues
  taskMap : List (String × Task)
  blockedTasks : List String
  dependencyGraph : List (String × List String)
  runningTasks : List String
  executors : List String
  config : SchedulerConfig
  stats : SchedulerStats
  isRunning : Bool
  tickScheduled : Bool
  taskIdCounter : Nat
deriving DecidableEq, Repr

/-! ### Association-list and queue primitives -/

/-- First-match lookup in an association list (`Map.get`). -/
def lookupL {α : Type} : List (String × α) → String → Option α
  | [], _ => none
  | kv :: rest, id => if kv.1 = id then some kv.2 else lookupL rest id

/-- In-place update of the entry for `id` (mutating the stored object). -/
def updL {α : Type} : List (String × α) → String → (α → α) → List (String × α)
  | [], _, _ => []
  | kv :: rest, id, f =>
      (if kv.1 = id then (kv.1, f kv.2) else kv) :: updL rest id f

/-- Remove the first occurrence of `id` (`splice` at `indexOf`/`findIndex`;
a no-op when absent, mirroring the `idx !== -1` guards). -/
def eraseF : List String → String → List String
  | [], _ => []
  | x :: rest, id => if x = id then rest else x :: eraseF rest id

/-- `Set.add`: append when not yet present (JS sets keep insertion order). -/
def addToSet (l : List String) (id : String) : List String :=
  if id ∈ l then l else l ++ [id]

/-- Remove the entry with key `id` from an association list (`Map.delete`). -/
def delL {α : Type} (l : List (String × α)) (id : String) :
    List (String × α) :=
  l.filter fun kv => kv.1 ≠ id

theorem lookupL_updL {α : Type} (l : List (String × α)) (id id' : String)
    (f : α → α) :
    lookupL (updL l id f) id' =
      if id' = id then (lookupL l id').map f else lookupL l id' := by
  induction l with
  | nil => by_cases h : id' = id <;> simp [lookupL, updL, h]
  | cons kv rest ih =>
    obtain ⟨k, v⟩ := kv
    by_cases hk : k = id
    · subst hk
      by_cases hk' : id' = k
      · subst hk'; simp [updL, lookupL]
      · simp [updL, lookupL, hk', Ne.symm hk', ih]
    · by_cases hk' : k = id'
      · subst hk'
        have : ¬ (k = id) := hk
        simp [updL, lookupL, hk]
      · simp [updL, lookupL, hk, hk', ih]

theorem lookupL_updL_self {α : Type} (l : List (String × α)) (id : String)
    (f : α → α) :
    lookupL (updL l id f) id = (lookupL l id).map f := by
  simp [lookupL_updL]

theorem lookupL_updL_ne {α : Type} (l : List (String × α)) (id id' : String)
    (f : α → α) (h : id' ≠ id) :
    lookupL (updL l id f) id' = lookupL l id' := by
  simp [lookupL_updL, h]

theorem lookupL_append_single {α : Type} (l : List (String × α))
    (id id' : String) (v : α) :
    lookupL (l ++ [(id, v)]) id' =
      ((lookupL l id').orElse (fun _ => if id = id' then some v else none)) := by
  induction l with
  | nil => simp [lookupL]
  | cons kv rest ih =>
    by_cases hk : kv.1 = id'
    · simp [lookupL, hk]
    · simp [lookupL, hk, ih]

theorem cnt_eraseF_ne (l : List String) (id x : String) (h : x ≠ id) :
    (eraseF l id).count x = l.count x := by
  induction l with
  | nil => simp [eraseF]
  | cons a rest ih =>
    by_cases ha : a = id
    · subst ha
      simp [eraseF, List.count_cons, Ne.symm h]
    · simp [eraseF, ha, List.count_cons, ih]

theorem cnt_eraseF_self (l : List String) (id : String) :
    (eraseF l id).count id = l.count id - 1 := by
  induction l with
  | nil => simp [eraseF]
  | cons a rest ih =>
    by_cases ha : a = id
    · subst ha; simp [eraseF, List.count_cons]
    · simp [eraseF, ha, List.count_cons, ih, Ne.symm ha]

theorem mem_eraseF_of_ne (l : List String) (id x : String) (h : x ≠ id) :
    x ∈ eraseF l id ↔ x ∈ l := by
  rw [List.count_pos_iff.symm, List.count_pos_iff.symm,
    cnt_eraseF_ne l id x h]

theorem not_mem_eraseF (l : List String) (id : String)
    (h : l.count id ≤ 1) : id ∉ eraseF l id := by
  rw [← List.count_pos_iff, cnt_eraseF_self]
  omega

theorem eraseF_of_not_mem (l : List String) (id : String) (h : id ∉ l) :
    eraseF l id = l := by
  induction l with
  | nil => rfl
  | cons a rest ih =>
    simp only [List.mem_cons, not_or] at h
    simp [eraseF, Ne.symm h.1, ih h.2]

/-! ### Scheduler operations (methods of `TaskScheduler`) -/

/-- `this.taskMap.get(id)`. -/
def lookupTask (s : Scheduler) (id : String) : Option Task :=
  lookupL s.taskMap id

/-- Mutate the task object stored under `id` (field assignment on the
shared object in JS). -/
def updTask (s : Scheduler) (id : String) (f : Task → Task) : Scheduler :=
  { s with taskMap := updL s.taskMap id f }

/-- `this.dependencyGraph.get(depId)` with the `Set` as a list. -/
def graphGet (s : Scheduler) (depId : String) : Option (List String) :=
  lookupL s.dependencyGraph depId

/-- Lines 166-169 of `TaskScheduler.ts`: create the adjacency set on
demand, then `Set.add`. -/
def addEdge (s : Scheduler) (depId taskId : String) : Scheduler :=
  match lookupL s.dependencyGraph depId with
  | none => { s with dependencyGraph := s.dependencyGraph ++ [(depId, [taskId])] }
  | some _ =>
      let g := updL s.dependencyGraph depId (fun l => addToSet l taskId)
      { s with dependencyGraph := g }

/-- `areDependenciesMet`: every dependency id resolves to a task whose
status is COMPLETED (`dep?.status === COMPLETED` is false for a missing
task). -/
def areDependenciesMet (s : Scheduler) (deps : List String) : Bool :=
  deps.all fun depId =>
    match lookupTask s depId with
    | some dep => dep.status == TaskStatus.COMPLETED
    | none => false

/-- `enqueueTask`: push to the tail of the bucket for the task's current
priority.  (In JS the argument is the task object itself, which always
exists; a missing id is a vacuous no-op.) -/
def enqueueTask (s : Scheduler) (id : String) : Scheduler :=
  match lookupTask s id with
  | some t =>
      let q := setQ s.queues t.priority (getQ s.queues t.priority ++ [id])
      { s with queues := q }
  | none => s

/-- `removeFromQueue`: splice out the first entry with a matching id
from the bucket of the task's current priority. -/
def removeFromQueue (s : Scheduler) (id : String) : Scheduler :=
  match lookupTask s id with
  | some t =>
      let q := setQ s.queues t.priority (eraseF (getQ s.queues t.priority) id)
      { s with queues := q }
  | none => s

/-- `updateQueueSizes`. -/
def updateQueueSizes (s : Scheduler) : Scheduler :=
  { s with stats := { s.stats with
      queueSizeHigh := s.queues.high.length,
      queueSizeNormal := s.queues.normal.length,
      queueSizeLow := s.queues.low.length } }

/-- The queue relocation inside `promotePriority` (the branch for a
PENDING, unblocked task): splice the id out of its current bucket, set
the new priority, push the id to the tail of the target bucket. -/
def promoteRelocate (s : Scheduler) (id : String) (t : Task)
    (target : TaskPriority) : Scheduler :=
  let qa := setQ s.queues t.priority (eraseF (getQ s.queues t.priority) id)
  let sa := { s with queues := qa }
  let sb := updTask sa id fun u => { u with priority := target }
  let qb := setQ sb.queues target (getQ sb.queues target ++ [id])
  { sb with queues := qb }

mutual

/-- `promotePriority` together with the `forEach` over the task's
dependencies it ends with (`promoteDeps`).  The source recurses on an
acyclic dependency graph; the extra `fuel` argument only bounds that
recursion depth so the definition is total (callers pass at least the
registry size, which dominates the depth of any acyclic chain). -/
def promotePriority : Nat → Scheduler → String → TaskPriority → Scheduler
  | 0, s, _, _ => s
  | Nat.succ fuel, s, id, target =>
    match lookupTask s id with
    | none => s
    | some t =>
      if prioVal t.priority ≤ prioVal target then s
      else
        let s1 :=
          if t.status = TaskStatus.PENDING ∧ id ∉ s.blockedTasks then
            promoteRelocate s id t target
          else
            updTask s id fun u => { u with priority := target }
        promoteDeps fuel s1 t.dependencies target
termination_by fuel _ _ _ => (fuel, 0)

/-- The recursive `forEach` at the end of `promotePriority`: promote
every not-yet-COMPLETED dependency, left to right. -/
def promoteDeps : Nat → Scheduler → List String → TaskPriority → Scheduler
  | _, s, [], _ => s
  | fuel, s, depId :: rest, target =>
    let s' :=
      match lookupTask s depId with
      | some depTask =>
          if depTask.status ≠ TaskStatus.COMPLETED then
            promotePriority fuel s depId target
          else s
      | none => s
    promoteDeps fuel s' rest target
termination_by fuel _ l _ => (fuel, l.length + 1)

end

/-- The single-dependency step of `promoteDeps`. -/
def promoteDepStep (fuel : Nat) (s : Scheduler) (depId : String)
    (target : TaskPriority) : Scheduler :=
  match lookupTask s depId with
  | some depTask =>
      if depTask.status ≠ TaskStatus.COMPLETED then
        promotePriority fuel s depId target
      else s
  | none => s

/-- `TaskConfig` (from `types.ts`): the optional fields accepted by
`addTask`, with the same defaulting as in `addTask`.  The payload and
progress callback are opaque and omitted. -/
structure TaskConfig where
  id : Option String
  type : String
  priority : Option TaskPriority
  interruptible : Option Bool
  retryCount : Option Nat
  retryStrategy : Option TaskRetryStrategy
  timeout : Option Nat
  dependencies : Option (List String)
deriving DecidableEq, Repr

/-- `generateTaskId`. -/
def generateTaskId (counter : Nat) (now : Nat) : String :=
  "task_" ++ toString counter ++ "_" ++ toString now

/-- The task record built by `addTask` for a resolved id. -/
def buildTask (cfg : TaskConfig) (taskId : String) (now : Nat) : Task :=
  { id := taskId,
    type := cfg.type,
    priority := cfg.priority.getD TaskPriority.NORMAL,
    status := TaskStatus.PENDING,
    interruptible := cfg.interruptible.getD false,
    retryCount := cfg.retryCount.getD 0,
    retryStrategy := cfg.retryStrategy.getD TaskRetryStrategy.LINEAR,
    timeout := cfg.timeout.getD 0,
    dependencies := cfg.dependencies.getD [],
    createdAt := now,
    startedAt := none,
    completedAt := none,
    lastExecuteTime := none,
    result := none,
    error := none,
    abortGen := 0,
    aborted := false }

/-- The per-dependency body of the `forEach` in `addTask`: record the
reverse edge, then run priority inheritance when the dependency is
neither COMPLETED nor FAILED. -/
def admitDepStep (taskId : String) (prio : TaskPriority) (acc : Scheduler)
    (depId : String) : Scheduler :=
  let acc := addEdge acc depId taskId
  match lookupTask acc depId with
  | some depTask =>
      if depTask.status ≠ TaskStatus.COMPLETED ∧
          depTask.status ≠ TaskStatus.FAILED then
        promotePriority acc.taskMap.length acc depId prio
      else acc
  | none => acc

/-- Lines 158-160 of `addTask`: insert the record and bump the
total/pending counters. -/
def insertState (s : Scheduler) (taskId : String) (task : Task) : Scheduler :=
  { s with
    taskMap := s.taskMap ++ [(taskId, task)],
    stats := { s.stats with
      totalTasks := s.stats.totalTasks + 1,
      pendingTasks := s.stats.pendingTasks + 1 } }

/-- The successful tail of `addTask` (after the three admission checks):
insert the record, bump the counters, then either block the task (with
edges and priority inheritance) or enqueue it. -/
def admitCore (s : Scheduler) (cfg : TaskConfig) (taskId : String)
    (now : Nat) : Scheduler :=
  let task := buildTask cfg taskId now
  let s1 := insertState s taskId task
  if task.dependencies ≠ [] ∧ ¬ areDependenciesMet s1 task.dependencies then
    let s2 := task.dependencies.foldl (admitDepStep taskId task.priority) s1
    { s2 with blockedTasks := s2.blockedTasks ++ [taskId] }
  else
    enqueueTask s1 taskId

/-- `addTask`.  A thrown `Error` is an `Except.error` carrying its
message; the successful return value is the task id.  The `emit` calls
and the `scheduleTick` wake-up only touch unmodeled state. -/
def addTask (s : Scheduler) (cfg : TaskConfig) (now : Nat) :
    Scheduler × Except String String :=
  if s.taskMap.length ≥ s.config.queueSizeLimit then
    (s, Except.error "Queue size limit reached")
  else
    let su := match cfg.id with
      | some i => (s, i)
      | none => ({ s with taskIdCounter := s.taskIdCounter + 1 },
          generateTaskId (s.taskIdCounter + 1) now)
    let s := su.1
    let taskId := su.2
    if (lookupTask s taskId).isSome then
      (s, Except.error "Task already exists")
    else if cfg.type ∉ s.executors then
      (s, Except.error "No executor registered")
    else
      (updateQueueSizes (admitCore s cfg taskId now), Except.ok taskId)

/-- `cancelTask`. -/
def cancelTask (s : Scheduler) (taskId : String) : Scheduler × Bool :=
  match lookupTask s taskId with
  | none => (s, false)
  | some t =>
    let s := if t.status = TaskStatus.RUNNING then
        updTask s taskId (fun u => { u with aborted := true })
      else s
    let s := removeFromQueue s taskId
    let s := { s with blockedTasks := eraseF s.blockedTasks taskId }
    let s := updTask s taskId fun u => { u with status := TaskStatus.CANCELLED }
    let s := { s with runningTasks := eraseF s.runningTasks taskId }
    let s := { s with stats := { s.stats with
        pendingTasks := max 0 (s.stats.pendingTasks - 1) } }
    (updateQueueSizes s, true)

/-- The abort loop at the top of `clear`: signal the controller of every
running task that is present in the registry. -/
def clearAbortPhase (s : Scheduler) : Scheduler :=
  s.runningTasks.foldl
    (fun acc id => updTask acc id fun u => { u with aborted := true }) s

/-- `clear`. -/
def clear (s : Scheduler) : Scheduler :=
  let s := clearAbortPhase s
  let s := { s with
    queues := { high := [], normal := [], low := [] },
    taskMap := [],
    blockedTasks := [],
    dependencyGraph := [],
    runningTasks := [] }
  let s := { s with stats := { s.stats with
      pendingTasks := 0,
      runningTasks := 0,
      totalTasks := 0 } }
  updateQueueSizes s

/-- The synchronous prefix of `executeTask`: mark the task RUNNING,
stamp it, add it to the running set and shift the pending count to the
running count. -/
def dispatchTask (s : Scheduler) (id : String) (now : Nat) : Scheduler :=
  let s := updTask s id fun t => { t with
    status := TaskStatus.RUNNING,
    startedAt := some now,
    lastExecuteTime := some now }
  { s with
    runningTasks := addToSet s.runningTasks id,
    stats := { s.stats with
      pendingTasks := s.stats.pendingTasks - 1,
      runningTasks := s.stats.runningTasks + 1 } }

/-- `updateAverageWaitTime`. -/
def updateAverageWaitTime (s : Scheduler) (id : String) : Scheduler :=
  match lookupTask s id with
  | some t =>
    match t.startedAt with
    | some st =>
      let waitTime : ℚ := (st : ℚ) - (t.createdAt : ℚ)
      let total : ℚ := (s.stats.completedTasks : ℚ) + (s.stats.failedTasks : ℚ)
      { s with stats := { s.stats with
          averageWaitTime :=
            (s.stats.averageWaitTime * (total - 1) + waitTime) / total } }
    | none => s
  | none => s

/-- `updateAverageExecuteTime`. -/
def updateAverageExecuteTime (s : Scheduler) (id : String) : Scheduler :=
  match lookupTask s id with
  | some t =>
    match t.startedAt, t.completedAt with
    | some st, some ct =>
      let executeTime : ℚ := (ct : ℚ) - (st : ℚ)
      let n : ℚ := (s.stats.completedTasks : ℚ)
      { s with stats := { s.stats with
          averageExecuteTime :=
            (s.stats.averageExecuteTime * (n - 1) + executeTime) / n } }
    | _, _ => s
  | none => s

/-- `processDependents`: wake every dependent of the completed task
whose dependencies are now all COMPLETED, then discard the adjacency
entry. -/
def processDependents (s : Scheduler) (completedTaskId : String) : Scheduler :=
  match graphGet s completedTaskId with
  | none => s
  | some dependents =>
    let s := dependents.foldl (fun acc depId =>
      if depId ∈ acc.blockedTasks then
        match lookupTask acc depId with
        | some depTask =>
            if areDependenciesMet acc depTask.dependencies then
              enqueueTask { acc with blockedTasks := eraseF acc.blockedTasks depId }
                depId
            else acc
        | none => acc
      else acc) s
    { s with dependencyGraph := delL s.dependencyGraph completedTaskId }

/-- `completeTask`. -/
def completeTask (s : Scheduler) (id : String) (result : Nat) (now : Nat) :
    Scheduler :=
  let s := updTask s id fun t => { t with
    result := some result,
    status := TaskStatus.COMPLETED,
    completedAt := some now }
  let s := { s with stats := { s.stats with
      completedTasks := s.stats.completedTasks + 1 } }
  let s := updateAverageExecuteTime s id
  let s := updateAverageWaitTime s id
  processDependents s id

/-- `handleTaskError`.  Returns the computed backoff delay (in ms) when
a retry was scheduled, `none` otherwise; the deferred `setTimeout` body
is `retryRequeue` below.  The delay of the EXPONENTIAL strategy reads
the retry count after the decrement, exactly as the source does. -/
def handleTaskError (s : Scheduler) (id : String) (error : Nat) (now : Nat) :
    Scheduler × Option ℚ :=
  let s := updTask s id fun t => { t with error := some error }
  match lookupTask s id with
  | none => (s, none)
  | some t =>
    if t.retryCount > 0 then
      let s := updTask s id fun u => { u with
        retryCount := u.retryCount - 1,
        status := TaskStatus.PENDING,
        abortGen := u.abortGen + 1,
        aborted := false }
      let delay : ℚ :=
        match t.retryStrategy with
        | TaskRetryStrategy.LINEAR => 0
        | TaskRetryStrategy.EXPONENTIAL =>
            100 * (2 : ℚ) ^ ((3 : ℤ) - ((t.retryCount - 1 : Nat) : ℤ))
      (s, some delay)
    else
      let s := updTask s id fun u => { u with
        status := TaskStatus.FAILED,
        completedAt := some now }
      ({ s with stats := { s.stats with
          failedTasks := s.stats.failedTasks + 1 } }, none)

/-- The deferred `setTimeout` callback inside `handleTaskError`:
re-append the task to its priority queue and restore the pending
count. -/
def retryRequeue (s : Scheduler) (id : String) : Scheduler :=
  let s := enqueueTask s id
  { s with stats := { s.stats with
      pendingTasks := s.stats.pendingTasks + 1 } }

/-- The `finally` block of `executeTask`. -/
def finallyBlock (s : Scheduler) (id : String) : Scheduler :=
  let s := { s with
    runningTasks := eraseF s.runningTasks id,
    stats := { s.stats with runningTasks := s.stats.runningTasks - 1 } }
  updateQueueSizes s

/-- The resolution of `executeTask` when the executor fulfils
(`completeTask` plus the `finally` block). -/
def completeStep (s : Scheduler) (id : String) (result : Nat) (now : Nat) :
    Scheduler :=
  finallyBlock (completeTask s id result now) id

/-- The resolution of `executeTask` when the executor rejects: an
aborted task is marked CANCELLED, any other failure goes through
`handleTaskError`; either way the `finally` block runs. -/
def failStep (s : Scheduler) (id : String) (error : Nat) (now : Nat) :
    Scheduler × Option ℚ :=
  match lookupTask s id with
  | none => (finallyBlock s id, none)
  | some t =>
    if t.aborted then
      (finallyBlock
        (updTask s id fun u => { u with status := TaskStatus.CANCELLED }) id,
       none)
    else
      let sd := handleTaskError s id error now
      (finallyBlock sd.1 id, sd.2)

/-- One priority bucket of the `processTasks` loop.  `timeUp k` answers
the `k`-th evaluation of `performance.now() - frameStartTime >=
timeBudget`; `executed` is `tasksExecuted`; `fuel` starts at the bucket
length (the loop pops one element per iteration, so it never runs out).
Returns the new state, the updated counters and the ids dispatched from
this bucket in order. -/
def drainPrio (timeUp : Nat → Bool) (p : TaskPriority) (now : Nat) :
    Nat → Scheduler → Nat → Nat → Scheduler × Nat × Nat × List String
  | 0, s, executed, checks => (s, executed, checks, [])
  | Nat.succ fuel, s, executed, checks =>
    match getQ s.queues p with
    | [] => (s, executed, checks, [])
    | id :: rest =>
      if s.runningTasks.length ≥ s.config.maxConcurrentTasks then
        (s, executed, checks, [])
      else if p ≠ TaskPriority.HIGH then
        if timeUp checks then (s, executed, checks + 1, [])
        else if executed ≥ s.config.maxTasksPerFrame then
          (s, executed, checks + 1, [])
        else
          let s1 := { s with queues := setQ s.queues p rest }
          match lookupTask s1 id with
          | some _ =>
            let s2 := dispatchTask s1 id now
            let r := drainPrio timeUp p now fuel s2 (executed + 1) (checks + 1)
            (r.1, r.2.1, r.2.2.1, id :: r.2.2.2)
          | none => drainPrio timeUp p now fuel s1 executed (checks + 1)
      else
        let s1 := { s with queues := setQ s.queues p rest }
        match lookupTask s1 id with
        | some _ =>
          let s2 := dispatchTask s1 id now
          let r := drainPrio timeUp p now fuel s2 (executed + 1) checks
          (r.1, r.2.1, r.2.2.1, id :: r.2.2.2)
        | none => drainPrio timeUp p now fuel s1 executed checks

/-- `processTasks`: drain HIGH, then NORMAL, then LOW, threading
`tasksExecuted` and the clock, then record the tick's elapsed time
(`frameElapsed` stands for the final `performance.now() -
frameStartTime`).  Returns the dispatched ids per bucket. -/
def processTasks (s : Scheduler) (timeUp : Nat → Bool) (now : Nat)
    (frameElapsed : Nat) : Scheduler × List String × List String × List String :=
  let rh := drainPrio timeUp TaskPriority.HIGH now
    (getQ s.queues TaskPriority.HIGH).length s 0 0
  let rn := drainPrio timeUp TaskPriority.NORMAL now
    (getQ rh.1.queues TaskPriority.NORMAL).length rh.1 rh.2.1 rh.2.2.1
  let rl := drainPrio timeUp TaskPriority.LOW now
    (getQ rn.1.queues TaskPriority.LOW).length rn.1 rn.2.1 rn.2.2.1
  ({ rl.1 with stats := { rl.1.stats with frameTime := frameElapsed } },
   rh.2.2.2, rn.2.2.2, rl.2.2.2)

/-! ### Concrete fixtures: a freshly constructed scheduler -/

/-- The defaulted configuration of `new TaskScheduler({})`. -/
def defaultConfig : SchedulerConfig :=
  { maxTasksPerFrame := 5,
    frameTimeBudget := 6,
    maxConcurrentTasks := 3,
    enableMonitoring := true,
    queueSizeLimit := 1000,
    retentionPeriod := 60000 }

/-- The initial statistics snapshot of the constructor. -/
def initialStats : SchedulerStats :=
  { totalTasks := 0,
    completedTasks := 0,
    failedTasks := 0,
    pendingTasks := 0,
    runningTasks := 0,
    averageWaitTime := 0,
    averageExecuteTime := 0,
    queueSizeHigh := 0,
    queueSizeNormal := 0,
    queueSizeLow := 0,
    frameTime := 0,
    fps := 60 }

/-- A freshly constructed scheduler with one registered executor type
(the string is arbitrary; it plays the role of `TaskType.COMPUTE`). -/
def freshSched : Scheduler :=
  { queues := { high := [], normal := [], low := [] },
    taskMap := [],
    blockedTasks := [],
    dependencyGraph := [],
    runningTasks := [],
    executors := ["compute"],
    config := defaultConfig,
    stats := initialStats,
    isRunning := false,
    tickScheduled := false,
    taskIdCounter := 0 }

/-- A `TaskConfig` with every optional field defaulted. -/
def baseCfg (id : String) : TaskConfig :=
  { id := some id,
    type := "compute",
    priority := none,
    interruptible := none,
    retryCount := none,
    retryStrategy := none,
    timeout := none,
    dependencies := none }

/-- A COMPLETED task record, used by concrete witnesses. -/
def doneTask : Task :=
  { id := "done",
    type := "compute",
    priority := TaskPriority.NORMAL,
    status := TaskStatus.COMPLETED,
    interruptible := false,
    retryCount := 0,
    retryStrategy := TaskRetryStrategy.LINEAR,
    timeout := 0,
    dependencies := [],
    createdAt := 0,
    startedAt := some 1,
    completedAt := some 2,
    lastExecuteTime := some 1,
    result := some 42,
    error := none,
    abortGen := 0,
    aborted := false }

/-- A scheduler holding one already-COMPLETED task. -/
def cancelFixture : Scheduler :=
  { freshSched with
    taskMap := [("done", doneTask)],
    stats := { initialStats with totalTasks := 1, completedTasks := 1 } }

/-- `freshSched` after admitting task "a": a second admission of the
same id must throw. -/
def dupFixture : Scheduler := (addTask freshSched (baseCfg "a") 0).1

/-- A RUNNING task record with one retry left under the EXPONENTIAL
strategy, used by the retry/backoff counterexamples. -/
def retryTask : Task :=
  { id := "r",
    type := "compute",
    priority := TaskPriority.NORMAL,
    status := TaskStatus.RUNNING,
    interruptible := false,
    retryCount := 1,
    retryStrategy := TaskRetryStrategy.EXPONENTIAL,
    timeout := 0,
    dependencies := [],
    createdAt := 0,
    startedAt := some 1,
    completedAt := none,
    lastExecuteTime := some 1,
    result := none,
    error := none,
    abortGen := 0,
    aborted := false }

/-- A scheduler mid-execution of `retryTask` (the state right after its
dispatch). -/
def retryFixture : Scheduler :=
  { freshSched with
    taskMap := [("r", retryTask)],
    runningTasks := ["r"],
    stats := { initialStats with totalTasks := 1, runningTasks := 1 } }

/-- A plain RUNNING task record. -/
def runTask : Task := { retryTask with id := "run", retryCount := 0 }

/-- A scheduler with one RUNNING task, for the `clear` witness. -/
def runFixture : Scheduler :=
  { freshSched with
    taskMap := [("run", runTask)],
    runningTasks := ["run"],
    stats := { initialStats with totalTasks := 1, runningTasks := 1 } }

/-! ### Basic lemmas about the operations -/

@[simp]
theorem getQ_setQ (q : Queues) (p p' : TaskPriority) (l : List String) :
    getQ (setQ q p l) p' = if p' = p then l else getQ q p' := by
  cases p <;> cases p' <;> simp [getQ, setQ]

theorem getQ_setQ_self (q : Queues) (p : TaskPriority) (l : List String) :
    getQ (setQ q p l) p = l := by simp

theorem getQ_setQ_ne (q : Queues) (p p' : TaskPriority) (l : List String)
    (h : p' ≠ p) : getQ (setQ q p l) p' = getQ q p' := by simp [h]

@[simp]
theorem lookupTask_updTask (s : Scheduler) (id id' : String) (f : Task → Task) :
    lookupTask (updTask s id f) id' =
      if id' = id then (lookupTask s id').map f else lookupTask s id' := by
  simp [lookupTask, updTask, lookupL_updL]

@[simp] theorem updTask_queues (s : Scheduler) (id : String) (f : Task → Task) :
    (updTask s id f).queues = s.queues := rfl

@[simp] theorem updTask_blocked (s : Scheduler) (id : String) (f : Task → Task) :
    (updTask s id f).blockedTasks = s.blockedTasks := rfl

@[simp] theorem updTask_running (s : Scheduler) (id : String) (f : Task → Task) :
    (updTask s id f).runningTasks = s.runningTasks := rfl

@[simp] theorem updTask_graph (s : Scheduler) (id : String) (f : Task → Task) :
    (updTask s id f).dependencyGraph = s.dependencyGraph := rfl

@[simp] theorem updTask_stats (s : Scheduler) (id : String) (f : Task → Task) :
    (updTask s id f).stats = s.stats := rfl

@[simp] theorem updTask_config (s : Scheduler) (id : String) (f : Task → Task) :
    (updTask s id f).config = s.config := rfl

theorem enqueueTask_taskMap (s : Scheduler) (id : String) :
    (enqueueTask s id).taskMap = s.taskMap := by
  unfold enqueueTask; cases lookupTask s id <;> rfl

theorem enqueueTask_blocked (s : Scheduler) (id : String) :
    (enqueueTask s id).blockedTasks = s.blockedTasks := by
  unfold enqueueTask; cases lookupTask s id <;> rfl

theorem enqueueTask_running (s : Scheduler) (id : String) :
    (enqueueTask s id).runningTasks = s.runningTasks := by
  unfold enqueueTask; cases lookupTask s id <;> rfl

theorem enqueueTask_graph (s : Scheduler) (id : String) :
    (enqueueTask s id).dependencyGraph = s.dependencyGraph := by
  unfold enqueueTask; cases lookupTask s id <;> rfl

theorem enqueueTask_stats (s : Scheduler) (id : String) :
    (enqueueTask s id).stats = s.stats := by
  unfold enqueueTask; cases lookupTask s id <;> rfl

theorem removeFromQueue_taskMap (s : Scheduler) (id : String) :
    (removeFromQueue s id).taskMap = s.taskMap := by
  unfold removeFromQueue; cases lookupTask s id <;> rfl

theorem removeFromQueue_blocked (s : Scheduler) (id : String) :
    (removeFromQueue s id).blockedTasks = s.blockedTasks := by
  unfold removeFromQueue; cases lookupTask s id <;> rfl

theorem removeFromQueue_running (s : Scheduler) (id : String) :
    (removeFromQueue s id).runningTasks = s.runningTasks := by
  unfold removeFromQueue; cases lookupTask s id <;> rfl

@[simp] theorem updateQueueSizes_taskMap (s : Scheduler) :
    (updateQueueSizes s).taskMap = s.taskMap := rfl

@[simp] theorem updateQueueSizes_queues (s : Scheduler) :
    (updateQueueSizes s).queues = s.queues := rfl

@[simp] theorem updateQueueSizes_blocked (s : Scheduler) :
    (updateQueueSizes s).blockedTasks = s.blockedTasks := rfl

@[simp] theorem updateQueueSizes_running (s : Scheduler) :
    (updateQueueSizes s).runningTasks = s.runningTasks := rfl

@[simp] theorem updateQueueSizes_graph (s : Scheduler) :
    (updateQueueSizes s).dependencyGraph = s.dependencyGraph := rfl

theorem updateAverages_taskMap (s : Scheduler) (id : String) :
    (updateAverageExecuteTime s id).taskMap = s.taskMap ∧
    (updateAverageWaitTime s id).taskMap = s.taskMap := by
  constructor
  · unfold updateAverageExecuteTime
    split
    · split <;> rfl
    · rfl
  · unfold updateAverageWaitTime
    split
    · split <;> rfl
    · rfl

theorem updateAverages_non_stats (s : Scheduler) (id : String) :
    ((updateAverageExecuteTime s id).queues = s.queues ∧
     (updateAverageExecuteTime s id).blockedTasks = s.blockedTasks ∧
     (updateAverageExecuteTime s id).runningTasks = s.runningTasks ∧
     (updateAverageExecuteTime s id).dependencyGraph = s.dependencyGraph) ∧
    ((updateAverageWaitTime s id).queues = s.queues ∧
     (updateAverageWaitTime s id).blockedTasks = s.blockedTasks ∧
     (updateAverageWaitTime s id).runningTasks = s.runningTasks ∧
     (updateAverageWaitTime s id).dependencyGraph = s.dependencyGraph) := by
  constructor
  · unfold updateAverageExecuteTime
    split
    · split <;> exact ⟨rfl, rfl, rfl, rfl⟩
    · exact ⟨rfl, rfl, rfl, rfl⟩
  · unfold updateAverageWaitTime
    split
    · split <;> exact ⟨rfl, rfl, rfl, rfl⟩
    · exact ⟨rfl, rfl, rfl, rfl⟩

/-- `areDependenciesMet` reads only the task map. -/
theorem areDependenciesMet_congr (s s' : Scheduler) (deps : List String)
    (h : s'.taskMap = s.taskMap) :
    areDependenciesMet s' deps = areDependenciesMet s deps := by
  unfold areDependenciesMet lookupTask
  rw [h]

/-- The queues of `enqueueTask` for a present task: the task's bucket
gains the id at its tail, the other buckets are untouched. -/
theorem enqueueTask_queues (s : Scheduler) (id : String) (t : Task)
    (h : lookupTask s id = some t) (p : TaskPriority) :
    getQ (enqueueTask s id).queues p =
      if p = t.priority then getQ s.queues p ++ [id] else getQ s.queues p := by
  by_cases hp : p = t.priority <;> simp [enqueueTask, h, hp]

/-- The body of the wake-up fold in `processDependents`. -/
def wakeStep (acc : Scheduler) (depId : String) : Scheduler :=
  if depId ∈ acc.blockedTasks then
    match lookupTask acc depId with
    | some depTask =>
        if areDependenciesMet acc depTask.dependencies then
          enqueueTask { acc with blockedTasks := eraseF acc.blockedTasks depId }
            depId
        else acc
    | none => acc
  else acc

theorem processDependents_eq_fold (s : Scheduler) (cid : String) :
    processDependents s cid =
      match graphGet s cid with
      | none => s
      | some dependents =>
        let s' := dependents.foldl wakeStep s
        { s' with dependencyGraph := delL s'.dependencyGraph cid } := by
  unfold processDependents wakeStep
  rfl

theorem wakeStep_taskMap (s : Scheduler) (x : String) :
    (wakeStep s x).taskMap = s.taskMap := by
  unfold wakeStep
  split
  · split
    · split
      · rw [enqueueTask_taskMap]
      · rfl
    · rfl
  · rfl

theorem wakeStep_running (s : Scheduler) (x : String) :
    (wakeStep s x).runningTasks = s.runningTasks := by
  unfold wakeStep
  split
  · split
    · split
      · rw [enqueueTask_running]
      · rfl
    · rfl
  · rfl

theorem wakeStep_stats (s : Scheduler) (x : String) :
    (wakeStep s x).stats = s.stats := by
  unfold wakeStep
  split
  · split
    · split
      · rw [enqueueTask_stats]
      · rfl
    · rfl
  · rfl

theorem wakeStep_graph (s : Scheduler) (x : String) :
    (wakeStep s x).dependencyGraph = s.dependencyGraph := by
  unfold wakeStep
  split
  · split
    · split
      · rw [enqueueTask_graph]
      · rfl
    · rfl
  · rfl

theorem foldWake_taskMap (l : List String) (s : Scheduler) :
    (l.foldl wakeStep s).taskMap = s.taskMap := by
  induction l generalizing s with
  | nil => rfl
  | cons x rest ih => rw [List.foldl_cons, ih, wakeStep_taskMap]

theorem foldWake_running (l : List String) (s : Scheduler) :
    (l.foldl wakeStep s).runningTasks = s.runningTasks := by
  induction l generalizing s with
  | nil => rfl
  | cons x rest ih => rw [List.foldl_cons, ih, wakeStep_running]

theorem foldWake_stats (l : List String) (s : Scheduler) :
    (l.foldl wakeStep s).stats = s.stats := by
  induction l generalizing s with
  | nil => rfl
  | cons x rest ih => rw [List.foldl_cons, ih, wakeStep_stats]

theorem foldWake_graph (l : List String) (s : Scheduler) :
    (l.foldl wakeStep s).dependencyGraph = s.dependencyGraph := by
  induction l generalizing s with
  | nil => rfl
  | cons x rest ih => rw [List.foldl_cons, ih, wakeStep_graph]

theorem processDependents_taskMap (s : Scheduler) (cid : String) :
    (processDependents s cid).taskMap = s.taskMap := by
  rw [processDependents_eq_fold]
  cases graphGet s cid with
  | none => rfl
  | some deps => simpa using foldWake_taskMap deps s

theorem processDependents_running (s : Scheduler) (cid : String) :
    (processDependents s cid).runningTasks = s.runningTasks := by
  rw [processDependents_eq_fold]
  cases graphGet s cid with
  | none => rfl
  | some deps => simpa using foldWake_running deps s

theorem processDependents_stats (s : Scheduler) (cid : String) :
    (processDependents s cid).stats = s.stats := by
  rw [processDependents_eq_fold]
  cases graphGet s cid with
  | none => rfl
  | some deps => simpa using foldWake_stats deps s

/-- The registry entry written by `completeTask`: result, COMPLETED
status, completion timestamp; everything else (in particular a stale
failure cause) is untouched. -/
theorem completeTask_taskMap (s : Scheduler) (id : String) (res now : Nat) :
    (completeTask s id res now).taskMap =
      updL s.taskMap id (fun t => { t with
        result := some res,
        status := TaskStatus.COMPLETED,
        completedAt := some now }) := by
  unfold completeTask
  rw [processDependents_taskMap, (updateAverages_taskMap _ _).2,
    (updateAverages_taskMap _ _).1]
  rfl

/-! ### Claim C10 -/

/-- C10: for every task id present in the registry, `cancelTask` returns
true and sets the task's status to CANCELLED regardless of the task's
current status — including tasks already in a terminal state — and sets
the pendingTasks counter to `max 0 (pendingTasks - 1)` even though the
task was neither pending nor running. -/
theorem C10_cancelTask_unconditional (s : Scheduler) (id : String) (t : Task)
    (h : lookupTask s id = some t) :
    (cancelTask s id).2 = true ∧
    (∃ t', lookupTask (cancelTask s id).1 id = some t' ∧
       t'.status = TaskStatus.CANCELLED) ∧
    (cancelTask s id).1.stats.pendingTasks =
      max 0 (s.stats.pendingTasks - 1) := by
  have h' : lookupL s.taskMap id = some t := h
  by_cases hr : t.status = TaskStatus.RUNNING <;>
    refine ⟨?_, ?_, ?_⟩ <;>
      simp [cancelTask, lookupTask, h', hr, updTask, removeFromQueue,
        updateQueueSizes, lookupL_updL]

/-- Closed witness for C10: cancelling a COMPLETED task in a concrete
state flips it to CANCELLED and clamps the pending counter. -/
theorem C10_cancelTask_unconditional_witness :
    (cancelTask cancelFixture "done").2 = true ∧
    (∃ t', lookupTask (cancelTask cancelFixture "done").1 "done" = some t' ∧
       t'.status = TaskStatus.CANCELLED) ∧
    (cancelTask cancelFixture "done").1.stats.pendingTasks =
      max 0 (cancelFixture.stats.pendingTasks - 1) :=
  C10_cancelTask_unconditional cancelFixture "done" doneTask (by decide)

/-! ### Claim C4 -/

/-- The task id `addTask` resolves for a configuration: the supplied id,
or a generated one. -/
def resolvedId (s : Scheduler) (cfg : TaskConfig) (now : Nat) : String :=
  match cfg.id with
  | some i => i
  | none => generateTaskId (s.taskIdCounter + 1) now

/-- Whether an `addTask` outcome is a synchronous throw. -/
def isThrow : Except String String → Bool
  | Except.error _ => true
  | Except.ok _ => false

/-- C4: `addTask` throws synchronously exactly when the registry size
has reached the capacity ceiling, or the resolved id already exists in
the registry, or no executor is registered for the requested type; and
in every rejection case the registry, priority queues, blocked pool,
dependency graph, running set and statistics are all unchanged. -/
theorem C4_addTask_rejection (s : Scheduler) (cfg : TaskConfig) (now : Nat) :
    (isThrow (addTask s cfg now).2 = true ↔
      (s.taskMap.length ≥ s.config.queueSizeLimit ∨
       (lookupTask s (resolvedId s cfg now)).isSome = true ∨
       cfg.type ∉ s.executors)) ∧
    (isThrow (addTask s cfg now).2 = true →
      (addTask s cfg now).1.taskMap = s.taskMap ∧
      (addTask s cfg now).1.queues = s.queues ∧
      (addTask s cfg now).1.blockedTasks = s.blockedTasks ∧
      (addTask s cfg now).1.dependencyGraph = s.dependencyGraph ∧
      (addTask s cfg now).1.runningTasks = s.runningTasks ∧
      (addTask s cfg now).1.stats = s.stats) := by
  by_cases h1 : s.taskMap.length ≥ s.config.queueSizeLimit
  · simp [addTask, h1, isThrow]
  · cases hid : cfg.id with
    | some i =>
      by_cases h2 : (lookupL s.taskMap i).isSome = true
      · simp [addTask, h1, hid, h2, isThrow, resolvedId, lookupTask]
      · by_cases h3 : cfg.type ∈ s.executors
        · simp [addTask, h1, hid, h2, h3, isThrow, resolvedId, lookupTask]
        · simp [addTask, h1, hid, h2, h3, isThrow, resolvedId, lookupTask]
    | none =>
      by_cases h2 :
          (lookupL s.taskMap (generateTaskId (s.taskIdCounter + 1) now)).isSome = true
      · simp [addTask, h1, hid, h2, isThrow, resolvedId, lookupTask]
      · by_cases h3 : cfg.type ∈ s.executors
        · simp [addTask, h1, hid, h2, h3, isThrow, resolvedId, lookupTask]
        · simp [addTask, h1, hid, h2, h3, isThrow, resolvedId, lookupTask]

/-- Closed witness for C4: a duplicate id in a concrete state throws and
leaves the listed state components unchanged. -/
theorem C4_addTask_rejection_witness :
    (isThrow (addTask dupFixture (baseCfg "a") 5).2 = true ↔
      (dupFixture.taskMap.length ≥ dupFixture.config.queueSizeLimit ∨
       (lookupTask dupFixture (resolvedId dupFixture (baseCfg "a") 5)).isSome = true ∨
       (baseCfg "a").type ∉ dupFixture.executors)) ∧
    ((addTask dupFixture (baseCfg "a") 5).1.taskMap = dupFixture.taskMap ∧
     (addTask dupFixture (baseCfg "a") 5).1.stats = dupFixture.stats) := by
  refine ⟨(C4_addTask_rejection dupFixture (baseCfg "a") 5).1, ?_⟩
  have h := (C4_addTask_rejection dupFixture (baseCfg "a") 5).2 (by decide)
  exact ⟨h.1, h.2.2.2.2.2⟩

/-! ### Claim C9 -/

/-- Folding abort over any id list only rewrites task records. -/
theorem foldAbort_components (l : List String) (s : Scheduler) :
    ((l.foldl (fun acc x => updTask acc x fun u => { u with aborted := true }) s).queues
        = s.queues) ∧
    ((l.foldl (fun acc x => updTask acc x fun u => { u with aborted := true }) s).blockedTasks
        = s.blockedTasks) ∧
    ((l.foldl (fun acc x => updTask acc x fun u => { u with aborted := true }) s).dependencyGraph
        = s.dependencyGraph) ∧
    ((l.foldl (fun acc x => updTask acc x fun u => { u with aborted := true }) s).runningTasks
        = s.runningTasks) ∧
    ((l.foldl (fun acc x => updTask acc x fun u => { u with aborted := true }) s).stats
        = s.stats) := by
  induction l generalizing s with
  | nil => exact ⟨rfl, rfl, rfl, rfl, rfl⟩
  | cons x rest ih =>
    simpa using ih (updTask s x fun u => { u with aborted := true })

/-- The abort fold of `clear` only rewrites task records. -/
theorem clearAbortPhase_components (s : Scheduler) :
    (clearAbortPhase s).queues = s.queues ∧
    (clearAbortPhase s).blockedTasks = s.blockedTasks ∧
    (clearAbortPhase s).dependencyGraph = s.dependencyGraph ∧
    (clearAbortPhase s).runningTasks = s.runningTasks ∧
    (clearAbortPhase s).stats = s.stats :=
  foldAbort_components s.runningTasks s

/-- Folding abort over a list preserves an already-set aborted flag. -/
theorem foldAbort_keeps_aborted (l : List String) (s : Scheduler)
    (id : String) (t : Task) (h : lookupTask s id = some t)
    (ha : t.aborted = true) :
    ∃ t', lookupTask
        (l.foldl (fun acc x => updTask acc x fun u => { u with aborted := true }) s)
        id = some t' ∧ t'.aborted = true := by
  induction l generalizing s t with
  | nil => exact ⟨t, h, ha⟩
  | cons x rest ih =>
    by_cases hx : id = x
    · subst hx
      exact ih (updTask s id fun u => { u with aborted := true })
        { t with aborted := true } (by simp [h]) rfl
    · exact ih (updTask s x fun u => { u with aborted := true }) t
        (by simp [hx, h]) ha

/-- Folding abort over a list sets the flag of every member. -/
theorem foldAbort_sets_aborted (l : List String) (s : Scheduler)
    (id : String) (t : Task) (h : lookupTask s id = some t) (hm : id ∈ l) :
    ∃ t', lookupTask
        (l.foldl (fun acc x => updTask acc x fun u => { u with aborted := true }) s)
        id = some t' ∧ t'.aborted = true := by
  induction l generalizing s t with
  | nil => cases hm
  | cons x rest ih =>
    by_cases hx : id = x
    · subst hx
      exact foldAbort_keeps_aborted rest
        (updTask s id fun u => { u with aborted := true })
        id { t with aborted := true } (by simp [h]) rfl
    · rcases List.mem_cons.1 hm with h1 | h1
      · exact absurd h1 hx
      · exact ih (updTask s x fun u => { u with aborted := true }) t
          (by simp [hx, h]) h1

/-- C9 counterexample: the claim says every statistics counter is reset
by `clear`, but `completedTasks` survives: in a state with one completed
task, `clear` leaves `completedTasks = 1`. -/
theorem C9_clear_counterexample :
    (clear cancelFixture).stats.completedTasks = 1 ∧ (1 : Nat) ≠ 0 := by
  constructor
  · rfl
  · decide

/-- C9 (amended): `clear` signals the cancellation handle of every
running task (in its abort phase), empties the registry, all three
priority queues, the blocked pool, the dependency graph and the running
set, and resets `pendingTasks`, `runningTasks`, `totalTasks` and the
queue-size gauges to zero — while `completedTasks`, `failedTasks`, the
two averages, `frameTime` and `fps` keep their previous values. -/
theorem C9_clear_amended (s : Scheduler) :
    (∀ id t, id ∈ s.runningTasks → lookupTask s id = some t →
      ∃ t', lookupTask (clearAbortPhase s) id = some t' ∧ t'.aborted = true) ∧
    (clear s).taskMap = [] ∧
    (clear s).queues = { high := [], normal := [], low := [] } ∧
    (clear s).blockedTasks = [] ∧
    (clear s).dependencyGraph = [] ∧
    (clear s).runningTasks = [] ∧
    (clear s).stats = { s.stats with
      pendingTasks := 0,
      runningTasks := 0,
      totalTasks := 0,
      queueSizeHigh := 0,
      queueSizeNormal := 0,
      queueSizeLow := 0 } := by
  refine ⟨?_, rfl, rfl, rfl, rfl, rfl, ?_⟩
  · intro id t hm h
    exact foldAbort_sets_aborted s.runningTasks s id t h hm
  · have hstats := (clearAbortPhase_components s).2.2.2.2
    simp [clear, updateQueueSizes, hstats]

/-- Closed witness for C9: clearing a state with one running task
signals its handle and zeroes the collections and live counters. -/
theorem C9_clear_amended_witness :
    (∃ t', lookupTask (clearAbortPhase runFixture) "run" = some t' ∧
       t'.aborted = true) ∧
    (clear runFixture).taskMap = [] ∧
    (clear runFixture).stats.totalTasks = 0 := by
  have h := C9_clear_amended runFixture
  refine ⟨h.1 "run" runTask (by decide) (by decide), h.2.1, ?_⟩
  rw [h.2.2.2.2.2.2]

/-! ### Claim C1 -/

/-- C1 counterexample: for a task admitted with an initial retry count
of 1 under the EXPONENTIAL strategy, the first failure has consumed one
attempt, so the claimed formula `base * 2^attempts_consumed` yields
`100 * 2^1 = 200` ms — but the code computes `100 * 2^(3 - 0) = 800` ms
(the exponent hard-codes an initial count of 3). -/
theorem C1_retry_delay_counterexample :
    (handleTaskError retryFixture "r" 7 2).2 = some 800 ∧
    (100 * (2 : ℚ) ^ (1 : ℕ) = 200) ∧ (800 : ℚ) ≠ 200 := by
  refine ⟨?_, by norm_num, by norm_num⟩
  have h' : lookupL retryFixture.taskMap "r" = some retryTask := by decide
  simp [handleTaskError, lookupTask, updTask, lookupL_updL, h', retryTask]
  norm_num

/-- C1 (amended): on a non-cancellation failure with remaining retry
count > 0, `handleTaskError` decrements the count, resets the status to
PENDING, replaces the cancellation handle with a fresh one, and computes
a delay of 0 ms for LINEAR and `100 * 2^(3 - remaining)` ms for
EXPONENTIAL (where `remaining` is the count after the decrement) — a
formula that matches `base * 2^attempts_consumed` only when the initial
retry count is 3; the deferred callback then re-appends the same task id
to the tail of the queue of its current priority and increments the
pending counter. -/
theorem C1_retry_requeue_amended (s : Scheduler) (id : String) (t : Task)
    (err now : Nat) (h : lookupTask s id = some t) (hr : t.retryCount > 0) :
    (∃ t', lookupTask (handleTaskError s id err now).1 id = some t' ∧
       t'.id = t.id ∧
       t'.priority = t.priority ∧
       t'.retryCount = t.retryCount - 1 ∧
       t'.status = TaskStatus.PENDING ∧
       t'.abortGen = t.abortGen + 1 ∧
       t'.aborted = false) ∧
    (handleTaskError s id err now).2 =
      some (match t.retryStrategy with
        | TaskRetryStrategy.LINEAR => (0 : ℚ)
        | TaskRetryStrategy.EXPONENTIAL =>
            100 * (2 : ℚ) ^ ((3 : ℤ) - ((t.retryCount - 1 : Nat) : ℤ))) ∧
    (handleTaskError s id err now).1.queues = s.queues ∧
    (∀ p, getQ (retryRequeue (handleTaskError s id err now).1 id).queues p =
       if p = t.priority then getQ s.queues p ++ [id] else getQ s.queues p) ∧
    (retryRequeue (handleTaskError s id err now).1 id).stats.pendingTasks =
      (handleTaskError s id err now).1.stats.pendingTasks + 1 := by
  have h' : lookupL s.taskMap id = some t := h
  refine ⟨?_, ?_, ?_, ?_, ?_⟩ <;>
    simp [handleTaskError, lookupTask, h', hr, updTask, lookupL_updL,
      retryRequeue, enqueueTask]
  · intro p
    by_cases hp : p = t.priority <;> simp [hp]

/-- Closed witness for C1 (amended), at a concrete EXPONENTIAL task with
one retry left: the code's delay is `100 * 2^(3 - 0)`. -/
theorem C1_retry_requeue_amended_witness :
    (∃ t', lookupTask (handleTaskError retryFixture "r" 7 2).1 "r" = some t' ∧
       t'.id = retryTask.id ∧
       t'.priority = retryTask.priority ∧
       t'.retryCount = retryTask.retryCount - 1 ∧
       t'.status = TaskStatus.PENDING ∧
       t'.abortGen = retryTask.abortGen + 1 ∧
       t'.aborted = false) ∧
    (handleTaskError retryFixture "r" 7 2).2 =
      some (match retryTask.retryStrategy with
        | TaskRetryStrategy.LINEAR => (0 : ℚ)
        | TaskRetryStrategy.EXPONENTIAL =>
            100 * (2 : ℚ) ^ ((3 : ℤ) - ((retryTask.retryCount - 1 : Nat) : ℤ))) := by
  have h := C1_retry_requeue_amended retryFixture "r" retryTask 7 2
    (by decide) (by decide)
  exact ⟨h.1, h.2.1⟩

/-! ### Claim C2 -/

/-- C2 counterexample: a failing task with retries remaining is returned
to PENDING (non-terminal) yet carries the recorded failure cause. -/
theorem C2_error_before_terminal_counterexample :
    ((lookupTask (failStep retryFixture "r" 7 2).1 "r").map Task.status =
       some TaskStatus.PENDING) ∧
    ((lookupTask (failStep retryFixture "r" 7 2).1 "r").bind Task.error =
       some 7) := by
  exact ⟨by decide, by decide⟩

/-- C2 (amended): `handleTaskError` records the failure cause
unconditionally — even when retries remain and the task is reset to
PENDING, a non-terminal state — and `completeTask` records the result
and COMPLETED status without clearing a previously recorded failure
cause, so a retried-then-successful task carries both fields. -/
theorem C2_result_error_amended (s : Scheduler) (id : String) (t : Task)
    (err res now : Nat) (h : lookupTask s id = some t) :
    (∃ t', lookupTask (handleTaskError s id err now).1 id = some t' ∧
       t'.error = some err ∧
       (t.retryCount > 0 → t'.status = TaskStatus.PENDING) ∧
       (t.retryCount = 0 → t'.status = TaskStatus.FAILED)) ∧
    (∃ t', lookupTask (completeTask s id res now) id = some t' ∧
       t'.result = some res ∧
       t'.status = TaskStatus.COMPLETED ∧
       t'.error = t.error) := by
  have h' : lookupL s.taskMap id = some t := h
  constructor
  · by_cases hr : t.retryCount > 0 <;>
      · simp [handleTaskError, lookupTask, h', hr, updTask, lookupL_updL]
        try omega
  · have hv : lookupL (completeTask s id res now).taskMap id =
        some { t with result := some res, status := TaskStatus.COMPLETED, completedAt := some now } := by
      rw [completeTask_taskMap, lookupL_updL_self, h']
      rfl
    exact ⟨_, hv, rfl, rfl, rfl⟩

/-- Closed witness for C2 (amended) at the concrete retry fixture. -/
theorem C2_result_error_amended_witness :
    (∃ t', lookupTask (handleTaskError retryFixture "r" 7 2).1 "r" = some t' ∧
       t'.error = some 7 ∧
       (retryTask.retryCount > 0 → t'.status = TaskStatus.PENDING) ∧
       (retryTask.retryCount = 0 → t'.status = TaskStatus.FAILED)) ∧
    (∃ t', lookupTask (completeTask retryFixture "r" 9 2) "r" = some t' ∧
       t'.result = some 9 ∧
       t'.status = TaskStatus.COMPLETED ∧
       t'.error = retryTask.error) :=
  C2_result_error_amended retryFixture "r" retryTask 7 9 2 (by decide)

/-! ### Claim C8 -/

/-- The wake-up fold releases a blocked task only when all of its
dependencies are COMPLETED (checked against an unchanged task map). -/
theorem foldWake_release (l : List String) (s : Scheduler) (b : String)
    (hb : b ∈ s.blockedTasks) (hnb : b ∉ (l.foldl wakeStep s).blockedTasks) :
    ∃ dt, lookupTask s b = some dt ∧
      areDependenciesMet s dt.dependencies = true := by
  induction l generalizing s with
  | nil => exact absurd hb hnb
  | cons x rest ih =>
    rw [List.foldl_cons] at hnb
    by_cases hb1 : b ∈ (wakeStep s x).blockedTasks
    · obtain ⟨dt, hdt, hmet⟩ := ih (wakeStep s x) hb1 hnb
      have hmap : lookupTask (wakeStep s x) b = lookupTask s b := by
        unfold lookupTask
        rw [wakeStep_taskMap]
      rw [hmap] at hdt
      rw [areDependenciesMet_congr s (wakeStep s x) dt.dependencies
        (wakeStep_taskMap s x)] at hmet
      exact ⟨dt, hdt, hmet⟩
    · unfold wakeStep at hb1
      by_cases hx : x ∈ s.blockedTasks
      · simp only [hx, if_true] at hb1
        cases hl : lookupTask s x with
        | none => rw [hl] at hb1; exact absurd hb hb1
        | some dt =>
          rw [hl] at hb1
          by_cases hmet : areDependenciesMet s dt.dependencies = true
          · simp only [hmet, if_true] at hb1
            rw [enqueueTask_blocked] at hb1
            by_cases hbx : b = x
            · subst hbx; exact ⟨dt, hl, hmet⟩
            · exact absurd ((mem_eraseF_of_ne _ _ _ hbx).2 hb) hb1
          · simp only [hmet] at hb1
            exact absurd hb hb1
      · simp only [hx, if_false] at hb1
        exact absurd hb hb1

/-- A RUNNING task with no retries, with "d" blocked on it. -/
def failDepTask : Task := { runTask with id := "f" }

/-- A PENDING task blocked on "f". -/
def blockedOnF : Task :=
  { retryTask with
    id := "d",
    status := TaskStatus.PENDING,
    retryCount := 0,
    dependencies := ["f"] }

/-- Scheduler state: "d" blocked on the running, about-to-fail "f". -/
def blockedStats : SchedulerStats :=
  { initialStats with totalTasks := 2, runningTasks := 1, pendingTasks := 1 }

def blockedFixture : Scheduler :=
  { freshSched with
    taskMap := [("f", failDepTask), ("d", blockedOnF)],
    blockedTasks := ["d"],
    dependencyGraph := [("f", ["d"])],
    runningTasks := ["f"],
    stats := blockedStats }

/-- A COMPLETED task with "d2" blocked on it (about to be woken). -/
def wakeSrcTask : Task := { doneTask with id := "c" }

/-- A PENDING task blocked on the completed "c". -/
def blockedOnC : Task :=
  { retryTask with
    id := "d2",
    status := TaskStatus.PENDING,
    retryCount := 0,
    dependencies := ["c"] }

/-- Scheduler state: "d2" blocked on the already-completed "c". -/
def wakeStats : SchedulerStats :=
  { initialStats with totalTasks := 2, completedTasks := 1, pendingTasks := 1 }

def wakeFixture : Scheduler :=
  { freshSched with
    taskMap := [("c", wakeSrcTask), ("d2", blockedOnC)],
    blockedTasks := ["d2"],
    dependencyGraph := [("c", ["d2"])],
    stats := wakeStats }

/-- `handleTaskError` never touches the blocked pool or the ready
queues (the retry re-enqueue is deferred; the FAILED path only stamps
the record and bumps the failure counter). -/
theorem handleTaskError_blocked_queues (s : Scheduler) (id : String)
    (err now : Nat) :
    (handleTaskError s id err now).1.blockedTasks = s.blockedTasks ∧
    (handleTaskError s id err now).1.queues = s.queues := by
  unfold handleTaskError
  dsimp only
  split
  · exact ⟨rfl, rfl⟩
  · split
    · exact ⟨rfl, rfl⟩
    · exact ⟨rfl, rfl⟩

/-- C8: a blocked task is never released by a dependency that FAILED or
was CANCELLED: (a) the failure path (`failStep`, covering both the
retrying and the retries-exhausted FAILED outcome) leaves the blocked
pool and the ready queues unchanged; (b) `cancelTask` removes at most
the cancelled id itself from the blocked pool, leaving every other
blocked task blocked; (c) the only operation that releases a blocked
task, the completion-driven `processDependents`, releases it only when
every one of its dependencies is COMPLETED. -/
theorem C8_fail_closed (s : Scheduler) (id : String) (err now : Nat)
    (cid b : String) :
    ((failStep s id err now).1.blockedTasks = s.blockedTasks ∧
     (failStep s id err now).1.queues = s.queues) ∧
    ((cancelTask s id).1.blockedTasks =
       (if (lookupTask s id).isSome then eraseF s.blockedTasks id
        else s.blockedTasks)) ∧
    (b ∈ s.blockedTasks → b ∉ (processDependents s cid).blockedTasks →
      ∃ dt, lookupTask s b = some dt ∧
        areDependenciesMet s dt.dependencies = true) := by
  refine ⟨?_, ?_, ?_⟩
  · unfold failStep
    cases h : lookupTask s id with
    | none => exact ⟨rfl, rfl⟩
    | some t =>
      by_cases ha : t.aborted
      · simp [ha, finallyBlock]
      · have hb := handleTaskError_blocked_queues s id err now
        simp [ha, finallyBlock, hb.1, hb.2]
  · unfold cancelTask
    cases h : lookupTask s id with
    | none => simp [h]
    | some t =>
      by_cases hr : t.status = TaskStatus.RUNNING <;>
        simp [h, hr, removeFromQueue_blocked]
  · intro hb hnb
    rw [processDependents_eq_fold] at hnb
    cases hg : graphGet s cid with
    | none => rw [hg] at hnb; exact absurd hb hnb
    | some deps =>
      rw [hg] at hnb
      simp only at hnb
      exact foldWake_release deps s b hb hnb

/-! ### Promotion component lemmas -/

theorem promoteDeps_cons (fuel : Nat) (s : Scheduler) (d : String)
    (rest : List String) (tg : TaskPriority) :
    promoteDeps fuel s (d :: rest) tg =
      promoteDeps fuel (promoteDepStep fuel s d tg) rest tg := by
  rw [promoteDeps, promoteDepStep]

theorem promotePriority_succ (fuel : Nat) (s : Scheduler) (id : String)
    (tg : TaskPriority) :
    promotePriority (fuel + 1) s id tg =
      match lookupTask s id with
      | none => s
      | some t =>
        if prioVal t.priority ≤ prioVal tg then s
        else
          promoteDeps fuel
            (if t.status = TaskStatus.PENDING ∧ id ∉ s.blockedTasks then
               promoteRelocate s id t tg
             else updTask s id fun u => { u with priority := tg })
            t.dependencies tg := by
  rw [promotePriority]

@[simp] theorem promoteRelocate_blocked (s : Scheduler) (id : String)
    (t : Task) (tg : TaskPriority) :
    (promoteRelocate s id t tg).blockedTasks = s.blockedTasks := rfl

@[simp] theorem promoteRelocate_graph (s : Scheduler) (id : String)
    (t : Task) (tg : TaskPriority) :
    (promoteRelocate s id t tg).dependencyGraph = s.dependencyGraph := rfl

@[simp] theorem promoteRelocate_running (s : Scheduler) (id : String)
    (t : Task) (tg : TaskPriority) :
    (promoteRelocate s id t tg).runningTasks = s.runningTasks := rfl

@[simp] theorem promoteRelocate_stats (s : Scheduler) (id : String)
    (t : Task) (tg : TaskPriority) :
    (promoteRelocate s id t tg).stats = s.stats := rfl

@[simp] theorem promoteRelocate_executors (s : Scheduler) (id : String)
    (t : Task) (tg : TaskPriority) :
    (promoteRelocate s id t tg).executors = s.executors := rfl

@[simp] theorem promoteRelocate_config (s : Scheduler) (id : String)
    (t : Task) (tg : TaskPriority) :
    (promoteRelocate s id t tg).config = s.config := rfl

/-- `promotePriority` (and its dependency fold) only rewrites the ready
queues and the task records: the blocked pool, dependency graph, running
set and statistics are untouched. -/
theorem promote_components (fuel : Nat) :
    (∀ (s : Scheduler) (id : String) (tg : TaskPriority),
      (promotePriority fuel s id tg).blockedTasks = s.blockedTasks ∧
      (promotePriority fuel s id tg).dependencyGraph = s.dependencyGraph ∧
      (promotePriority fuel s id tg).runningTasks = s.runningTasks ∧
      (promotePriority fuel s id tg).stats = s.stats) ∧
    (∀ (s : Scheduler) (l : List String) (tg : TaskPriority),
      (promoteDeps fuel s l tg).blockedTasks = s.blockedTasks ∧
      (promoteDeps fuel s l tg).dependencyGraph = s.dependencyGraph ∧
      (promoteDeps fuel s l tg).runningTasks = s.runningTasks ∧
      (promoteDeps fuel s l tg).stats = s.stats) := by
  induction fuel with
  | zero =>
    have hQ : ∀ (s : Scheduler) (id : String) (tg : TaskPriority),
        promotePriority 0 s id tg = s := by
      intro s id tg
      rw [promotePriority]
    have hD : ∀ (s : Scheduler) (l : List String) (tg : TaskPriority),
        promoteDeps 0 s l tg = s := by
      intro s l tg
      induction l generalizing s with
      | nil => rw [promoteDeps]
      | cons d rest ihl =>
        rw [promoteDeps_cons]
        have hstep : promoteDepStep 0 s d tg = s := by
          unfold promoteDepStep
          cases lookupTask s d with
          | none => rfl
          | some dt =>
            by_cases hdt : dt.status ≠ TaskStatus.COMPLETED <;> simp [hdt, hQ]
        rw [hstep]
        exact ihl s
    exact ⟨fun s id tg => by rw [hQ]; exact ⟨rfl, rfl, rfl, rfl⟩,
           fun s l tg => by rw [hD]; exact ⟨rfl, rfl, rfl, rfl⟩⟩
  | succ fuel ih =>
    have hQ : ∀ (s : Scheduler) (id : String) (tg : TaskPriority),
        (promotePriority (fuel + 1) s id tg).blockedTasks = s.blockedTasks ∧
        (promotePriority (fuel + 1) s id tg).dependencyGraph = s.dependencyGraph ∧
        (promotePriority (fuel + 1) s id tg).runningTasks = s.runningTasks ∧
        (promotePriority (fuel + 1) s id tg).stats = s.stats := by
      intro s id tg
      rw [promotePriority_succ]
      cases lookupTask s id with
      | none => simp
      | some t =>
        dsimp only
        by_cases hle : prioVal t.priority ≤ prioVal tg
        · rw [if_pos hle]
          exact ⟨rfl, rfl, rfl, rfl⟩
        · rw [if_neg hle]
          by_cases hrel : t.status = TaskStatus.PENDING ∧ id ∉ s.blockedTasks
          · rw [if_pos hrel]
            obtain ⟨hb, hg, hr, hs⟩ :=
              ih.2 (promoteRelocate s id t tg) t.dependencies tg
            simp only [promoteRelocate_blocked, promoteRelocate_graph,
              promoteRelocate_running, promoteRelocate_stats] at hb hg hr hs
            exact ⟨hb, hg, hr, hs⟩
          · rw [if_neg hrel]
            obtain ⟨hb, hg, hr, hs⟩ :=
              ih.2 (updTask s id fun u => { u with priority := tg })
                t.dependencies tg
            simp only [updTask_blocked, updTask_graph, updTask_running,
              updTask_stats] at hb hg hr hs
            exact ⟨hb, hg, hr, hs⟩
    refine ⟨hQ, ?_⟩
    intro s l tg
    induction l generalizing s with
    | nil =>
      rw [promoteDeps]
      exact ⟨rfl, rfl, rfl, rfl⟩
    | cons d rest ihl =>
      rw [promoteDeps_cons]
      have hstep :
          (promoteDepStep (fuel + 1) s d tg).blockedTasks = s.blockedTasks ∧
          (promoteDepStep (fuel + 1) s d tg).dependencyGraph = s.dependencyGraph ∧
          (promoteDepStep (fuel + 1) s d tg).runningTasks = s.runningTasks ∧
          (promoteDepStep (fuel + 1) s d tg).stats = s.stats := by
        unfold promoteDepStep
        cases lookupTask s d with
        | none => exact ⟨rfl, rfl, rfl, rfl⟩
        | some dt =>
          dsimp only
          by_cases hdt : dt.status ≠ TaskStatus.COMPLETED
          · rw [if_pos hdt]
            exact hQ s d tg
          · rw [if_neg hdt]
            exact ⟨rfl, rfl, rfl, rfl⟩
      obtain ⟨hb, hg, hr, hs⟩ := ihl (promoteDepStep (fuel + 1) s d tg)
      exact ⟨hb.trans hstep.1, hg.trans hstep.2.1, hr.trans hstep.2.2.1,
        hs.trans hstep.2.2.2⟩

/-- Closed witness for C8: exhausting the retries of "f" (which "d" is
blocked on) leaves "d" in the blocked pool; and in a state where the
dependency "c" of "d2" did complete, the release hypothesis of the
theorem is dischargeable and yields the all-COMPLETED condition. -/
theorem C8_fail_closed_witness :
    ((failStep blockedFixture "f" 3 9).1.blockedTasks =
        blockedFixture.blockedTasks) ∧
    (∃ dt, lookupTask wakeFixture "d2" = some dt ∧
       areDependenciesMet wakeFixture dt.dependencies = true) :=
  ⟨(C8_fail_closed blockedFixture "f" 3 9 "f" "d").1.1,
   (C8_fail_closed wakeFixture "x" 0 0 "c" "d2").2.2 (by decide) (by decide)⟩

/-! ### Claim C5 -/

theorem mem_addToSet_self (l : List String) (id : String) :
    id ∈ addToSet l id := by
  unfold addToSet
  by_cases h : id ∈ l <;> simp [h]

theorem mem_addToSet_of_mem (l : List String) (id x : String) (h : x ∈ l) :
    x ∈ addToSet l id := by
  unfold addToSet
  by_cases hm : id ∈ l <;> simp [hm, h]

/-- `addEdge` guarantees the new edge is present. -/
theorem addEdge_mem_self (s : Scheduler) (d tid : String) :
    ∃ l, graphGet (addEdge s d tid) d = some l ∧ tid ∈ l := by
  unfold addEdge graphGet
  cases h : lookupL s.dependencyGraph d with
  | none =>
    refine ⟨[tid], ?_, by simp⟩
    show lookupL (s.dependencyGraph ++ [(d, [tid])]) d = some [tid]
    rw [lookupL_append_single, h]
    simp [Option.orElse]
  | some l0 =>
    refine ⟨addToSet l0 tid, ?_, mem_addToSet_self l0 tid⟩
    show lookupL (updL s.dependencyGraph d fun l => addToSet l tid) d = _
    rw [lookupL_updL_self, h]
    rfl

/-- `addEdge` never removes an existing edge. -/
theorem addEdge_mem_mono (s : Scheduler) (d' tid' d tid : String)
    (h : ∃ l, graphGet s d = some l ∧ tid ∈ l) :
    ∃ l, graphGet (addEdge s d' tid') d = some l ∧ tid ∈ l := by
  obtain ⟨l, hl, hm⟩ := h
  unfold addEdge graphGet
  cases h0 : lookupL s.dependencyGraph d' with
  | none =>
    refine ⟨l, ?_, hm⟩
    show lookupL (s.dependencyGraph ++ [(d', [tid'])]) d = some l
    rw [lookupL_append_single]
    rw [show graphGet s d = lookupL s.dependencyGraph d from rfl] at hl
    rw [hl]
    rfl
  | some l0 =>
    by_cases hd : d = d'
    · subst hd
      rw [show graphGet s d = lookupL s.dependencyGraph d from rfl] at hl
      rw [hl] at h0
      cases h0
      refine ⟨addToSet l tid', ?_, mem_addToSet_of_mem l tid' tid hm⟩
      show lookupL (updL s.dependencyGraph d fun x => addToSet x tid') d = _
      rw [lookupL_updL_self, hl]
      rfl
    · refine ⟨l, ?_, hm⟩
      show lookupL (updL s.dependencyGraph d' fun x => addToSet x tid') d = some l
      rw [lookupL_updL_ne _ _ _ _ hd]
      exact hl

/-- `admitDepStep` records the reverse edge for its dependency and keeps
every previously recorded edge; it leaves the blocked pool unchanged. -/
theorem admitDepStep_graph_self (tid : String) (prio : TaskPriority)
    (acc : Scheduler) (d : String) :
    ∃ l, graphGet (admitDepStep tid prio acc d) d = some l ∧ tid ∈ l := by
  unfold admitDepStep
  dsimp only
  obtain ⟨l, hl, hm⟩ := addEdge_mem_self acc d tid
  cases hlk : lookupTask (addEdge acc d tid) d with
  | none => exact ⟨l, hl, hm⟩
  | some dt =>
    dsimp only
    by_cases hdt : dt.status ≠ TaskStatus.COMPLETED ∧ dt.status ≠ TaskStatus.FAILED
    · rw [if_pos hdt]
      refine ⟨l, ?_, hm⟩
      show lookupL (promotePriority _ (addEdge acc d tid) d prio).dependencyGraph d = _
      rw [(promote_components _).1 (addEdge acc d tid) d prio |>.2.1]
      exact hl
    · rw [if_neg hdt]
      exact ⟨l, hl, hm⟩

theorem admitDepStep_graph_mono (tid : String) (prio : TaskPriority)
    (acc : Scheduler) (d' d : String)
    (h : ∃ l, graphGet acc d = some l ∧ tid ∈ l) :
    ∃ l, graphGet (admitDepStep tid prio acc d') d = some l ∧ tid ∈ l := by
  unfold admitDepStep
  dsimp only
  have h1 := addEdge_mem_mono acc d' tid d tid h
  cases hlk : lookupTask (addEdge acc d' tid) d' with
  | none => exact h1
  | some dt =>
    dsimp only
    by_cases hdt : dt.status ≠ TaskStatus.COMPLETED ∧ dt.status ≠ TaskStatus.FAILED
    · rw [if_pos hdt]
      obtain ⟨l, hl, hm⟩ := h1
      refine ⟨l, ?_, hm⟩
      show lookupL (promotePriority _ (addEdge acc d' tid) d' prio).dependencyGraph d = _
      rw [(promote_components _).1 (addEdge acc d' tid) d' prio |>.2.1]
      exact hl
    · rw [if_neg hdt]
      exact h1

theorem admitDepStep_blocked (tid : String) (prio : TaskPriority)
    (acc : Scheduler) (d : String) :
    (admitDepStep tid prio acc d).blockedTasks = acc.blockedTasks := by
  unfold admitDepStep
  have hedge : ∀ s' : Scheduler, (addEdge s' d tid).blockedTasks = s'.blockedTasks := by
    intro s'
    unfold addEdge
    cases lookupL s'.dependencyGraph d <;> rfl
  dsimp only
  cases hlk : lookupTask (addEdge acc d tid) d with
  | none => exact hedge acc
  | some dt =>
    dsimp only
    by_cases hdt : dt.status ≠ TaskStatus.COMPLETED ∧ dt.status ≠ TaskStatus.FAILED
    · rw [if_pos hdt]
      rw [(promote_components _).1 (addEdge acc d tid) d prio |>.1]
      exact hedge acc
    · rw [if_neg hdt]
      exact hedge acc

/-- The dependency fold of `admitCore` keeps the blocked pool and
records an edge for every dependency in the list. -/
theorem foldAdmit_blocked (deps : List String) (tid : String)
    (prio : TaskPriority) (s : Scheduler) :
    (deps.foldl (admitDepStep tid prio) s).blockedTasks = s.blockedTasks := by
  induction deps generalizing s with
  | nil => rfl
  | cons d rest ih =>
    rw [List.foldl_cons, ih, admitDepStep_blocked]

theorem foldAdmit_graph_mono (deps : List String) (tid : String)
    (prio : TaskPriority) (s : Scheduler) (d : String)
    (h : ∃ l, graphGet s d = some l ∧ tid ∈ l) :
    ∃ l, graphGet (deps.foldl (admitDepStep tid prio) s) d = some l ∧ tid ∈ l := by
  induction deps generalizing s with
  | nil => exact h
  | cons x rest ih =>
    rw [List.foldl_cons]
    exact ih (admitDepStep tid prio s x)
      (admitDepStep_graph_mono tid prio s x d h)

theorem foldAdmit_graph (deps : List String) (tid : String)
    (prio : TaskPriority) (s : Scheduler) :
    ∀ d ∈ deps, ∃ l,
      graphGet (deps.foldl (admitDepStep tid prio) s) d = some l ∧ tid ∈ l := by
  induction deps generalizing s with
  | nil => intro d hd; cases hd
  | cons x rest ih =>
    intro d hd
    rw [List.foldl_cons]
    rcases List.mem_cons.1 hd with hdx | hdr
    · subst hdx
      exact foldAdmit_graph_mono rest tid prio (admitDepStep tid prio s d) d
        (admitDepStep_graph_self tid prio s d)
    · exact ih (admitDepStep tid prio s x) d hdr

/-- Inserting the (PENDING) task itself into the registry does not
change whether its dependency list is met: a dependency id equal to the
new id resolves to the non-COMPLETED new record on one side and to
nothing on the other, and both count as unmet. -/
theorem met_insert (s s' : Scheduler) (tid : String) (task : Task)
    (hmap : s'.taskMap = s.taskMap ++ [(tid, task)])
    (hst : (task.status == TaskStatus.COMPLETED) = false)
    (deps : List String) :
    areDependenciesMet s' deps = areDependenciesMet s deps := by
  have hpt : ∀ d,
      (match lookupL (s.taskMap ++ [(tid, task)]) d with
        | some dep => dep.status == TaskStatus.COMPLETED
        | none => false) =
      (match lookupL s.taskMap d with
        | some dep => dep.status == TaskStatus.COMPLETED
        | none => false) := by
    intro d
    rw [lookupL_append_single]
    cases h : lookupL s.taskMap d with
    | some x => rfl
    | none =>
      by_cases htd : tid = d
      · simp [Option.orElse, htd, hst]
      · simp [Option.orElse, htd]
  unfold areDependenciesMet lookupTask
  rw [hmap]
  induction deps with
  | nil => rfl
  | cons d rest ih => simp [List.all_cons, hpt d, ih]

@[simp] theorem insertState_queues (s : Scheduler) (tid : String) (t : Task) :
    (insertState s tid t).queues = s.queues := rfl

@[simp] theorem insertState_blocked (s : Scheduler) (tid : String) (t : Task) :
    (insertState s tid t).blockedTasks = s.blockedTasks := rfl

@[simp] theorem insertState_graph (s : Scheduler) (tid : String) (t : Task) :
    (insertState s tid t).dependencyGraph = s.dependencyGraph := rfl

@[simp] theorem insertState_running (s : Scheduler) (tid : String) (t : Task) :
    (insertState s tid t).runningTasks = s.runningTasks := rfl

/-- The placement behaviour of the post-check tail of `addTask`. -/
theorem admitCore_placement (s0 : Scheduler) (cfg : TaskConfig)
    (tid : String) (now : Nat) (hnew : lookupL s0.taskMap tid = none) :
    ((cfg.dependencies.getD [] = [] ∨
        areDependenciesMet s0 (cfg.dependencies.getD []) = true) →
      (∀ p, getQ (admitCore s0 cfg tid now).queues p =
         if p = cfg.priority.getD TaskPriority.NORMAL then
           getQ s0.queues p ++ [tid]
         else getQ s0.queues p) ∧
      (admitCore s0 cfg tid now).blockedTasks = s0.blockedTasks) ∧
    ((cfg.dependencies.getD [] ≠ [] ∧
        areDependenciesMet s0 (cfg.dependencies.getD []) = false) →
      (admitCore s0 cfg tid now).blockedTasks = s0.blockedTasks ++ [tid] ∧
      (∀ d ∈ cfg.dependencies.getD [],
         ∃ l, graphGet (admitCore s0 cfg tid now) d = some l ∧ tid ∈ l)) := by
  have hmet : areDependenciesMet (insertState s0 tid (buildTask cfg tid now))
      (cfg.dependencies.getD []) =
      areDependenciesMet s0 (cfg.dependencies.getD []) :=
    met_insert s0 _ tid (buildTask cfg tid now) rfl rfl _
  have hlk : lookupTask (insertState s0 tid (buildTask cfg tid now)) tid =
      some (buildTask cfg tid now) := by
    show lookupL (s0.taskMap ++ [(tid, buildTask cfg tid now)]) tid = _
    rw [lookupL_append_single, hnew]
    simp [Option.orElse]
  constructor
  · intro hA
    have hcond : ¬((buildTask cfg tid now).dependencies ≠ [] ∧
        ¬ areDependenciesMet (insertState s0 tid (buildTask cfg tid now))
          (buildTask cfg tid now).dependencies = true) := by
      rcases hA with hA | hA
      · intro hc
        exact hc.1 hA
      · intro hc
        apply hc.2
        show areDependenciesMet (insertState s0 tid (buildTask cfg tid now))
          (cfg.dependencies.getD []) = true
        rw [hmet]
        exact hA
    unfold admitCore
    dsimp only
    rw [if_neg hcond]
    refine ⟨?_, ?_⟩
    · intro p
      rw [enqueueTask_queues _ _ _ hlk p]
      rfl
    · rw [enqueueTask_blocked]
      rfl
  · intro hB
    have hcond : (buildTask cfg tid now).dependencies ≠ [] ∧
        ¬ areDependenciesMet (insertState s0 tid (buildTask cfg tid now))
          (buildTask cfg tid now).dependencies = true := by
      refine ⟨hB.1, ?_⟩
      intro hc
      have : areDependenciesMet s0 (cfg.dependencies.getD []) = true := by
        rw [← hmet]
        exact hc
      rw [hB.2] at this
      cases this
    unfold admitCore
    dsimp only
    rw [if_pos hcond]
    constructor
    · show ((buildTask cfg tid now).dependencies.foldl
          (admitDepStep tid (buildTask cfg tid now).priority)
          (insertState s0 tid (buildTask cfg tid now))).blockedTasks ++ [tid] =
        s0.blockedTasks ++ [tid]
      rw [foldAdmit_blocked]
      rfl
    · intro d hd
      exact foldAdmit_graph (buildTask cfg tid now).dependencies tid
        (buildTask cfg tid now).priority
        (insertState s0 tid (buildTask cfg tid now)) d hd

/-- C5: an admitted task whose dependency list is empty or entirely
COMPLETED is appended to the tail of the queue of its (defaulted)
priority, leaving the other buckets and the blocked pool untouched; an
admitted task with an unmet dependency goes to the blocked pool instead
(appended at its tail), with a reverse edge recorded from every listed
dependency id to the new task's id.  In particular a task with an empty
dependency list is never placed in the blocked pool. -/
theorem C5_addTask_placement (s : Scheduler) (cfg : TaskConfig) (now : Nat)
    (tid : String) (h : (addTask s cfg now).2 = Except.ok tid) :
    ((cfg.dependencies.getD [] = [] ∨
        areDependenciesMet s (cfg.dependencies.getD []) = true) →
      (getQ (addTask s cfg now).1.queues (cfg.priority.getD TaskPriority.NORMAL) =
         getQ s.queues (cfg.priority.getD TaskPriority.NORMAL) ++ [tid]) ∧
      (∀ p, p ≠ cfg.priority.getD TaskPriority.NORMAL →
         getQ (addTask s cfg now).1.queues p = getQ s.queues p) ∧
      (addTask s cfg now).1.blockedTasks = s.blockedTasks) ∧
    ((cfg.dependencies.getD [] ≠ [] ∧
        areDependenciesMet s (cfg.dependencies.getD []) = false) →
      (addTask s cfg now).1.blockedTasks = s.blockedTasks ++ [tid] ∧
      (∀ d ∈ cfg.dependencies.getD [],
         ∃ l, graphGet (addTask s cfg now).1 d = some l ∧ tid ∈ l)) := by
  by_cases h1 : s.taskMap.length ≥ s.config.queueSizeLimit
  · simp [addTask, h1] at h
  · cases hid : cfg.id with
    | some i =>
      by_cases h2 : (lookupL s.taskMap i).isSome = true
      · simp [addTask, h1, hid, h2, lookupTask] at h
      · by_cases h3 : cfg.type ∈ s.executors
        · have hres : addTask s cfg now =
              (updateQueueSizes (admitCore s cfg i now), Except.ok i) := by
            simp [addTask, h1, hid, h2, h3, lookupTask]
          have htid : tid = i := by
            rw [hres] at h
            cases h
            rfl
          subst htid
          have hnew : lookupL s.taskMap tid = none := by
            cases hx : lookupL s.taskMap tid with
            | none => rfl
            | some v => rw [hx] at h2; exact absurd rfl h2
          have hc := admitCore_placement s cfg tid now hnew
          rw [hres]
          constructor
          · intro hA
            obtain ⟨hq, hb⟩ := hc.1 hA
            refine ⟨?_, ?_, ?_⟩
            · have := hq (cfg.priority.getD TaskPriority.NORMAL)
              simpa using this
            · intro p hp
              have := hq p
              rw [if_neg hp] at this
              simpa using this
            · simpa using hb
          · intro hB
            obtain ⟨hb, hg⟩ := hc.2 hB
            refine ⟨by simpa using hb, ?_⟩
            intro d hd
            simpa using hg d hd
        · simp [addTask, h1, hid, h2, h3, lookupTask] at h
    | none =>
      by_cases h2 :
          (lookupL s.taskMap (generateTaskId (s.taskIdCounter + 1) now)).isSome = true
      · simp [addTask, h1, hid, h2, lookupTask] at h
      · by_cases h3 : cfg.type ∈ s.executors
        · have hres : addTask s cfg now =
              (updateQueueSizes (admitCore
                { s with taskIdCounter := s.taskIdCounter + 1 } cfg
                (generateTaskId (s.taskIdCounter + 1) now) now),
               Except.ok (generateTaskId (s.taskIdCounter + 1) now)) := by
            simp [addTask, h1, hid, h2, h3, lookupTask]
          have htid : tid = generateTaskId (s.taskIdCounter + 1) now := by
            rw [hres] at h
            cases h
            rfl
          subst htid
          have hnew : lookupL s.taskMap
              (generateTaskId (s.taskIdCounter + 1) now) = none := by
            cases hx : lookupL s.taskMap
                (generateTaskId (s.taskIdCounter + 1) now) with
            | none => rfl
            | some v => rw [hx] at h2; exact absurd rfl h2
          have hc := admitCore_placement
            { s with taskIdCounter := s.taskIdCounter + 1 } cfg
            (generateTaskId (s.taskIdCounter + 1) now) now hnew
          rw [hres]
          constructor
          · intro hA
            obtain ⟨hq, hb⟩ := hc.1 hA
            refine ⟨?_, ?_, ?_⟩
            · have := hq (cfg.priority.getD TaskPriority.NORMAL)
              simpa using this
            · intro p hp
              have := hq p
              rw [if_neg hp] at this
              simpa using this
            · simpa using hb
          · intro hB
            obtain ⟨hb, hg⟩ := hc.2 hB
            refine ⟨by simpa using hb, ?_⟩
            intro d hd
            simpa using hg d hd
        · simp [addTask, h1, hid, h2, h3, lookupTask] at h

/-- `freshSched` after admitting a dependency-free task "A". -/
def depBase : Scheduler := (addTask freshSched (baseCfg "A") 0).1

/-- A configuration declaring a dependency on the still-PENDING "A". -/
def cfgDepB : TaskConfig := { baseCfg "B" with dependencies := some ["A"] }

/-- Closed witness for C5: a dependency-free admission lands at the tail
of its priority queue; an admission blocked on a PENDING dependency
lands at the tail of the blocked pool. -/
theorem C5_addTask_placement_witness :
    (getQ (addTask freshSched (baseCfg "a") 0).1.queues
        ((baseCfg "a").priority.getD TaskPriority.NORMAL) =
      getQ freshSched.queues
        ((baseCfg "a").priority.getD TaskPriority.NORMAL) ++ ["a"]) ∧
    ((addTask depBase cfgDepB 1).1.blockedTasks =
      depBase.blockedTasks ++ ["B"]) :=
  ⟨((C5_addTask_placement freshSched (baseCfg "a") 0 "a" (by rfl)).1
      (Or.inl (by decide))).1,
   ((C5_addTask_placement depBase cfgDepB 1 "B" (by rfl)).2
      (by decide)).1⟩

/-! ### Claim C3 -/

theorem promotePriority_zero (s : Scheduler) (id : String)
    (tg : TaskPriority) : promotePriority 0 s id tg = s := by
  rw [promotePriority]

theorem promoteDeps_zero (s : Scheduler) (l : List String)
    (tg : TaskPriority) : promoteDeps 0 s l tg = s := by
  induction l generalizing s with
  | nil => rw [promoteDeps]
  | cons d rest ih =>
    rw [promoteDeps_cons]
    have hstep : promoteDepStep 0 s d tg = s := by
      unfold promoteDepStep
      cases lookupTask s d with
      | none => rfl
      | some dt =>
        by_cases hdt : dt.status ≠ TaskStatus.COMPLETED <;>
          simp [hdt, promotePriority_zero]
    rw [hstep]
    exact ih s

/-- Master lemma: `promotePriority` (and its dependency fold) leaves the
registry's domain unchanged and rewrites each record either not at all
or by setting its priority to the target — and only when the target is
strictly more urgent than the record's current priority. -/
theorem promote_lookup (fuel : Nat) :
    (∀ (s : Scheduler) (id : String) (tg : TaskPriority) (id' : String),
      (lookupTask s id' = none →
        lookupTask (promotePriority fuel s id tg) id' = none) ∧
      (∀ u, lookupTask s id' = some u →
        ∃ t', lookupTask (promotePriority fuel s id tg) id' = some t' ∧
          (t' = u ∨ (t' = { u with priority := tg } ∧
            prioVal tg < prioVal u.priority)))) ∧
    (∀ (s : Scheduler) (l : List String) (tg : TaskPriority) (id' : String),
      (lookupTask s id' = none →
        lookupTask (promoteDeps fuel s l tg) id' = none) ∧
      (∀ u, lookupTask s id' = some u →
        ∃ t', lookupTask (promoteDeps fuel s l tg) id' = some t' ∧
          (t' = u ∨ (t' = { u with priority := tg } ∧
            prioVal tg < prioVal u.priority)))) := by
  induction fuel with
  | zero =>
    constructor
    · intro s id tg id'
      rw [promotePriority_zero]
      exact ⟨fun h => h, fun u hu => ⟨u, hu, Or.inl rfl⟩⟩
    · intro s l tg id'
      rw [promoteDeps_zero]
      exact ⟨fun h => h, fun u hu => ⟨u, hu, Or.inl rfl⟩⟩
  | succ fuel ih =>
    have hQ : ∀ (s : Scheduler) (id : String) (tg : TaskPriority) (id' : String),
        (lookupTask s id' = none →
          lookupTask (promotePriority (fuel + 1) s id tg) id' = none) ∧
        (∀ u, lookupTask s id' = some u →
          ∃ t', lookupTask (promotePriority (fuel + 1) s id tg) id' = some t' ∧
            (t' = u ∨ (t' = { u with priority := tg } ∧
              prioVal tg < prioVal u.priority))) := by
      intro s id tg id'
      rw [promotePriority_succ]
      cases hl : lookupTask s id with
      | none => exact ⟨fun h => h, fun u hu => ⟨u, hu, Or.inl rfl⟩⟩
      | some t =>
        dsimp only
        by_cases hle : prioVal t.priority ≤ prioVal tg
        · rw [if_pos hle]
          exact ⟨fun h => h, fun u hu => ⟨u, hu, Or.inl rfl⟩⟩
        · rw [if_neg hle]
          have hgt : prioVal tg < prioVal t.priority := Nat.lt_of_not_le hle
          -- the state after the root's own update, in both branches
          have hs1 : ∀ s1 : Scheduler,
              (s1 = promoteRelocate s id t tg ∨
               s1 = updTask s id fun u => { u with priority := tg }) →
              (lookupTask s id' = none → lookupTask s1 id' = none) ∧
              (∀ u, lookupTask s id' = some u →
                ∃ t', lookupTask s1 id' = some t' ∧
                  (t' = u ∨ (t' = { u with priority := tg } ∧
                    prioVal tg < prioVal u.priority))) := by
            intro s1 hcase
            have hked : lookupTask s1 id' =
                if id' = id then
                  (lookupTask s id').map fun u => { u with priority := tg }
                else lookupTask s id' := by
              rcases hcase with hc | hc <;> subst hc
              · show lookupL (updL s.taskMap id _) id' = _
                rw [lookupL_updL]
                rfl
              · exact lookupTask_updTask s id id' _
            by_cases hid' : id' = id
            · subst hid'
              rw [hked, if_pos rfl]
              constructor
              · intro h
                rw [h]
                rfl
              · intro u hu
                have ht : u = t := Option.some_inj.mp (hu.symm.trans hl)
                subst ht
                refine ⟨{ u with priority := tg }, by rw [hu]; rfl,
                  Or.inr ⟨rfl, hgt⟩⟩
            · rw [hked, if_neg hid']
              exact ⟨fun h => h, fun u hu => ⟨u, hu, Or.inl rfl⟩⟩
          by_cases hrel : t.status = TaskStatus.PENDING ∧ id ∉ s.blockedTasks
          · rw [if_pos hrel]
            have hbase := hs1 (promoteRelocate s id t tg) (Or.inl rfl)
            constructor
            · intro h
              exact (ih.2 (promoteRelocate s id t tg) t.dependencies tg id').1
                (hbase.1 h)
            · intro u hu
              obtain ⟨t1, ht1, hd1⟩ := hbase.2 u hu
              obtain ⟨t2, ht2, hd2⟩ :=
                (ih.2 (promoteRelocate s id t tg) t.dependencies tg id').2 t1 ht1
              refine ⟨t2, ht2, ?_⟩
              rcases hd1 with h1 | ⟨h1, hp1⟩ <;> rcases hd2 with h2 | ⟨h2, hp2⟩
              · exact Or.inl (h2.trans h1)
              · exact Or.inr ⟨by rw [h2, h1], by rw [← h1]; exact hp2⟩
              · exact Or.inr ⟨by rw [h2, h1], hp1⟩
              · subst h1
                exact Or.inr ⟨by rw [h2], hp1⟩
          · rw [if_neg hrel]
            have hbase := hs1 (updTask s id fun u => { u with priority := tg })
              (Or.inr rfl)
            constructor
            · intro h
              exact (ih.2 _ t.dependencies tg id').1 (hbase.1 h)
            · intro u hu
              obtain ⟨t1, ht1, hd1⟩ := hbase.2 u hu
              obtain ⟨t2, ht2, hd2⟩ := (ih.2 _ t.dependencies tg id').2 t1 ht1
              refine ⟨t2, ht2, ?_⟩
              rcases hd1 with h1 | ⟨h1, hp1⟩ <;> rcases hd2 with h2 | ⟨h2, hp2⟩
              · exact Or.inl (h2.trans h1)
              · exact Or.inr ⟨by rw [h2, h1], by rw [← h1]; exact hp2⟩
              · exact Or.inr ⟨by rw [h2, h1], hp1⟩
              · subst h1
                exact Or.inr ⟨by rw [h2], hp1⟩
    refine ⟨hQ, ?_⟩
    intro s l tg id'
    induction l generalizing s with
    | nil =>
      rw [promoteDeps]
      exact ⟨fun h => h, fun u hu => ⟨u, hu, Or.inl rfl⟩⟩
    | cons d rest ihl =>
      rw [promoteDeps_cons]
      have hstep :
          (lookupTask s id' = none →
            lookupTask (promoteDepStep (fuel + 1) s d tg) id' = none) ∧
          (∀ u, lookupTask s id' = some u →
            ∃ t', lookupTask (promoteDepStep (fuel + 1) s d tg) id' = some t' ∧
              (t' = u ∨ (t' = { u with priority := tg } ∧
                prioVal tg < prioVal u.priority))) := by
        unfold promoteDepStep
        cases hlk : lookupTask s d with
        | none => exact ⟨fun h => h, fun u hu => ⟨u, hu, Or.inl rfl⟩⟩
        | some dt =>
          dsimp only
          by_cases hdt : dt.status ≠ TaskStatus.COMPLETED
          · rw [if_pos hdt]
            exact hQ s d tg id'
          · rw [if_neg hdt]
            exact ⟨fun h => h, fun u hu => ⟨u, hu, Or.inl rfl⟩⟩
      constructor
      · intro h
        exact (ihl (promoteDepStep (fuel + 1) s d tg)).1 (hstep.1 h)
      · intro u hu
        obtain ⟨t1, ht1, hd1⟩ := hstep.2 u hu
        obtain ⟨t2, ht2, hd2⟩ := (ihl (promoteDepStep (fuel + 1) s d tg)).2 t1 ht1
        refine ⟨t2, ht2, ?_⟩
        rcases hd1 with h1 | ⟨h1, hp1⟩ <;> rcases hd2 with h2 | ⟨h2, hp2⟩
        · exact Or.inl (h2.trans h1)
        · exact Or.inr ⟨by rw [h2, h1], by rw [← h1]; exact hp2⟩
        · exact Or.inr ⟨by rw [h2, h1], hp1⟩
        · subst h1
          exact Or.inr ⟨by rw [h2], hp1⟩

/-- After a promotion that fires (strictly more urgent target), the
root's record carries the target priority; the remaining fields are
untouched. -/
theorem promote_sets_root (fuel : Nat) (s : Scheduler) (id : String)
    (tg : TaskPriority) (t : Task) (hl : lookupTask s id = some t)
    (hgt : prioVal tg < prioVal t.priority) :
    ∃ t', lookupTask (promotePriority (fuel + 1) s id tg) id = some t' ∧
      t'.priority = tg ∧ t'.status = t.status ∧
      t'.dependencies = t.dependencies ∧ t'.id = t.id := by
  rw [promotePriority_succ, hl]
  dsimp only
  rw [if_neg (Nat.not_le.mpr hgt)]
  by_cases hrel : t.status = TaskStatus.PENDING ∧ id ∉ s.blockedTasks
  · rw [if_pos hrel]
    have hl' : lookupL s.taskMap id = some t := hl
    have h1 : lookupTask (promoteRelocate s id t tg) id =
        some { t with priority := tg } := by
      show lookupL (updL s.taskMap id fun u => { u with priority := tg }) id = _
      rw [lookupL_updL_self, hl']
      rfl
    obtain ⟨t2, ht2, hd2⟩ :=
      ((promote_lookup fuel).2 (promoteRelocate s id t tg) t.dependencies tg
        id).2 _ h1
    rcases hd2 with h2 | ⟨h2, _⟩ <;> subst h2 <;>
      exact ⟨_, ht2, rfl, rfl, rfl, rfl⟩
  · rw [if_neg hrel]
    have h1 : lookupTask (updTask s id fun u => { u with priority := tg }) id =
        some { t with priority := tg } := by
      rw [lookupTask_updTask, if_pos rfl, hl]
      rfl
    obtain ⟨t2, ht2, hd2⟩ :=
      ((promote_lookup fuel).2 _ t.dependencies tg id).2 _ h1
    rcases hd2 with h2 | ⟨h2, _⟩ <;> subst h2 <;>
      exact ⟨_, ht2, rfl, rfl, rfl, rfl⟩

/-- Early return of `promotePriority` when the task is already at least
as urgent as the target. -/
theorem promote_noop (fuel : Nat) (s : Scheduler) (id : String)
    (tg : TaskPriority) (t : Task) (hl : lookupTask s id = some t)
    (hle : prioVal t.priority ≤ prioVal tg) :
    promotePriority (fuel + 1) s id tg = s := by
  rw [promotePriority_succ, hl]
  dsimp only
  rw [if_pos hle]

/-- The single dependency step rewrites records at most into the
promoted form. -/
theorem promoteDepStep_lookup (fuel : Nat) (s : Scheduler) (d : String)
    (tg : TaskPriority) (id' : String) (u : Task)
    (hu : lookupTask s id' = some u) :
    ∃ t', lookupTask (promoteDepStep fuel s d tg) id' = some t' ∧
      (t' = u ∨ (t' = { u with priority := tg } ∧
        prioVal tg < prioVal u.priority)) := by
  unfold promoteDepStep
  cases hlk : lookupTask s d with
  | none => exact ⟨u, hu, Or.inl rfl⟩
  | some dt =>
    dsimp only
    by_cases hdt : dt.status ≠ TaskStatus.COMPLETED
    · rw [if_pos hdt]
      exact ((promote_lookup fuel).1 s d tg id').2 u hu
    · rw [if_neg hdt]
      exact ⟨u, hu, Or.inl rfl⟩

/-- Every not-yet-COMPLETED member of the dependency list ends the fold
with priority `target` when it was less urgent than the target, and with
its own priority otherwise. -/
theorem promoteDeps_sets (fuel : Nat) (deps : List String) (s : Scheduler)
    (tg : TaskPriority) (d : String) (hd : d ∈ deps) (u : Task)
    (hu : lookupTask s d = some u) (hst : u.status ≠ TaskStatus.COMPLETED) :
    ∃ t', lookupTask (promoteDeps (fuel + 1) s deps tg) d = some t' ∧
      t'.priority =
        (if prioVal tg < prioVal u.priority then tg else u.priority) := by
  induction deps generalizing s u with
  | nil => cases hd
  | cons x rest ih =>
    rw [promoteDeps_cons]
    by_cases hdx : d = x
    · subst hdx
      have hstep_eq : promoteDepStep (fuel + 1) s d tg =
          promotePriority (fuel + 1) s d tg := by
        unfold promoteDepStep
        rw [hu]
        dsimp only
        rw [if_pos hst]
      rw [hstep_eq]
      by_cases hgt : prioVal tg < prioVal u.priority
      · rw [if_pos hgt]
        obtain ⟨t1, ht1, hp1, _, _, _⟩ := promote_sets_root fuel s d tg u hu hgt
        obtain ⟨t2, ht2, hd2⟩ :=
          ((promote_lookup (fuel + 1)).2 _ rest tg d).2 t1 ht1
        rcases hd2 with h2 | ⟨h2, hp2⟩
        · exact ⟨t2, ht2, by rw [h2, hp1]⟩
        · exact ⟨t2, ht2, by rw [h2]⟩
      · rw [if_neg hgt]
        have hnoop : promotePriority (fuel + 1) s d tg = s :=
          promote_noop fuel s d tg u hu (Nat.not_lt.mp hgt)
        rw [hnoop]
        obtain ⟨t2, ht2, hd2⟩ := ((promote_lookup (fuel + 1)).2 s rest tg d).2 u hu
        rcases hd2 with h2 | ⟨h2, hp2⟩
        · exact ⟨t2, ht2, by rw [h2]⟩
        · exact absurd hp2 hgt
    · rcases List.mem_cons.1 hd with hdx' | hdr
      · exact absurd hdx' hdx
      · obtain ⟨u1, hu1, hd1⟩ :=
          promoteDepStep_lookup (fuel + 1) s x tg d u hu
        have hst1 : u1.status ≠ TaskStatus.COMPLETED := by
          rcases hd1 with h1 | ⟨h1, _⟩ <;> rw [h1] <;> exact hst
        obtain ⟨t2, ht2, hp2⟩ :=
          ih (promoteDepStep (fuel + 1) s x tg) hdr u1 hu1 hst1
        refine ⟨t2, ht2, ?_⟩
        rw [hp2]
        rcases hd1 with h1 | ⟨h1, hgt1⟩
        · rw [h1]
        · rw [h1]
          simp [hgt1, lt_irrefl]

/-- The relocation pushes the id to the tail of the target bucket. -/
theorem promoteRelocate_getQ_tg (s : Scheduler) (id : String) (t : Task)
    (tg : TaskPriority) (hne : t.priority ≠ tg) :
    getQ (promoteRelocate s id t tg).queues tg = getQ s.queues tg ++ [id] := by
  unfold promoteRelocate
  dsimp only
  simp only [updTask_queues]
  rw [getQ_setQ_self, getQ_setQ_ne _ _ _ _ (fun he => hne he.symm)]

/-- The relocation only splices the id out of the old bucket, leaving
every other non-target bucket untouched. -/
theorem promoteRelocate_getQ_other (s : Scheduler) (id : String) (t : Task)
    (tg : TaskPriority) (p : TaskPriority) (hp : p ≠ tg) :
    getQ (promoteRelocate s id t tg).queues p =
      (if p = t.priority then eraseF (getQ s.queues p) id
       else getQ s.queues p) := by
  unfold promoteRelocate
  dsimp only
  simp only [updTask_queues]
  rw [getQ_setQ_ne _ _ _ _ hp]
  by_cases hpt : p = t.priority
  · subst hpt
    rw [getQ_setQ_self, if_pos rfl]
  · rw [getQ_setQ_ne _ _ _ _ hpt, if_neg hpt]

/-- `promotePriority` only ever appends to the target's bucket and only
ever removes from the other buckets. -/
theorem promote_queues (fuel : Nat) :
    (∀ (s : Scheduler) (id : String) (tg : TaskPriority),
      (∃ r, getQ (promotePriority fuel s id tg).queues tg =
        getQ s.queues tg ++ r) ∧
      (∀ p, p ≠ tg → ∀ x,
        (getQ (promotePriority fuel s id tg).queues p).count x ≤
          (getQ s.queues p).count x)) ∧
    (∀ (s : Scheduler) (l : List String) (tg : TaskPriority),
      (∃ r, getQ (promoteDeps fuel s l tg).queues tg =
        getQ s.queues tg ++ r) ∧
      (∀ p, p ≠ tg → ∀ x,
        (getQ (promoteDeps fuel s l tg).queues p).count x ≤
          (getQ s.queues p).count x)) := by
  induction fuel with
  | zero =>
    constructor
    · intro s id tg
      rw [promotePriority_zero]
      exact ⟨⟨[], by simp⟩, fun p hp x => le_refl _⟩
    · intro s l tg
      rw [promoteDeps_zero]
      exact ⟨⟨[], by simp⟩, fun p hp x => le_refl _⟩
  | succ fuel ih =>
    have hQ : ∀ (s : Scheduler) (id : String) (tg : TaskPriority),
        (∃ r, getQ (promotePriority (fuel + 1) s id tg).queues tg =
          getQ s.queues tg ++ r) ∧
        (∀ p, p ≠ tg → ∀ x,
          (getQ (promotePriority (fuel + 1) s id tg).queues p).count x ≤
            (getQ s.queues p).count x) := by
      intro s id tg
      rw [promotePriority_succ]
      cases hl : lookupTask s id with
      | none => exact ⟨⟨[], by simp⟩, fun p hp x => le_refl _⟩
      | some t =>
        dsimp only
        by_cases hle : prioVal t.priority ≤ prioVal tg
        · rw [if_pos hle]
          exact ⟨⟨[], by simp⟩, fun p hp x => le_refl _⟩
        · rw [if_neg hle]
          have hne : t.priority ≠ tg := by
            intro he
            rw [he] at hle
            exact hle (le_refl _)
          by_cases hrel : t.status = TaskStatus.PENDING ∧ id ∉ s.blockedTasks
          · rw [if_pos hrel]
            have hq1tg := promoteRelocate_getQ_tg s id t tg hne
            have hq1p := fun p hp =>
              promoteRelocate_getQ_other s id t tg p hp
            obtain ⟨⟨r2, hr2⟩, hc2⟩ :=
              ih.2 (promoteRelocate s id t tg) t.dependencies tg
            refine ⟨⟨id :: r2, by rw [hr2, hq1tg]; simp⟩, ?_⟩
            intro p hp x
            calc (getQ (promoteDeps fuel (promoteRelocate s id t tg)
                    t.dependencies tg).queues p).count x
                ≤ (getQ (promoteRelocate s id t tg).queues p).count x :=
                  hc2 p hp x
              _ ≤ (getQ s.queues p).count x := by
                  rw [hq1p p hp]
                  by_cases hpt : p = t.priority
                  · rw [if_pos hpt]
                    by_cases hx : x = id
                    · subst hx
                      rw [cnt_eraseF_self]
                      omega
                    · rw [cnt_eraseF_ne _ _ _ hx]
                  · rw [if_neg hpt]
          · rw [if_neg hrel]
            obtain ⟨⟨r2, hr2⟩, hc2⟩ :=
              ih.2 (updTask s id fun u => { u with priority := tg })
                t.dependencies tg
            refine ⟨⟨r2, by rw [hr2]; simp only [updTask_queues]⟩, ?_⟩
            intro p hp x
            simpa only [updTask_queues] using hc2 p hp x
    refine ⟨hQ, ?_⟩
    intro s l tg
    induction l generalizing s with
    | nil =>
      rw [promoteDeps]
      exact ⟨⟨[], by simp⟩, fun p hp x => le_refl _⟩
    | cons d rest ihl =>
      rw [promoteDeps_cons]
      have hstep :
          (∃ r, getQ (promoteDepStep (fuel + 1) s d tg).queues tg =
            getQ s.queues tg ++ r) ∧
          (∀ p, p ≠ tg → ∀ x,
            (getQ (promoteDepStep (fuel + 1) s d tg).queues p).count x ≤
              (getQ s.queues p).count x) := by
        unfold promoteDepStep
        cases hlk : lookupTask s d with
        | none => exact ⟨⟨[], by simp⟩, fun p hp x => le_refl _⟩
        | some dt =>
          dsimp only
          by_cases hdt : dt.status ≠ TaskStatus.COMPLETED
          · rw [if_pos hdt]
            exact hQ s d tg
          · rw [if_neg hdt]
            exact ⟨⟨[], by simp⟩, fun p hp x => le_refl _⟩
      obtain ⟨⟨r1, hr1⟩, hc1⟩ := hstep
      obtain ⟨⟨r2, hr2⟩, hc2⟩ := ihl (promoteDepStep (fuel + 1) s d tg)
      refine ⟨⟨r1 ++ r2, by rw [hr2, hr1]; simp⟩, ?_⟩
      intro p hp x
      exact le_trans (hc2 p hp x) (hc1 p hp x)

/-- C3: priority inheritance at admission.  (a) a dependency already at
least as urgent as the new task is untouched; (b) a strictly less
urgent dependency has its priority field promoted to match; (c) when
that dependency was PENDING, unblocked and (uniquely) queued, it is
removed from its old priority bucket and appended to the tail of the
target bucket; (d) the promotion recurses into the dependency's own
non-COMPLETED dependencies, depth-first; (e) no task's priority is ever
made numerically larger (less urgent) by a promotion, and nothing but
the priority field changes. -/
theorem C3_priority_inheritance (fuel : Nat) (s : Scheduler) (id : String)
    (tg : TaskPriority) (t : Task) (hl : lookupTask s id = some t) :
    (prioVal t.priority ≤ prioVal tg →
      promotePriority (fuel + 2) s id tg = s) ∧
    (prioVal tg < prioVal t.priority →
      ∃ t', lookupTask (promotePriority (fuel + 2) s id tg) id = some t' ∧
        t'.priority = tg) ∧
    (prioVal tg < prioVal t.priority → t.status = TaskStatus.PENDING →
      id ∉ s.blockedTasks → (getQ s.queues t.priority).count id = 1 →
      (∃ rest, getQ (promotePriority (fuel + 2) s id tg).queues tg =
         getQ s.queues tg ++ id :: rest) ∧
      id ∉ getQ (promotePriority (fuel + 2) s id tg).queues t.priority) ∧
    (∀ d td, prioVal tg < prioVal t.priority → d ∈ t.dependencies →
      lookupTask s d = some td → td.status ≠ TaskStatus.COMPLETED →
      ∃ t', lookupTask (promotePriority (fuel + 2) s id tg) d = some t' ∧
        t'.priority =
          (if prioVal tg < prioVal td.priority then tg else td.priority)) ∧
    (∀ id' u t', lookupTask s id' = some u →
      lookupTask (promotePriority (fuel + 2) s id tg) id' = some t' →
      prioVal t'.priority ≤ prioVal u.priority ∧ t'.status = u.status ∧
      t'.dependencies = u.dependencies ∧ t'.id = u.id ∧
      t'.retryCount = u.retryCount) := by
  refine ⟨?_, ?_, ?_, ?_, ?_⟩
  · intro hle
    exact promote_noop (fuel + 1) s id tg t hl hle
  · intro hgt
    obtain ⟨t', h1, h2, _, _, _⟩ := promote_sets_root (fuel + 1) s id tg t hl hgt
    exact ⟨t', h1, h2⟩
  · intro hgt hpend hnb hcnt
    have hne : t.priority ≠ tg := by
      intro he
      rw [he] at hgt
      exact lt_irrefl _ hgt
    rw [promotePriority_succ, hl]
    dsimp only
    rw [if_neg (Nat.not_le.mpr hgt), if_pos ⟨hpend, hnb⟩]
    have hq1tg := promoteRelocate_getQ_tg s id t tg hne
    have hq1old := promoteRelocate_getQ_other s id t tg t.priority hne
    obtain ⟨⟨r2, hr2⟩, hc2⟩ :=
      (promote_queues (fuel + 1)).2 (promoteRelocate s id t tg)
        t.dependencies tg
    constructor
    · refine ⟨r2, ?_⟩
      rw [hr2, hq1tg]
      simp
    · intro hmem
      have hpos := List.count_pos_iff.2 hmem
      have hle0 := hc2 t.priority hne id
      rw [hq1old, if_pos rfl, cnt_eraseF_self, hcnt] at hle0
      omega
  · intro d td hgt hd hld hst
    rw [promotePriority_succ, hl]
    dsimp only
    rw [if_neg (Nat.not_le.mpr hgt)]
    by_cases hrel : t.status = TaskStatus.PENDING ∧ id ∉ s.blockedTasks
    · rw [if_pos hrel]
      have hlkd : lookupTask (promoteRelocate s id t tg) d =
          if d = id then
            (lookupTask s d).map fun u => { u with priority := tg }
          else lookupTask s d := by
        show lookupL (updL s.taskMap id fun u => { u with priority := tg }) d = _
        rw [lookupL_updL]
        rfl
      by_cases hdid : d = id
      · have htd : td = t := by
          rw [hdid] at hld
          exact Option.some_inj.mp (hld.symm.trans hl)
        have hld' : lookupTask (promoteRelocate s id t tg) d =
            some { t with priority := tg } := by
          rw [hlkd, if_pos hdid, hld, htd]
          rfl
        have hst' : ({ t with priority := tg } : Task).status ≠
            TaskStatus.COMPLETED := by
          show t.status ≠ TaskStatus.COMPLETED
          rw [← htd]
          exact hst
        obtain ⟨t', ht', hp'⟩ := promoteDeps_sets fuel t.dependencies
          (promoteRelocate s id t tg) tg d hd { t with priority := tg }
          hld' hst'
        refine ⟨t', ht', ?_⟩
        rw [hp', htd]
        simp [hgt, lt_irrefl]
      · rw [if_neg hdid, hld] at hlkd
        obtain ⟨t', ht', hp'⟩ := promoteDeps_sets fuel t.dependencies
          (promoteRelocate s id t tg) tg d hd td hlkd hst
        exact ⟨t', ht', hp'⟩
    · rw [if_neg hrel]
      have hlkd : lookupTask
          (updTask s id fun u => { u with priority := tg }) d =
          if d = id then
            (lookupTask s d).map fun u => { u with priority := tg }
          else lookupTask s d := by
        rw [lookupTask_updTask]
      by_cases hdid : d = id
      · have htd : td = t := by
          rw [hdid] at hld
          exact Option.some_inj.mp (hld.symm.trans hl)
        have hld' : lookupTask
            (updTask s id fun u => { u with priority := tg }) d =
            some { t with priority := tg } := by
          rw [hlkd, if_pos hdid, hld, htd]
          rfl
        have hst' : ({ t with priority := tg } : Task).status ≠
            TaskStatus.COMPLETED := by
          show t.status ≠ TaskStatus.COMPLETED
          rw [← htd]
          exact hst
        obtain ⟨t', ht', hp'⟩ := promoteDeps_sets fuel t.dependencies
          (updTask s id fun u => { u with priority := tg }) tg d hd
          { t with priority := tg } hld' hst'
        refine ⟨t', ht', ?_⟩
        rw [hp', htd]
        simp [hgt, lt_irrefl]
      · rw [if_neg hdid, hld] at hlkd
        obtain ⟨t', ht', hp'⟩ := promoteDeps_sets fuel t.dependencies
          (updTask s id fun u => { u with priority := tg }) tg d hd td
          hlkd hst
        exact ⟨t', ht', hp'⟩
  · intro id' u t' hu ht'
    obtain ⟨t'', ht'', hd''⟩ :=
      ((promote_lookup (fuel + 2)).1 s id tg id').2 u hu
    have he : t'' = t' := Option.some_inj.mp (ht''.symm.trans ht')
    subst he
    rcases hd'' with h | ⟨h, hp⟩
    · subst h
      exact ⟨le_refl _, rfl, rfl, rfl, rfl⟩
    · subst h
      exact ⟨Nat.le_of_lt hp, rfl, rfl, rfl, rfl⟩

/-- A LOW-priority PENDING task queued in the LOW bucket, with its own
LOW dependency, for the C3 witness. -/
def lowDepTask : Task :=
  { retryTask with
    id := "low1",
    priority := TaskPriority.LOW,
    status := TaskStatus.PENDING,
    retryCount := 0,
    dependencies := ["low2"] }

/-- The dependency of `lowDepTask`, itself LOW and queued. -/
def lowDepTask2 : Task :=
  { retryTask with
    id := "low2",
    priority := TaskPriority.LOW,
    status := TaskStatus.PENDING,
    retryCount := 0,
    dependencies := [] }

/-- A scheduler with the two LOW tasks queued in the LOW bucket. -/
def promoFixture : Scheduler :=
  { freshSched with
    taskMap := [("low1", lowDepTask), ("low2", lowDepTask2)],
    queues := { high := [], normal := [], low := ["low1", "low2"] },
    stats := { initialStats with totalTasks := 2, pendingTasks := 2 } }

/-- Closed witness for C3 at a concrete chain: promoting "low1" to HIGH
relocates it to the tail of the HIGH bucket, promotes its dependency
"low2" as well, and never makes any task less urgent. -/
theorem C3_priority_inheritance_witness :
    (∃ t', lookupTask (promotePriority 4 promoFixture "low1" TaskPriority.HIGH)
        "low1" = some t' ∧ t'.priority = TaskPriority.HIGH) ∧
    (∃ rest, getQ (promotePriority 4 promoFixture "low1"
        TaskPriority.HIGH).queues TaskPriority.HIGH =
      getQ promoFixture.queues TaskPriority.HIGH ++ "low1" :: rest) ∧
    (∃ t', lookupTask (promotePriority 4 promoFixture "low1" TaskPriority.HIGH)
        "low2" = some t' ∧
      t'.priority = (if prioVal TaskPriority.HIGH < prioVal lowDepTask2.priority
        then TaskPriority.HIGH else lowDepTask2.priority)) := by
  have h := C3_priority_inheritance 2 promoFixture "low1" TaskPriority.HIGH
    lowDepTask (by decide)
  refine ⟨(h.2.1 (by decide)), ?_, ?_⟩
  · exact ((h.2.2.1 (by decide) (by decide) (by decide) (by decide)).1)
  · exact h.2.2.2.1 "low2" lowDepTask2 (by decide) (by decide) (by decide)
      (by decide)

/-! ### Claim C6 -/

@[simp] theorem dispatchTask_config (s : Scheduler) (id : String) (now : Nat) :
    (dispatchTask s id now).config = s.config := rfl

theorem addToSet_length_le (l : List String) (id : String) :
    (addToSet l id).length ≤ l.length + 1 := by
  unfold addToSet
  by_cases h : id ∈ l <;> simp [h]

/-- A full bucket of running tasks stops the drain loop at once. -/
theorem drainPrio_conc_stop (o : Nat → Bool) (p : TaskPriority) (now : Nat)
    (fuel : Nat) (s : Scheduler) (ex ck : Nat)
    (h : s.runningTasks.length ≥ s.config.maxConcurrentTasks) :
    drainPrio o p now fuel s ex ck = (s, ex, ck, []) := by
  cases fuel with
  | zero => rfl
  | succ fuel =>
    unfold drainPrio
    cases hq : getQ s.queues p with
    | nil => rfl
    | cons id rest =>
      dsimp only
      rw [if_pos h]

/-- NORMAL/LOW drain: an exhausted time budget at entry dispatches
nothing and leaves the state unchanged. -/
theorem drainPrio_time_stop (o : Nat → Bool) (p : TaskPriority) (now : Nat)
    (fuel : Nat) (s : Scheduler) (ex ck : Nat)
    (hp : p ≠ TaskPriority.HIGH) (ht : o ck = true) :
    (drainPrio o p now fuel s ex ck).1 = s ∧
    (drainPrio o p now fuel s ex ck).2.2.2 = [] := by
  cases fuel with
  | zero => exact ⟨rfl, rfl⟩
  | succ fuel =>
    unfold drainPrio
    cases hq : getQ s.queues p with
    | nil => exact ⟨rfl, rfl⟩
    | cons id rest =>
      dsimp only
      by_cases hc : s.runningTasks.length ≥ s.config.maxConcurrentTasks
      · rw [if_pos hc]
        exact ⟨rfl, rfl⟩
      · rw [if_neg hc, if_pos hp, if_pos ht]
        exact ⟨rfl, rfl⟩

/-- NORMAL/LOW drain: a reached per-tick dispatch-count ceiling at entry
dispatches nothing and leaves the state unchanged. -/
theorem drainPrio_count_stop (o : Nat → Bool) (p : TaskPriority) (now : Nat)
    (fuel : Nat) (s : Scheduler) (ex ck : Nat)
    (hp : p ≠ TaskPriority.HIGH) (hx : ex ≥ s.config.maxTasksPerFrame) :
    (drainPrio o p now fuel s ex ck).1 = s ∧
    (drainPrio o p now fuel s ex ck).2.2.2 = [] := by
  cases fuel with
  | zero => exact ⟨rfl, rfl⟩
  | succ fuel =>
    unfold drainPrio
    cases hq : getQ s.queues p with
    | nil => exact ⟨rfl, rfl⟩
    | cons id rest =>
      dsimp only
      by_cases hc : s.runningTasks.length ≥ s.config.maxConcurrentTasks
      · rw [if_pos hc]
        exact ⟨rfl, rfl⟩
      · rw [if_neg hc, if_pos hp]
        by_cases ht : o ck = true
        · rw [if_pos ht]
          exact ⟨rfl, rfl⟩
        · rw [if_neg ht, if_pos hx]
          exact ⟨rfl, rfl⟩

/-- The HIGH drain ignores the time oracle and the per-tick dispatch
counter entirely: its resulting state and dispatched ids are the same
for any oracle and any counter value, it consumes no time checks, and
its final counter is the entry counter plus the number dispatched. -/
theorem drainPrio_high_indep (o o' : Nat → Bool) (now : Nat) (fuel : Nat) :
    ∀ (s : Scheduler) (ex ex' ck ck' : Nat),
      (drainPrio o TaskPriority.HIGH now fuel s ex ck).1 =
        (drainPrio o' TaskPriority.HIGH now fuel s ex' ck').1 ∧
      (drainPrio o TaskPriority.HIGH now fuel s ex ck).2.2.2 =
        (drainPrio o' TaskPriority.HIGH now fuel s ex' ck').2.2.2 ∧
      (drainPrio o TaskPriority.HIGH now fuel s ex ck).2.2.1 = ck ∧
      (drainPrio o TaskPriority.HIGH now fuel s ex ck).2.1 =
        ex + (drainPrio o TaskPriority.HIGH now fuel s ex ck).2.2.2.length := by
  induction fuel with
  | zero => intro s ex ex' ck ck'; exact ⟨rfl, rfl, rfl, rfl⟩
  | succ fuel ih =>
    intro s ex ex' ck ck'
    unfold drainPrio
    cases hq : getQ s.queues TaskPriority.HIGH with
    | nil => exact ⟨rfl, rfl, rfl, rfl⟩
    | cons id rest =>
      dsimp only
      by_cases hc : s.runningTasks.length ≥ s.config.maxConcurrentTasks
      · simp only [if_pos hc]
        simp
      · simp only [if_neg hc,
          if_neg (show ¬(TaskPriority.HIGH ≠ TaskPriority.HIGH) from
            fun h => h rfl)]
        cases hlk : lookupTask
            { s with queues := setQ s.queues TaskPriority.HIGH rest } id with
        | some t =>
          dsimp only
          obtain ⟨h1, h2, h3, h4⟩ := ih
            (dispatchTask
              { s with queues := setQ s.queues TaskPriority.HIGH rest } id now)
            (ex + 1) (ex' + 1) ck ck'
          refine ⟨h1, by rw [h2], h3, ?_⟩
          rw [h4]
          simp [List.length_cons]
          omega
        | none =>
          dsimp only
          exact ih { s with queues := setQ s.queues TaskPriority.HIGH rest }
            ex ex' ck ck'

/-- NORMAL/LOW drain: the number of dispatches never exceeds what
remains of the per-tick count ceiling. -/
theorem drainPrio_count_bound (o : Nat → Bool) (p : TaskPriority) (now : Nat)
    (fuel : Nat) :
    ∀ (s : Scheduler) (ex ck : Nat), p ≠ TaskPriority.HIGH →
      (drainPrio o p now fuel s ex ck).2.2.2.length ≤
        s.config.maxTasksPerFrame - ex := by
  induction fuel with
  | zero => intro s ex ck hp; simp [drainPrio]
  | succ fuel ih =>
    intro s ex ck hp
    unfold drainPrio
    cases hq : getQ s.queues p with
    | nil => simp
    | cons id rest =>
      dsimp only
      by_cases hc : s.runningTasks.length ≥ s.config.maxConcurrentTasks
      · rw [if_pos hc]
        simp
      · rw [if_neg hc, if_pos hp]
        by_cases ht : o ck = true
        · rw [if_pos ht]
          simp
        · rw [if_neg ht]
          by_cases hx : ex ≥ s.config.maxTasksPerFrame
          · rw [if_pos hx]
            simp
          · rw [if_neg hx]
            cases hlk : lookupTask { s with queues := setQ s.queues p rest } id with
            | some t =>
              dsimp only
              have := ih (dispatchTask
                { s with queues := setQ s.queues p rest } id now)
                (ex + 1) (ck + 1) hp
              simp only [dispatchTask_config] at this
              simp only [List.length_cons]
              omega
            | none =>
              dsimp only
              have := ih { s with queues := setQ s.queues p rest } ex (ck + 1) hp
              simpa using this

/-- The drain loop never pushes the running set above the concurrency
ceiling (or above its entry size, whichever is larger). -/
theorem drainPrio_running_bound (o : Nat → Bool) (p : TaskPriority)
    (now : Nat) (fuel : Nat) :
    ∀ (s : Scheduler) (ex ck : Nat),
      (drainPrio o p now fuel s ex ck).1.runningTasks.length ≤
        max s.runningTasks.length s.config.maxConcurrentTasks := by
  induction fuel with
  | zero => intro s ex ck; simp [drainPrio]
  | succ fuel ih =>
    intro s ex ck
    unfold drainPrio
    cases hq : getQ s.queues p with
    | nil => simp
    | cons id rest =>
      dsimp only
      by_cases hc : s.runningTasks.length ≥ s.config.maxConcurrentTasks
      · rw [if_pos hc]
        simp
      · have hstep : ∀ s2 : Scheduler,
            s2.runningTasks.length ≤ s.config.maxConcurrentTasks →
            s2.config = s.config →
            (drainPrio o p now fuel s2 (ex + 1) (ck + 1)).1.runningTasks.length ≤
              max s.runningTasks.length s.config.maxConcurrentTasks ∧
            (drainPrio o p now fuel s2 (ex + 1) ck).1.runningTasks.length ≤
              max s.runningTasks.length s.config.maxConcurrentTasks := by
          intro s2 hlen hcfg
          constructor
          · calc (drainPrio o p now fuel s2 (ex + 1) (ck + 1)).1.runningTasks.length
                ≤ max s2.runningTasks.length s2.config.maxConcurrentTasks :=
                  ih s2 (ex + 1) (ck + 1)
              _ ≤ max s.runningTasks.length s.config.maxConcurrentTasks := by
                  rw [hcfg]
                  exact max_le (le_max_of_le_right hlen) (le_max_right _ _)
          · calc (drainPrio o p now fuel s2 (ex + 1) ck).1.runningTasks.length
                ≤ max s2.runningTasks.length s2.config.maxConcurrentTasks :=
                  ih s2 (ex + 1) ck
              _ ≤ max s.runningTasks.length s.config.maxConcurrentTasks := by
                  rw [hcfg]
                  exact max_le (le_max_of_le_right hlen) (le_max_right _ _)
        have hdisp : ∀ q : Queues,
            (dispatchTask { s with queues := q } id now).runningTasks.length ≤
              s.config.maxConcurrentTasks := by
          intro q
          have h1 : (dispatchTask { s with queues := q } id now).runningTasks =
              addToSet s.runningTasks id := rfl
          rw [h1]
          have h2 := addToSet_length_le s.runningTasks id
          omega
        have hskip : ∀ s3 : Scheduler, s3.config = s.config →
            s3.runningTasks = s.runningTasks →
            (drainPrio o p now fuel s3 ex (ck + 1)).1.runningTasks.length ≤
              max s.runningTasks.length s.config.maxConcurrentTasks ∧
            (drainPrio o p now fuel s3 ex ck).1.runningTasks.length ≤
              max s.runningTasks.length s.config.maxConcurrentTasks := by
          intro s3 hcfg hrun
          constructor
          · calc (drainPrio o p now fuel s3 ex (ck + 1)).1.runningTasks.length
                ≤ max s3.runningTasks.length s3.config.maxConcurrentTasks :=
                  ih s3 ex (ck + 1)
              _ ≤ _ := by rw [hcfg, hrun]
          · calc (drainPrio o p now fuel s3 ex ck).1.runningTasks.length
                ≤ max s3.runningTasks.length s3.config.maxConcurrentTasks :=
                  ih s3 ex ck
              _ ≤ _ := by rw [hcfg, hrun]
        rw [if_neg hc]
        by_cases hp : p ≠ TaskPriority.HIGH
        · rw [if_pos hp]
          by_cases ht : o ck = true
          · rw [if_pos ht]
            simp
          · rw [if_neg ht]
            by_cases hx : ex ≥ s.config.maxTasksPerFrame
            · rw [if_pos hx]
              simp
            · rw [if_neg hx]
              cases hlk : lookupTask { s with queues := setQ s.queues p rest } id with
              | some t =>
                dsimp only
                exact (hstep _ (hdisp _) rfl).1
              | none =>
                dsimp only
                exact (hskip { s with queues := setQ s.queues p rest } rfl rfl).1
        · rw [if_neg hp]
          cases hlk : lookupTask { s with queues := setQ s.queues p rest } id with
          | some t =>
            dsimp only
            exact (hstep _ (hdisp _) rfl).2
          | none =>
            dsimp only
            exact (hskip { s with queues := setQ s.queues p rest } rfl rfl).2

/-- C6: each tick processes the buckets in the order HIGH, NORMAL, LOW
(threading the per-tick dispatch counter and the clock through); the
HIGH drain is bounded only by the concurrency ceiling — it consumes no
time checks and its outcome is independent of the time oracle and of
the per-tick dispatch counter — while every bucket stops at the
concurrency ceiling, and the NORMAL/LOW drains additionally dispatch
nothing once the time budget is exhausted or the per-tick count ceiling
is reached, never exceed that ceiling, and no drain pushes the running
set beyond the concurrency ceiling. -/
theorem C6_tick_budgets (s : Scheduler) (o o' : Nat → Bool) (now fe : Nat)
    (fuel ex ex' ck ck' : Nat) (p : TaskPriority) :
    (processTasks s o now fe =
      (let rh := drainPrio o TaskPriority.HIGH now
        (getQ s.queues TaskPriority.HIGH).length s 0 0
       let rn := drainPrio o TaskPriority.NORMAL now
        (getQ rh.1.queues TaskPriority.NORMAL).length rh.1 rh.2.1 rh.2.2.1
       let rl := drainPrio o TaskPriority.LOW now
        (getQ rn.1.queues TaskPriority.LOW).length rn.1 rn.2.1 rn.2.2.1
       ({ rl.1 with stats := { rl.1.stats with frameTime := fe } },
        rh.2.2.2, rn.2.2.2, rl.2.2.2))) ∧
    ((drainPrio o TaskPriority.HIGH now fuel s ex ck).1 =
        (drainPrio o' TaskPriority.HIGH now fuel s ex' ck').1 ∧
      (drainPrio o TaskPriority.HIGH now fuel s ex ck).2.2.2 =
        (drainPrio o' TaskPriority.HIGH now fuel s ex' ck').2.2.2 ∧
      (drainPrio o TaskPriority.HIGH now fuel s ex ck).2.2.1 = ck) ∧
    (s.runningTasks.length ≥ s.config.maxConcurrentTasks →
      drainPrio o p now fuel s ex ck = (s, ex, ck, [])) ∧
    (p ≠ TaskPriority.HIGH → o ck = true →
      (drainPrio o p now fuel s ex ck).1 = s ∧
      (drainPrio o p now fuel s ex ck).2.2.2 = []) ∧
    (p ≠ TaskPriority.HIGH → ex ≥ s.config.maxTasksPerFrame →
      (drainPrio o p now fuel s ex ck).1 = s ∧
      (drainPrio o p now fuel s ex ck).2.2.2 = []) ∧
    (p ≠ TaskPriority.HIGH →
      (drainPrio o p now fuel s ex ck).2.2.2.length ≤
        s.config.maxTasksPerFrame - ex) ∧
    ((drainPrio o p now fuel s ex ck).1.runningTasks.length ≤
      max s.runningTasks.length s.config.maxConcurrentTasks) := by
  refine ⟨rfl, ?_, ?_, ?_, ?_, ?_, ?_⟩
  · obtain ⟨h1, h2, h3, _⟩ := drainPrio_high_indep o o' now fuel s ex ex' ck ck'
    exact ⟨h1, h2, h3⟩
  · intro hc
    exact drainPrio_conc_stop o p now fuel s ex ck hc
  · intro hp ht
    exact drainPrio_time_stop o p now fuel s ex ck hp ht
  · intro hp hx
    exact drainPrio_count_stop o p now fuel s ex ck hp hx
  · intro hp
    exact drainPrio_count_bound o p now fuel s ex ck hp
  · exact drainPrio_running_bound o p now fuel s ex ck

/-- Closed witness for C6 at a concrete state: with the time budget
exhausted from the first check, the NORMAL drain dispatches nothing
while the HIGH drain's dispatches are unaffected by the oracle. -/
theorem C6_tick_budgets_witness :
    ((drainPrio (fun _ => true) TaskPriority.HIGH 3 1 promoFixture 0 0).2.2.2 =
      (drainPrio (fun _ => false) TaskPriority.HIGH 3 1 promoFixture 5 7).2.2.2) ∧
    ((drainPrio (fun _ => true) TaskPriority.LOW 3 2 promoFixture 0 0).2.2.2 =
      []) ∧
    ((drainPrio (fun _ => false) TaskPriority.LOW 3 2 promoFixture 9 0).2.2.2 =
      []) :=
  ⟨(C6_tick_budgets promoFixture (fun _ => true) (fun _ => false) 3 0 1 0 5 0 7
      TaskPriority.HIGH).2.1.2.1,
   ((C6_tick_budgets promoFixture (fun _ => true) (fun _ => false) 3 0 2 0 0 0 0
      TaskPriority.LOW).2.2.2.1 (by decide) (by decide)).2,
   ((C6_tick_budgets promoFixture (fun _ => false) (fun _ => true) 3 0 2 9 0 0 0
      TaskPriority.LOW).2.2.2.2.1 (by decide) (by decide)).2⟩

/-! ### Claim C7: the collection-membership invariant -/

/-- Number of occurrences of an id in one ready bucket. -/
def bucketCnt (s : Scheduler) (p : TaskPriority) (id : String) : Nat :=
  (getQ s.queues p).count id

/-- Number of occurrences of an id across the three ready buckets. -/
def occQ (s : Scheduler) (id : String) : Nat :=
  bucketCnt s TaskPriority.HIGH id + bucketCnt s TaskPriority.NORMAL id +
    bucketCnt s TaskPriority.LOW id

/-- Number of occurrences of an id across queues, blocked pool and
running set. -/
def occAll (s : Scheduler) (id : String) : Nat :=
  occQ s id + s.blockedTasks.count id + s.runningTasks.count id

/-- Membership discipline of one task record: RUNNING tasks live
exactly once in the running set and nowhere else; PENDING tasks live
exactly once in either the blocked pool or the bucket matching their
priority field; every other status (terminal, and the unreachable
PAUSED) lives in no collection. -/
def taskOk (s : Scheduler) (id : String) (t : Task) : Bool :=
  match t.status with
  | TaskStatus.RUNNING =>
      s.runningTasks.count id == 1 && occQ s id == 0 &&
        s.blockedTasks.count id == 0
  | TaskStatus.PENDING =>
      s.runningTasks.count id == 0 &&
        ((s.blockedTasks.count id == 1 && occQ s id == 0) ||
         (s.blockedTasks.count id == 0 && occQ s id == 1 &&
           bucketCnt s t.priority id == 1))
  | _ => occAll s id == 0

/-- Every id stored in a collection has a registry entry. -/
def covered (s : Scheduler) : Bool :=
  (s.queues.high ++ s.queues.normal ++ s.queues.low ++ s.blockedTasks ++
      s.runningTasks).all fun id => (lookupTask s id).isSome

/-- The scheduler invariant, with one optionally exempted task id (used
for the states inside composite operations, and for the retry window). -/
def stateOkE (s : Scheduler) (ex : Option String) : Prop :=
  (∀ kv ∈ s.taskMap, ex ≠ some kv.1 → taskOk s kv.1 kv.2 = true) ∧
  covered s = true ∧ (s.taskMap.map Prod.fst).Nodup

/-- The scheduler invariant: every registered task respects the
membership discipline. -/
def stateOk (s : Scheduler) : Prop := stateOkE s none

instance (s : Scheduler) (ex : Option String) : Decidable (stateOkE s ex) := by
  unfold stateOkE
  exact instDecidableAnd

instance (s : Scheduler) : Decidable (stateOk s) := by
  unfold stateOk
  exact inferInstance

/-- `taskOk`, `covered` and hence `stateOkE` only read the queues, the
task map and the three collections. -/
theorem stateOkE_congr (s s' : Scheduler) (ex : Option String)
    (hq : s'.queues = s.queues) (hm : s'.taskMap = s.taskMap)
    (hb : s'.blockedTasks = s.blockedTasks)
    (hr : s'.runningTasks = s.runningTasks) :
    stateOkE s' ex ↔ stateOkE s ex := by
  simp only [stateOkE, covered, taskOk, occAll, occQ, bucketCnt, lookupTask,
    hq, hm, hb, hr]

/-- `taskOk` depends only on the status and priority of the record and
on the membership counts of the id. -/
theorem taskOk_ext (s s' : Scheduler) (id : String) (t t' : Task)
    (hst : t'.status = t.status) (hpr : t'.priority = t.priority)
    (hrc : s'.runningTasks.count id = s.runningTasks.count id)
    (hbc : s'.blockedTasks.count id = s.blockedTasks.count id)
    (hqc : ∀ p, bucketCnt s' p id = bucketCnt s p id) :
    taskOk s' id t' = taskOk s id t := by
  simp only [taskOk, occAll, occQ, hst, hpr, hrc, hbc, hqc]

/-- The concatenated membership list of the three collections. -/
def collMembers (s : Scheduler) : List String :=
  s.queues.high ++ s.queues.normal ++ s.queues.low ++ s.blockedTasks ++
    s.runningTasks

theorem covered_iff (s : Scheduler) :
    covered s = true ↔
      ∀ id ∈ collMembers s, (lookupTask s id).isSome = true := by
  unfold covered collMembers
  rw [List.all_eq_true]

theorem mem_of_mem_eraseF (l : List String) (x y : String)
    (h : y ∈ eraseF l x) : y ∈ l := by
  induction l with
  | nil => cases h
  | cons a rest ih =>
    by_cases ha : a = x
    · subst ha
      simp [eraseF] at h
      simp [h]
    · simp [eraseF, ha] at h
      rcases h with h | h
      · simp [h]
      · simp [ih h]

/-- `updL` keeps the key list. -/
theorem updL_keys {α : Type} (l : List (String × α)) (id : String)
    (f : α → α) : (updL l id f).map Prod.fst = l.map Prod.fst := by
  induction l with
  | nil => rfl
  | cons kv rest ih =>
    by_cases hk : kv.1 = id <;> simp [updL, hk, ih]

theorem lookupL_isSome_updL {α : Type} (l : List (String × α)) (id id' : String)
    (f : α → α) :
    (lookupL (updL l id f) id').isSome = (lookupL l id').isSome := by
  rw [lookupL_updL]
  by_cases h : id' = id <;> simp [h]

theorem lookupL_none_iff {α : Type} (l : List (String × α)) (id : String) :
    lookupL l id = none ↔ id ∉ l.map Prod.fst := by
  induction l with
  | nil => simp [lookupL]
  | cons kv rest ih =>
    by_cases hk : kv.1 = id
    · simp [lookupL, hk]
    · simp [lookupL, hk, ih, Ne.symm hk]

theorem lookupL_mem {α : Type} (l : List (String × α)) (id : String) (v : α)
    (h : lookupL l id = some v) : (id, v) ∈ l := by
  induction l with
  | nil => cases h
  | cons kv rest ih =>
    by_cases hk : kv.1 = id
    · rw [lookupL, if_pos hk] at h
      cases h
      have hkv : kv = (id, kv.2) := by
        cases kv
        simp only [Prod.mk.injEq]
        exact ⟨hk, trivial⟩
      rw [← hkv]
      exact List.mem_cons_self _ _
    · rw [lookupL, if_neg hk] at h
      exact List.mem_cons_of_mem _ (ih h)

/-- With unique keys the registry entry of an id is exactly its lookup. -/
theorem entry_eq_of_nodup {α : Type} (l : List (String × α))
    (hnd : (l.map Prod.fst).Nodup) (id : String) (v : α)
    (hm : (id, v) ∈ l) : lookupL l id = some v := by
  induction l with
  | nil => cases hm
  | cons kv rest ih =>
    rw [List.map_cons, List.nodup_cons] at hnd
    rcases List.mem_cons.1 hm with h | h
    · subst h
      rw [lookupL, if_pos rfl]
    · have hk : kv.1 ≠ id := by
        intro he
        exact hnd.1 (he ▸ (List.mem_map.2 ⟨(id, v), h, rfl⟩))
      rw [lookupL, if_neg hk]
      exact ih hnd.2 h

/-- Under `stateOkE`, a looked-up, non-exempt task satisfies `taskOk`. -/
theorem stateOkE_lookup (s : Scheduler) (ex : Option String) (id : String)
    (t : Task) (hok : stateOkE s ex) (hl : lookupTask s id = some t)
    (hex : ex ≠ some id) : taskOk s id t = true :=
  hok.1 (id, t) (lookupL_mem s.taskMap id t hl) hex

theorem updL_eq_map {α : Type} (l : List (String × α)) (id : String)
    (f : α → α) :
    updL l id f =
      l.map fun kv => if kv.1 = id then (kv.1, f kv.2) else kv := by
  induction l with
  | nil => rfl
  | cons kv rest ih => simp [updL, ih]

theorem updL_updL {α : Type} (l : List (String × α)) (id : String)
    (f g : α → α) :
    updL (updL l id f) id g = updL l id fun v => g (f v) := by
  induction l with
  | nil => rfl
  | cons kv rest ih =>
    by_cases hk : kv.1 = id <;> simp [updL, hk, ih]

/-- Preservation skeleton for an operation that rewrites (at most) the
record of one id and only moves that id between collections. -/
theorem stateOkE_update (s s' : Scheduler) (ex : Option String) (id : String)
    (f : Task → Task) (hok : stateOkE s ex)
    (hmap : s'.taskMap = updL s.taskMap id f)
    (hrc : ∀ k, k ≠ id → s'.runningTasks.count k = s.runningTasks.count k)
    (hbc : ∀ k, k ≠ id → s'.blockedTasks.count k = s.blockedTasks.count k)
    (hqc : ∀ k, k ≠ id → ∀ p, bucketCnt s' p k = bucketCnt s p k)
    (hself : ∀ t, lookupTask s id = some t → ex ≠ some id →
      taskOk s' id (f t) = true)
    (hcov : covered s' = true) :
    stateOkE s' ex := by
  obtain ⟨hall, _, hnd⟩ := hok
  refine ⟨?_, hcov, ?_⟩
  · intro kv' hkv' hex
    rw [hmap, updL_eq_map, List.mem_map] at hkv'
    obtain ⟨kv, hkv, hkveq⟩ := hkv'
    by_cases hk : kv.1 = id
    · rw [if_pos hk] at hkveq
      subst hkveq
      have hlk : lookupTask s kv.1 = some kv.2 := by
        show lookupL s.taskMap kv.1 = some kv.2
        exact entry_eq_of_nodup s.taskMap hnd kv.1 kv.2 hkv
      rw [hk] at hlk
      have := hself kv.2 hlk (by rw [← hk]; exact hex)
      rw [← hk] at this
      exact this
    · rw [if_neg hk] at hkveq
      subst hkveq
      rw [taskOk_ext s s' kv.1 kv.2 kv.2 rfl rfl (hrc kv.1 hk) (hbc kv.1 hk)
        (hqc kv.1 hk)]
      exact hall kv hkv hex
  · rw [hmap, updL_keys]
    exact hnd

/-- Preservation skeleton for an operation that keeps the registry
untouched and only moves one id between collections. -/
theorem stateOkE_shift (s s' : Scheduler) (ex : Option String) (id : String)
    (hok : stateOkE s ex) (hmap : s'.taskMap = s.taskMap)
    (hrc : ∀ k, k ≠ id → s'.runningTasks.count k = s.runningTasks.count k)
    (hbc : ∀ k, k ≠ id → s'.blockedTasks.count k = s.blockedTasks.count k)
    (hqc : ∀ k, k ≠ id → ∀ p, bucketCnt s' p k = bucketCnt s p k)
    (hself : ∀ t, lookupTask s id = some t → ex ≠ some id →
      taskOk s' id t = true)
    (hcov : covered s' = true) :
    stateOkE s' ex := by
  obtain ⟨hall, _, hnd⟩ := hok
  refine ⟨?_, hcov, by rw [hmap]; exact hnd⟩
  intro kv hkv hex
  rw [hmap] at hkv
  by_cases hk : kv.1 = id
  · have hlk : lookupTask s kv.1 = some kv.2 := by
      show lookupL s.taskMap kv.1 = some kv.2
      exact entry_eq_of_nodup s.taskMap hnd kv.1 kv.2 hkv
    rw [hk] at hlk
    have := hself kv.2 hlk (by rw [← hk]; exact hex)
    rw [← hk] at this
    exact this
  · rw [taskOk_ext s s' kv.1 kv.2 kv.2 rfl rfl (hrc kv.1 hk) (hbc kv.1 hk)
      (hqc kv.1 hk)]
    exact hall kv hkv hex

/-- Once the (possibly) exempted id itself satisfies `taskOk`, the
exemption can be dropped. -/
theorem stateOkE_strengthen (s : Scheduler) (id : String)
    (hok : stateOkE s (some id))
    (hid : ∀ t, lookupTask s id = some t → taskOk s id t = true) :
    stateOk s := by
  obtain ⟨hall, hcov, hnd⟩ := hok
  refine ⟨?_, hcov, hnd⟩
  intro kv hkv _
  by_cases hk : kv.1 = id
  · have hlk : lookupTask s kv.1 = some kv.2 :=
      entry_eq_of_nodup s.taskMap hnd kv.1 kv.2 hkv
    rw [hk] at hlk
    have := hid kv.2 hlk
    rw [← hk] at this
    exact this
  · exact hall kv hkv fun he => hk (Option.some_inj.mp he).symm

/-- `stateOk` is in particular `stateOkE` for any exemption. -/
theorem stateOkE_of_stateOk (s : Scheduler) (ex : Option String)
    (hok : stateOk s) : stateOkE s ex :=
  ⟨fun kv hkv _ => hok.1 kv hkv (by simp), hok.2.1, hok.2.2⟩

/-- Transfer of `covered` along an operation. -/
theorem covered_transfer (s s' : Scheduler) (hc : covered s = true)
    (hlk : ∀ x, (lookupTask s x).isSome → (lookupTask s' x).isSome)
    (hmem : ∀ x, x ∈ collMembers s' →
      x ∈ collMembers s ∨ (lookupTask s x).isSome) :
    covered s' = true := by
  rw [covered_iff] at hc ⊢
  intro x hx
  rcases hmem x hx with h | h
  · exact hlk x (hc x h)
  · exact hlk x h

theorem mem_collMembers (s : Scheduler) (x : String) :
    x ∈ collMembers s ↔
      x ∈ getQ s.queues TaskPriority.HIGH ∨
      x ∈ getQ s.queues TaskPriority.NORMAL ∨
      x ∈ getQ s.queues TaskPriority.LOW ∨
      x ∈ s.blockedTasks ∨ x ∈ s.runningTasks := by
  unfold collMembers getQ
  simp [List.mem_append, or_assoc]

theorem lookupL_append_isSome {α : Type} (l : List (String × α))
    (id x : String) (v : α) (h : (lookupL l x).isSome) :
    (lookupL (l ++ [(id, v)]) x).isSome := by
  rw [lookupL_append_single]
  cases hl : lookupL l x with
  | none => rw [hl] at h; cases h
  | some u => simp [Option.orElse]

/-- Numeric characterization of the membership discipline. -/
theorem taskOk_iff (s : Scheduler) (id : String) (t : Task) :
    taskOk s id t = true ↔
      (t.status = TaskStatus.RUNNING ∧ s.runningTasks.count id = 1 ∧
        occQ s id = 0 ∧ s.blockedTasks.count id = 0) ∨
      (t.status = TaskStatus.PENDING ∧ s.runningTasks.count id = 0 ∧
        ((s.blockedTasks.count id = 1 ∧ occQ s id = 0) ∨
         (s.blockedTasks.count id = 0 ∧ occQ s id = 1 ∧
           bucketCnt s t.priority id = 1))) ∨
      (t.status ≠ TaskStatus.RUNNING ∧ t.status ≠ TaskStatus.PENDING ∧
        occAll s id = 0) := by
  cases h : t.status <;> simp [taskOk, h] <;> tauto

/-- `occQ` vanishes exactly when every bucket count does. -/
theorem occQ_eq_zero (s : Scheduler) (id : String) :
    occQ s id = 0 ↔ ∀ p, bucketCnt s p id = 0 := by
  unfold occQ
  constructor
  · intro h p
    cases p <;> omega
  · intro h
    have h1 := h TaskPriority.HIGH
    have h2 := h TaskPriority.NORMAL
    have h3 := h TaskPriority.LOW
    omega

/-- `occAll` vanishes exactly when the id is in no collection. -/
theorem occAll_eq_zero (s : Scheduler) (id : String) :
    occAll s id = 0 ↔
      occQ s id = 0 ∧ s.blockedTasks.count id = 0 ∧
        s.runningTasks.count id = 0 := by
  unfold occAll
  omega

theorem bucketCnt_le_occQ (s : Scheduler) (id : String) (p : TaskPriority) :
    bucketCnt s p id ≤ occQ s id := by
  unfold occQ
  cases p <;> omega

theorem bucketCnt_pair_le (s : Scheduler) (id : String) (p q : TaskPriority)
    (h : p ≠ q) : bucketCnt s p id + bucketCnt s q id ≤ occQ s id := by
  unfold occQ
  cases p <;> cases q <;> first | exact absurd rfl h | omega

/-- The four collection components of `cancelTask` on a registered id. -/
theorem cancelTask_components (s : Scheduler) (id : String) (t : Task)
    (h : lookupTask s id = some t) :
    (cancelTask s id).1.taskMap =
      updL s.taskMap id (fun u =>
        if t.status = TaskStatus.RUNNING then
          { u with aborted := true, status := TaskStatus.CANCELLED }
        else { u with status := TaskStatus.CANCELLED }) ∧
    (cancelTask s id).1.queues =
      setQ s.queues t.priority (eraseF (getQ s.queues t.priority) id) ∧
    (cancelTask s id).1.blockedTasks = eraseF s.blockedTasks id ∧
    (cancelTask s id).1.runningTasks = eraseF s.runningTasks id := by
  have h' : lookupL s.taskMap id = some t := h
  by_cases hr : t.status = TaskStatus.RUNNING <;>
    refine ⟨?_, ?_, ?_, ?_⟩ <;>
      simp [cancelTask, lookupTask, h', hr, removeFromQueue, updTask,
        lookupL_updL_self, updL_updL]

/-- `cancelTask` preserves the membership invariant (for every status of
the cancelled task). -/
theorem cancelTask_stateOk (s : Scheduler) (id : String)
    (hok : stateOk s) : stateOk (cancelTask s id).1 := by
  cases h : lookupTask s id with
  | none =>
    have he : (cancelTask s id).1 = s := by
      unfold cancelTask
      rw [show lookupTask s id = none from h]
    rw [he]
    exact hok
  | some t =>
    obtain ⟨em, eq, eb, er⟩ := cancelTask_components s id t h
    have e_run : (cancelTask s id).1.runningTasks.count id =
        s.runningTasks.count id - 1 := by rw [er, cnt_eraseF_self]
    have e_blk : (cancelTask s id).1.blockedTasks.count id =
        s.blockedTasks.count id - 1 := by rw [eb, cnt_eraseF_self]
    have e_bq : ∀ p, bucketCnt (cancelTask s id).1 p id =
        if p = t.priority then bucketCnt s p id - 1
        else bucketCnt s p id := by
      intro p
      unfold bucketCnt
      rw [eq]
      by_cases hp : p = t.priority
      · subst hp
        rw [getQ_setQ_self, if_pos rfl, cnt_eraseF_self]
      · rw [getQ_setQ_ne _ _ _ _ hp, if_neg hp]
    have htok := hok.1 (id, t) (lookupL_mem s.taskMap id t h)
      (by exact fun he => Option.noConfusion he)
    have hcnt :
        s.runningTasks.count id ≤ 1 ∧ s.blockedTasks.count id ≤ 1 ∧
        bucketCnt s t.priority id ≤ 1 ∧
        (∀ p, p ≠ t.priority → bucketCnt s p id = 0) := by
      rcases (taskOk_iff s id t).1 htok with ⟨_, h1, h2, h3⟩ |
        ⟨_, h1, ⟨h2, h3⟩ | ⟨h2, h3, h4⟩⟩ | ⟨_, _, h0⟩
      · refine ⟨by omega, by omega,
          le_trans (bucketCnt_le_occQ s id t.priority) (by omega), ?_⟩
        intro p _
        have := bucketCnt_le_occQ s id p
        omega
      · refine ⟨by omega, by omega,
          le_trans (bucketCnt_le_occQ s id t.priority) (by omega), ?_⟩
        intro p _
        have := bucketCnt_le_occQ s id p
        omega
      · refine ⟨by omega, by omega, by omega, ?_⟩
        intro p hp
        have := bucketCnt_pair_le s id p t.priority hp
        omega
      · rw [occAll_eq_zero] at h0
        refine ⟨by omega, by omega,
          le_trans (bucketCnt_le_occQ s id t.priority) (by omega), ?_⟩
        intro p _
        have := bucketCnt_le_occQ s id p
        omega
    obtain ⟨hc1, hc2, hc3, hc4⟩ := hcnt
    have hq0 : ∀ p, bucketCnt (cancelTask s id).1 p id = 0 := by
      intro p
      rw [e_bq]
      by_cases hp : p = t.priority
      · rw [if_pos hp, hp]
        omega
      · rw [if_neg hp, hc4 p hp]
    apply stateOkE_update s (cancelTask s id).1 none id _ hok em
    · intro k hk
      rw [er, cnt_eraseF_ne _ _ _ hk]
    · intro k hk
      rw [eb, cnt_eraseF_ne _ _ _ hk]
    · intro k hk p
      unfold bucketCnt
      rw [eq]
      by_cases hp : p = t.priority
      · subst hp
        rw [getQ_setQ_self, cnt_eraseF_ne _ _ _ hk]
      · rw [getQ_setQ_ne _ _ _ _ hp]
    · intro u hu _
      rw [taskOk_iff]
      refine Or.inr (Or.inr ⟨?_, ?_, ?_⟩)
      · by_cases hr : t.status = TaskStatus.RUNNING <;>
          simp [hr]
      · by_cases hr : t.status = TaskStatus.RUNNING <;>
          simp [hr]
      · rw [occAll_eq_zero, occQ_eq_zero]
        exact ⟨hq0, by omega, by omega⟩
    · apply covered_transfer s _ hok.2.1
      · intro x hx
        show (lookupL (cancelTask s id).1.taskMap x).isSome = true
        rw [em, lookupL_isSome_updL]
        exact hx
      · intro x hx
        left
        rw [mem_collMembers] at hx ⊢
        have hgq : ∀ p, x ∈ getQ (cancelTask s id).1.queues p → x ∈ getQ s.queues p := by
          intro p hxp
          rw [eq] at hxp
          by_cases hp : p = t.priority
          · subst hp
            rw [getQ_setQ_self] at hxp
            exact mem_of_mem_eraseF _ _ _ hxp
          · rw [getQ_setQ_ne _ _ _ _ hp] at hxp
            exact hxp
        rcases hx with hx | hx | hx | hx | hx
        · exact Or.inl (hgq _ hx)
        · exact Or.inr (Or.inl (hgq _ hx))
        · exact Or.inr (Or.inr (Or.inl (hgq _ hx)))
        · rw [eb] at hx
          exact Or.inr (Or.inr (Or.inr (Or.inl (mem_of_mem_eraseF _ _ _ hx))))
        · rw [er] at hx
          exact Or.inr (Or.inr (Or.inr (Or.inr (mem_of_mem_eraseF _ _ _ hx))))

/-- One wake-up step preserves the invariant (with the completing id
exempt) and never touches the completing id's membership counts. -/
theorem wakeStep_ok (acc : Scheduler) (cid d : String)
    (hok : stateOkE acc (some cid))
    (hb : acc.blockedTasks.count cid = 0)
    (hq : occQ acc cid = 0) :
    stateOkE (wakeStep acc d) (some cid) ∧
    (wakeStep acc d).blockedTasks.count cid = 0 ∧
    occQ (wakeStep acc d) cid = 0 := by
  by_cases hmem : d ∈ acc.blockedTasks
  · have hdc : d ≠ cid := by
      intro he
      subst he
      rw [← List.count_pos_iff] at hmem
      omega
    cases hlk : lookupTask acc d with
    | none =>
      have he : wakeStep acc d = acc := by
        unfold wakeStep
        rw [if_pos hmem, hlk]
      rw [he]
      exact ⟨hok, hb, hq⟩
    | some dt =>
      by_cases hmet : areDependenciesMet acc dt.dependencies = true
      · have he : wakeStep acc d =
            enqueueTask { acc with blockedTasks := eraseF acc.blockedTasks d }
              d := by
          unfold wakeStep
          rw [if_pos hmem, hlk]
          dsimp only
          rw [if_pos hmet]
        set acc' : Scheduler :=
          { acc with blockedTasks := eraseF acc.blockedTasks d } with hacc'
        have hlk' : lookupTask acc' d = some dt := hlk
        have hgq : ∀ p, getQ (wakeStep acc d).queues p =
            if p = dt.priority then getQ acc.queues p ++ [d]
            else getQ acc.queues p := by
          intro p
          rw [he, enqueueTask_queues acc' d dt hlk' p]
        have hdOk := stateOkE_lookup acc (some cid) d dt hok hlk
          (fun hcontra => hdc (Option.some_inj.mp hcontra).symm)
        have hdNum := (taskOk_iff acc d dt).1 hdOk
        have hdP : dt.status = TaskStatus.PENDING ∧
            acc.runningTasks.count d = 0 ∧ acc.blockedTasks.count d = 1 ∧
            occQ acc d = 0 := by
          rw [← List.count_pos_iff] at hmem
          rcases hdNum with ⟨_, h1, h2, h3⟩ |
            ⟨hst, h1, ⟨h2, h3⟩ | ⟨h2, h3, h4⟩⟩ | ⟨_, _, h0⟩
          · omega
          · exact ⟨hst, h1, h2, h3⟩
          · omega
          · rw [occAll_eq_zero] at h0
            omega
        have hmap : (wakeStep acc d).taskMap = acc.taskMap :=
          wakeStep_taskMap acc d
        have hrun : (wakeStep acc d).runningTasks = acc.runningTasks :=
          wakeStep_running acc d
        have hblk : (wakeStep acc d).blockedTasks =
            eraseF acc.blockedTasks d := by
          rw [he, enqueueTask_blocked]
        have hbuck : ∀ k p, bucketCnt (wakeStep acc d) p k =
            bucketCnt acc p k +
              (if p = dt.priority ∧ k = d then 1 else 0) := by
          intro k p
          unfold bucketCnt
          rw [hgq]
          by_cases hp : p = dt.priority
          · rw [if_pos hp, List.count_append]
            by_cases hk : k = d
            · subst hk
              simp [hp]
            · simp [hp, hk, List.count_singleton]
          · rw [if_neg hp]
            simp [hp]
        refine ⟨?_, ?_, ?_⟩
        · apply stateOkE_shift acc (wakeStep acc d) (some cid) d hok hmap
          · intro k _
            rw [hrun]
          · intro k hk
            rw [hblk, cnt_eraseF_ne _ _ _ hk]
          · intro k hk p
            rw [hbuck]
            simp [hk]
          · intro u hu hex
            have hu' : u = dt := Option.some_inj.mp (hu.symm.trans hlk)
            subst hu'
            rw [taskOk_iff]
            refine Or.inr (Or.inl ⟨hdP.1, ?_, Or.inr ⟨?_, ?_, ?_⟩⟩)
            · rw [hrun]
              exact hdP.2.1
            · rw [hblk, cnt_eraseF_self, hdP.2.2.1]
            · rw [occQ_eq_zero] at hdP
              unfold occQ
              rw [hbuck, hbuck, hbuck]
              have e1 := hdP.2.2.2 TaskPriority.HIGH
              have e2 := hdP.2.2.2 TaskPriority.NORMAL
              have e3 := hdP.2.2.2 TaskPriority.LOW
              unfold bucketCnt at e1 e2 e3 ⊢
              cases hpp : u.priority <;> simp [hpp] <;> omega
            · rw [hbuck]
              rw [occQ_eq_zero] at hdP
              have := hdP.2.2.2 u.priority
              simp [this]
          · apply covered_transfer acc _ hok.2.1
            · intro x hx
              show (lookupL (wakeStep acc d).taskMap x).isSome = true
              rw [hmap]
              exact hx
            · intro x hx
              rw [mem_collMembers] at hx
              by_cases hxd : x = d
              · subst hxd
                right
                rw [show lookupTask acc x = some dt from hlk]
                rfl
              · left
                rw [mem_collMembers]
                have hgm : ∀ p, x ∈ getQ (wakeStep acc d).queues p →
                    x ∈ getQ acc.queues p := by
                  intro p hxp
                  rw [hgq] at hxp
                  by_cases hp : p = dt.priority
                  · rw [if_pos hp, List.mem_append] at hxp
                    rcases hxp with hxp | hxp
                    · exact hxp
                    · exact absurd (List.mem_singleton.mp hxp) hxd
                  · rw [if_neg hp] at hxp
                    exact hxp
                rcases hx with hx | hx | hx | hx | hx
                · exact Or.inl (hgm _ hx)
                · exact Or.inr (Or.inl (hgm _ hx))
                · exact Or.inr (Or.inr (Or.inl (hgm _ hx)))
                · rw [hblk] at hx
                  exact Or.inr (Or.inr (Or.inr (Or.inl
                    (mem_of_mem_eraseF _ _ _ hx))))
                · rw [hrun] at hx
                  exact Or.inr (Or.inr (Or.inr (Or.inr hx)))
        · rw [hblk, cnt_eraseF_ne _ _ _ (Ne.symm hdc)]
          exact hb
        · rw [occQ_eq_zero] at hq ⊢
          intro p
          rw [hbuck]
          simp [Ne.symm hdc, hq p]
      · have he : wakeStep acc d = acc := by
          unfold wakeStep
          rw [if_pos hmem, hlk]
          dsimp only
          rw [if_neg hmet]
        rw [he]
        exact ⟨hok, hb, hq⟩
  · have he : wakeStep acc d = acc := by
      unfold wakeStep
      rw [if_neg hmem]
    rw [he]
    exact ⟨hok, hb, hq⟩

/-- The whole wake-up fold preserves the invariant with the completing
id exempt. -/
theorem foldWake_ok (l : List String) (acc : Scheduler) (cid : String)
    (hok : stateOkE acc (some cid))
    (hb : acc.blockedTasks.count cid = 0)
    (hq : occQ acc cid = 0) :
    stateOkE (l.foldl wakeStep acc) (some cid) ∧
    (l.foldl wakeStep acc).blockedTasks.count cid = 0 ∧
    occQ (l.foldl wakeStep acc) cid = 0 := by
  induction l generalizing acc with
  | nil => exact ⟨hok, hb, hq⟩
  | cons d rest ih =>
    rw [List.foldl_cons]
    obtain ⟨h1, h2, h3⟩ := wakeStep_ok acc cid d hok hb hq
    exact ih (wakeStep acc d) h1 h2 h3

/-- `processDependents` preserves the invariant with the completing id
exempt, and keeps the completing id's membership counts. -/
theorem processDependents_ok (s : Scheduler) (cid : String)
    (hok : stateOkE s (some cid))
    (hb : s.blockedTasks.count cid = 0)
    (hq : occQ s cid = 0) :
    stateOkE (processDependents s cid) (some cid) ∧
    (processDependents s cid).blockedTasks.count cid = 0 ∧
    occQ (processDependents s cid) cid = 0 := by
  rw [processDependents_eq_fold]
  cases graphGet s cid with
  | none => exact ⟨hok, hb, hq⟩
  | some deps =>
    dsimp only
    obtain ⟨h1, h2, h3⟩ := foldWake_ok deps s cid hok hb hq
    set sF := deps.foldl wakeStep s with hsF
    refine ⟨?_, h2, ?_⟩
    · exact (stateOkE_congr
        { sF with dependencyGraph := delL sF.dependencyGraph cid } sF
        (some cid) rfl rfl rfl rfl).mpr h1
    · unfold occQ bucketCnt at h3 ⊢
      exact h3

/-- Rewriting the exempted id's record never breaks the invariant. -/
theorem updTask_stateOkE (s : Scheduler) (id : String) (f : Task → Task)
    (hok : stateOkE s (some id)) : stateOkE (updTask s id f) (some id) := by
  apply stateOkE_update s (updTask s id f) (some id) id f hok rfl
    (fun k _ => rfl) (fun k _ => rfl) (fun k _ p => rfl)
    (fun u hu hex => absurd rfl hex)
  apply covered_transfer s _ hok.2.1
  · intro x hx
    show (lookupL (updL s.taskMap id f) x).isSome = true
    rw [lookupL_isSome_updL]
    exact hx
  · intro x hx
    exact Or.inl hx

theorem finallyBlock_components (s : Scheduler) (id : String) :
    (finallyBlock s id).taskMap = s.taskMap ∧
    (finallyBlock s id).queues = s.queues ∧
    (finallyBlock s id).blockedTasks = s.blockedTasks ∧
    (finallyBlock s id).runningTasks = eraseF s.runningTasks id :=
  ⟨rfl, rfl, rfl, rfl⟩

/-- The `finally` block only removes its id from the running set, so it
preserves the invariant with that id exempt. -/
theorem finallyBlock_okE (s : Scheduler) (cid : String)
    (hok : stateOkE s (some cid)) :
    stateOkE (finallyBlock s cid) (some cid) := by
  apply stateOkE_shift s (finallyBlock s cid) (some cid) cid hok rfl
  · intro k hk
    show (eraseF s.runningTasks cid).count k = s.runningTasks.count k
    exact cnt_eraseF_ne _ _ _ hk
  · intro k _
    rfl
  · intro k _ p
    rfl
  · intro u hu hex
    exact absurd rfl hex
  · apply covered_transfer s _ hok.2.1
    · intro x hx
      exact hx
    · intro x hx
      left
      rw [mem_collMembers] at hx ⊢
      rcases hx with hx | hx | hx | hx | hx
      · exact Or.inl hx
      · exact Or.inr (Or.inl hx)
      · exact Or.inr (Or.inr (Or.inl hx))
      · exact Or.inr (Or.inr (Or.inr (Or.inl hx)))
      · exact Or.inr (Or.inr (Or.inr (Or.inr
          (mem_of_mem_eraseF _ _ _ hx))))

/-- The membership counts of a RUNNING task under the invariant. -/
theorem running_counts (s : Scheduler) (cid : String) (t : Task)
    (hlk : lookupTask s cid = some t)
    (hst : t.status = TaskStatus.RUNNING) (hok : stateOk s) :
    s.runningTasks.count cid = 1 ∧ occQ s cid = 0 ∧
      s.blockedTasks.count cid = 0 := by
  have htok := hok.1 (cid, t) (lookupL_mem s.taskMap cid t hlk)
    (fun he => Option.noConfusion he)
  rcases (taskOk_iff s cid t).1 htok with ⟨_, a, b, c⟩ | ⟨hp, _⟩ | ⟨hn, _, _⟩
  · exact ⟨a, b, c⟩
  · rw [hst] at hp
    exact TaskStatus.noConfusion hp
  · exact absurd hst hn

/-- `completeStep` (fulfilled executor, `completeTask` plus the
`finally` block) restores the full invariant for a RUNNING task. -/
theorem completeStep_ok (s : Scheduler) (cid : String) (t : Task)
    (res now : Nat) (hlk : lookupTask s cid = some t)
    (hst : t.status = TaskStatus.RUNNING) (hok : stateOk s) :
    stateOk (completeStep s cid res now) := by
  obtain ⟨hr1, hq0, hb0⟩ := running_counts s cid t hlk hst hok
  have hokE : stateOkE s (some cid) := stateOkE_of_stateOk s (some cid) hok
  set fC : Task → Task := fun u => { u with
    result := some res,
    status := TaskStatus.COMPLETED,
    completedAt := some now } with hfC
  set sA : Scheduler := updTask s cid fC with hsA
  have hokA : stateOkE sA (some cid) := updTask_stateOkE s cid fC hokE
  set sB : Scheduler := { sA with stats := { sA.stats with
    completedTasks := sA.stats.completedTasks + 1 } } with hsB
  have hokB : stateOkE sB (some cid) :=
    (stateOkE_congr sB sA (some cid) rfl rfl rfl rfl).mpr hokA
  set sC : Scheduler := updateAverageExecuteTime sB cid with hsC
  have hokC : stateOkE sC (some cid) :=
    (stateOkE_congr sB sC (some cid)
      (updateAverages_non_stats sB cid).1.1
      (updateAverages_taskMap sB cid).1
      (updateAverages_non_stats sB cid).1.2.1
      (updateAverages_non_stats sB cid).1.2.2.1).mpr hokB
  set sD : Scheduler := updateAverageWaitTime sC cid with hsD
  have hokD : stateOkE sD (some cid) :=
    (stateOkE_congr sC sD (some cid)
      (updateAverages_non_stats sC cid).2.1
      (updateAverages_taskMap sC cid).2
      (updateAverages_non_stats sC cid).2.2.1
      (updateAverages_non_stats sC cid).2.2.2.1).mpr hokC
  have hbD : sD.blockedTasks.count cid = 0 := by
    rw [(updateAverages_non_stats sC cid).2.2.1,
      (updateAverages_non_stats sB cid).1.2.1]
    exact hb0
  have hqD : occQ sD cid = 0 := by
    rw [occQ_eq_zero] at hq0 ⊢
    intro p
    unfold bucketCnt
    rw [(updateAverages_non_stats sC cid).2.1,
      (updateAverages_non_stats sB cid).1.1]
    exact hq0 p
  obtain ⟨hokP, hbP, hqP⟩ := processDependents_ok sD cid hokD hbD hqD
  have hCT : completeTask s cid res now = processDependents sD cid := rfl
  have hrP : (processDependents sD cid).runningTasks = s.runningTasks := by
    rw [processDependents_running,
      (updateAverages_non_stats sC cid).2.2.2.1,
      (updateAverages_non_stats sB cid).1.2.2.1]
    rfl
  have hmP : (processDependents sD cid).taskMap = updL s.taskMap cid fC := by
    rw [← hCT, completeTask_taskMap]
  have hCS : completeStep s cid res now =
      finallyBlock (processDependents sD cid) cid := by
    unfold completeStep
    rw [hCT]
  rw [hCS]
  have hokF : stateOkE (finallyBlock (processDependents sD cid) cid)
      (some cid) := finallyBlock_okE _ cid hokP
  apply stateOkE_strengthen _ cid hokF
  intro u hu
  have hlkF : lookupTask (finallyBlock (processDependents sD cid) cid) cid =
      some (fC t) := by
    show lookupL (finallyBlock (processDependents sD cid) cid).taskMap cid = _
    rw [(finallyBlock_components _ cid).1, hmP, lookupL_updL_self,
      show lookupL s.taskMap cid = some t from hlk]
    rfl
  have hu' : u = fC t := Option.some_inj.mp (hu.symm.trans hlkF)
  subst hu'
  rw [taskOk_iff]
  refine Or.inr (Or.inr ⟨by simp [hfC], by simp [hfC], ?_⟩)
  rw [occAll_eq_zero]
  refine ⟨?_, ?_, ?_⟩
  · rw [occQ_eq_zero] at hqP ⊢
    intro p
    unfold bucketCnt
    rw [(finallyBlock_components _ cid).2.1]
    exact hqP p
  · rw [(finallyBlock_components _ cid).2.2.1]
    exact hbP
  · rw [(finallyBlock_components _ cid).2.2.2, cnt_eraseF_self, hrP, hr1]

/-- The aborted branch of `failStep` on a registered task. -/
theorem failStep_aborted_eq (s : Scheduler) (cid : String) (err now : Nat)
    (t : Task) (hlk : lookupTask s cid = some t) (hab : t.aborted = true) :
    failStep s cid err now =
      (finallyBlock
        (updTask s cid fun u => { u with status := TaskStatus.CANCELLED })
        cid, none) := by
  have h' : lookupL s.taskMap cid = some t := hlk
  simp [failStep, lookupTask, h', hab]

/-- The non-aborted branch of `failStep` on a registered task. -/
theorem failStep_err_eq (s : Scheduler) (cid : String) (err now : Nat)
    (t : Task) (hlk : lookupTask s cid = some t) (hab : t.aborted = false) :
    failStep s cid err now =
      (finallyBlock (handleTaskError s cid err now).1 cid,
       (handleTaskError s cid err now).2) := by
  have h' : lookupL s.taskMap cid = some t := hlk
  simp [failStep, lookupTask, h', hab]

/-- The retry branch of `handleTaskError` as one registry rewrite. -/
theorem handleTaskError_retry_state (s : Scheduler) (cid : String)
    (err now : Nat) (t : Task) (hlk : lookupTask s cid = some t)
    (hrc : 0 < t.retryCount) :
    (handleTaskError s cid err now).1 =
      updTask s cid (fun u => { u with
        error := some err,
        retryCount := u.retryCount - 1,
        status := TaskStatus.PENDING,
        abortGen := u.abortGen + 1,
        aborted := false }) := by
  have h' : lookupL s.taskMap cid = some t := hlk
  simp [handleTaskError, lookupTask, updTask, h', hrc, lookupL_updL_self,
    updL_updL]

/-- The exhausted branch of `handleTaskError`: registry rewrite plus a
counter bump; queues, blocked pool and running set untouched. -/
theorem handleTaskError_exhausted_components (s : Scheduler) (cid : String)
    (err now : Nat) (t : Task) (hlk : lookupTask s cid = some t)
    (hrc : t.retryCount = 0) :
    (handleTaskError s cid err now).1.taskMap =
      updL s.taskMap cid (fun u => { u with
        error := some err,
        status := TaskStatus.FAILED,
        completedAt := some now }) ∧
    (handleTaskError s cid err now).1.queues = s.queues ∧
    (handleTaskError s cid err now).1.blockedTasks = s.blockedTasks ∧
    (handleTaskError s cid err now).1.runningTasks = s.runningTasks := by
  have h' : lookupL s.taskMap cid = some t := hlk
  refine ⟨?_, ?_, ?_, ?_⟩ <;>
    simp [handleTaskError, lookupTask, updTask, h', hrc, lookupL_updL_self,
      updL_updL]

/-- `failStep` on a RUNNING task restores the full invariant whenever no
retry is scheduled (abort-cancellation, or retries exhausted). -/
theorem failStep_terminal_ok (s : Scheduler) (cid : String) (t : Task)
    (err now : Nat) (hlk : lookupTask s cid = some t)
    (hst : t.status = TaskStatus.RUNNING) (hok : stateOk s)
    (hcase : t.aborted = true ∨ t.retryCount = 0) :
    stateOk (failStep s cid err now).1 := by
  obtain ⟨hr1, hq0, hb0⟩ := running_counts s cid t hlk hst hok
  have hokE : stateOkE s (some cid) := stateOkE_of_stateOk s (some cid) hok
  by_cases hab : t.aborted = true
  · rw [failStep_aborted_eq s cid err now t hlk hab]
    set sA : Scheduler :=
      updTask s cid fun u => { u with status := TaskStatus.CANCELLED }
      with hsA
    have hokA : stateOkE sA (some cid) := updTask_stateOkE s cid _ hokE
    have hokF : stateOkE (finallyBlock sA cid) (some cid) :=
      finallyBlock_okE sA cid hokA
    apply stateOkE_strengthen _ cid hokF
    intro u hu
    have hlkF : lookupTask (finallyBlock sA cid) cid =
        some { t with status := TaskStatus.CANCELLED } := by
      show lookupL (finallyBlock sA cid).taskMap cid = _
      rw [(finallyBlock_components sA cid).1]
      show lookupL (updL s.taskMap cid _) cid = _
      rw [lookupL_updL_self, show lookupL s.taskMap cid = some t from hlk]
      rfl
    have hu' : u = { t with status := TaskStatus.CANCELLED } :=
      Option.some_inj.mp (hu.symm.trans hlkF)
    subst hu'
    rw [taskOk_iff]
    refine Or.inr (Or.inr ⟨by simp, by simp, ?_⟩)
    rw [occAll_eq_zero]
    refine ⟨?_, ?_, ?_⟩
    · rw [occQ_eq_zero] at hq0 ⊢
      intro p
      unfold bucketCnt
      rw [(finallyBlock_components sA cid).2.1, updTask_queues]
      exact hq0 p
    · rw [(finallyBlock_components sA cid).2.2.1, updTask_blocked]
      exact hb0
    · rw [(finallyBlock_components sA cid).2.2.2, cnt_eraseF_self,
        updTask_running, hr1]
  · have hab' : t.aborted = false := by
      cases hba : t.aborted
      · rfl
      · exact absurd hba hab
    have hrc : t.retryCount = 0 := by
      rcases hcase with h | h
      · exact absurd h hab
      · exact h
    rw [failStep_err_eq s cid err now t hlk hab']
    obtain ⟨cm, cq, cb, cr⟩ :=
      handleTaskError_exhausted_components s cid err now t hlk hrc
    set H1 : Scheduler := (handleTaskError s cid err now).1 with hH1
    have hokH : stateOkE H1 (some cid) := by
      apply stateOkE_update s H1 (some cid) cid _ hokE cm
      · intro k _
        rw [cr]
      · intro k _
        rw [cb]
      · intro k _ p
        unfold bucketCnt
        rw [cq]
      · intro u hu hex
        exact absurd rfl hex
      · apply covered_transfer s _ hok.2.1
        · intro x hx
          show (lookupL H1.taskMap x).isSome = true
          rw [cm, lookupL_isSome_updL]
          exact hx
        · intro x hx
          left
          rw [mem_collMembers] at hx ⊢
          rw [cq, cb, cr] at hx
          exact hx
    have hokF : stateOkE (finallyBlock H1 cid) (some cid) :=
      finallyBlock_okE H1 cid hokH
    apply stateOkE_strengthen _ cid hokF
    intro u hu
    have hlkF : lookupTask (finallyBlock H1 cid) cid =
        some { t with
          error := some err,
          status := TaskStatus.FAILED,
          completedAt := some now } := by
      show lookupL (finallyBlock H1 cid).taskMap cid = _
      rw [(finallyBlock_components H1 cid).1, cm, lookupL_updL_self,
        show lookupL s.taskMap cid = some t from hlk]
      rfl
    have hu' := Option.some_inj.mp (hu.symm.trans hlkF)
    subst hu'
    rw [taskOk_iff]
    refine Or.inr (Or.inr ⟨by simp, by simp, ?_⟩)
    rw [occAll_eq_zero]
    refine ⟨?_, ?_, ?_⟩
    · rw [occQ_eq_zero] at hq0 ⊢
      intro p
      unfold bucketCnt
      rw [(finallyBlock_components H1 cid).2.1, cq]
      exact hq0 p
    · rw [(finallyBlock_components H1 cid).2.2.1, cb]
      exact hb0
    · rw [(finallyBlock_components H1 cid).2.2.2, cnt_eraseF_self, cr, hr1]

/-- The retry window of `failStep`: the invariant holds only with the
failed task exempt — the task is PENDING yet in no collection — and the
deferred re-enqueue (`retryRequeue`) restores the full invariant. -/
theorem failStep_retry_window (s : Scheduler) (cid : String) (t : Task)
    (err now : Nat) (hlk : lookupTask s cid = some t)
    (hst : t.status = TaskStatus.RUNNING) (hok : stateOk s)
    (hab : t.aborted = false) (hrc : 0 < t.retryCount) :
    stateOkE (failStep s cid err now).1 (some cid) ∧
    occAll (failStep s cid err now).1 cid = 0 ∧
    (∃ u, lookupTask (failStep s cid err now).1 cid = some u ∧
       u.status = TaskStatus.PENDING ∧ u.priority = t.priority) ∧
    stateOk (retryRequeue (failStep s cid err now).1 cid) := by
  obtain ⟨hr1, hq0, hb0⟩ := running_counts s cid t hlk hst hok
  have hokE : stateOkE s (some cid) := stateOkE_of_stateOk s (some cid) hok
  have hfs : (failStep s cid err now).1 =
      finallyBlock (updTask s cid (fun u => { u with
        error := some err,
        retryCount := u.retryCount - 1,
        status := TaskStatus.PENDING,
        abortGen := u.abortGen + 1,
        aborted := false })) cid := by
    rw [failStep_err_eq s cid err now t hlk hab]
    dsimp only
    rw [handleTaskError_retry_state s cid err now t hlk hrc]
  set fR : Task → Task := fun u => { u with
    error := some err,
    retryCount := u.retryCount - 1,
    status := TaskStatus.PENDING,
    abortGen := u.abortGen + 1,
    aborted := false } with hfR
  set sA : Scheduler := updTask s cid fR with hsA
  have hokA : stateOkE sA (some cid) := updTask_stateOkE s cid fR hokE
  have hokF : stateOkE (finallyBlock sA cid) (some cid) :=
    finallyBlock_okE sA cid hokA
  have hlkF : lookupTask (finallyBlock sA cid) cid = some (fR t) := by
    show lookupL (finallyBlock sA cid).taskMap cid = _
    rw [(finallyBlock_components sA cid).1]
    show lookupL (updL s.taskMap cid fR) cid = _
    rw [lookupL_updL_self, show lookupL s.taskMap cid = some t from hlk]
    rfl
  have hqF : occQ (finallyBlock sA cid) cid = 0 := by
    rw [occQ_eq_zero] at hq0 ⊢
    intro p
    unfold bucketCnt
    rw [(finallyBlock_components sA cid).2.1, updTask_queues]
    exact hq0 p
  have hbF : (finallyBlock sA cid).blockedTasks.count cid = 0 := by
    rw [(finallyBlock_components sA cid).2.2.1, updTask_blocked]
    exact hb0
  have hrF : (finallyBlock sA cid).runningTasks.count cid = 0 := by
    rw [(finallyBlock_components sA cid).2.2.2, cnt_eraseF_self,
      updTask_running, hr1]
  refine ⟨by rw [hfs]; exact hokF, ?_, ?_, ?_⟩
  · rw [hfs, occAll_eq_zero]
    exact ⟨hqF, hbF, hrF⟩
  · rw [hfs]
    exact ⟨fR t, hlkF, rfl, rfl⟩
  · rw [hfs]
    set F : Scheduler := finallyBlock sA cid with hF
    have hRq : ∀ p, getQ (retryRequeue F cid).queues p =
        if p = (fR t).priority then getQ F.queues p ++ [cid]
        else getQ F.queues p := by
      intro p
      show getQ (enqueueTask F cid).queues p = _
      exact enqueueTask_queues F cid (fR t) hlkF p
    have hRm : (retryRequeue F cid).taskMap = F.taskMap := by
      show (enqueueTask F cid).taskMap = F.taskMap
      exact enqueueTask_taskMap F cid
    have hRb : (retryRequeue F cid).blockedTasks = F.blockedTasks := by
      show (enqueueTask F cid).blockedTasks = F.blockedTasks
      exact enqueueTask_blocked F cid
    have hRr : (retryRequeue F cid).runningTasks = F.runningTasks := by
      show (enqueueTask F cid).runningTasks = F.runningTasks
      exact enqueueTask_running F cid
    have hokR : stateOkE (retryRequeue F cid) (some cid) := by
      apply stateOkE_shift F (retryRequeue F cid) (some cid) cid hokF hRm
      · intro k _
        rw [hRr]
      · intro k _
        rw [hRb]
      · intro k hk p
        unfold bucketCnt
        rw [hRq]
        by_cases hp : p = (fR t).priority
        · rw [if_pos hp, List.count_append]
          simp [hk]
        · rw [if_neg hp]
      · intro u hu hex
        exact absurd rfl hex
      · apply covered_transfer F _ hokF.2.1
        · intro x hx
          show (lookupL (retryRequeue F cid).taskMap x).isSome = true
          rw [hRm]
          exact hx
        · intro x hx
          rw [mem_collMembers] at hx
          by_cases hxc : x = cid
          · subst hxc
            right
            rw [hlkF]
            rfl
          · left
            rw [mem_collMembers]
            have hgm : ∀ p, x ∈ getQ (retryRequeue F cid).queues p →
                x ∈ getQ F.queues p := by
              intro p hxp
              rw [hRq] at hxp
              by_cases hp : p = (fR t).priority
              · rw [if_pos hp, List.mem_append] at hxp
                rcases hxp with hxp | hxp
                · exact hxp
                · exact absurd (List.mem_singleton.mp hxp) hxc
              · rw [if_neg hp] at hxp
                exact hxp
            rcases hx with hx | hx | hx | hx | hx
            · exact Or.inl (hgm _ hx)
            · exact Or.inr (Or.inl (hgm _ hx))
            · exact Or.inr (Or.inr (Or.inl (hgm _ hx)))
            · rw [hRb] at hx
              exact Or.inr (Or.inr (Or.inr (Or.inl hx)))
            · rw [hRr] at hx
              exact Or.inr (Or.inr (Or.inr (Or.inr hx)))
    apply stateOkE_strengthen _ cid hokR
    intro u hu
    have hlkR : lookupTask (retryRequeue F cid) cid = some (fR t) := by
      show lookupL (retryRequeue F cid).taskMap cid = _
      rw [hRm]
      exact hlkF
    have hu' := Option.some_inj.mp (hu.symm.trans hlkR)
    subst hu'
    rw [taskOk_iff]
    refine Or.inr (Or.inl ⟨rfl, ?_, Or.inr ⟨?_, ?_, ?_⟩⟩)
    · rw [hRr]
      exact hrF
    · rw [hRb]
      exact hbF
    · rw [occQ_eq_zero] at hqF
      unfold occQ bucketCnt
      rw [hRq, hRq, hRq]
      have e1 := hqF TaskPriority.HIGH
      have e2 := hqF TaskPriority.NORMAL
      have e3 := hqF TaskPriority.LOW
      unfold bucketCnt at e1 e2 e3
      cases hpp : (fR t).priority <;>
        simp [hpp, List.count_append, e1, e2, e3]
    · unfold bucketCnt
      rw [hRq, if_pos rfl, List.count_append]
      rw [occQ_eq_zero] at hqF
      have := hqF (fR t).priority
      unfold bucketCnt at this
      simp [this]

/-- Popping the head of a bucket and dispatching it (the body of the
`processTasks` loop) preserves the invariant. -/
theorem dispatch_head_ok (s : Scheduler) (p : TaskPriority) (id : String)
    (rest : List String) (now : Nat) (hok : stateOk s)
    (hq : getQ s.queues p = id :: rest) :
    stateOk (dispatchTask { s with queues := setQ s.queues p rest } id now) := by
  have hmem : id ∈ getQ s.queues p := by
    rw [hq]
    exact List.mem_cons_self _ _
  have hcm : id ∈ collMembers s := by
    rw [mem_collMembers]
    cases p
    · exact Or.inl hmem
    · exact Or.inr (Or.inl hmem)
    · exact Or.inr (Or.inr (Or.inl hmem))
  have hsome := (covered_iff s).1 hok.2.1 id hcm
  obtain ⟨t, hlk⟩ : ∃ t, lookupTask s id = some t := by
    cases hl : lookupTask s id with
    | none => rw [hl] at hsome; cases hsome
    | some t => exact ⟨t, rfl⟩
  have hbp1 : 1 ≤ bucketCnt s p id := by
    unfold bucketCnt
    exact List.count_pos_iff.mpr hmem
  have htok := hok.1 (id, t) (lookupL_mem s.taskMap id t hlk)
    (fun he => Option.noConfusion he)
  have hPQ : t.status = TaskStatus.PENDING ∧ s.runningTasks.count id = 0 ∧
      s.blockedTasks.count id = 0 ∧ occQ s id = 1 ∧
      bucketCnt s t.priority id = 1 := by
    rcases (taskOk_iff s id t).1 htok with ⟨_, h1, h2, h3⟩ |
      ⟨hst, h1, ⟨h2, h3⟩ | ⟨h2, h3, h4⟩⟩ | ⟨_, _, h0⟩
    · have := bucketCnt_le_occQ s id p
      omega
    · have := bucketCnt_le_occQ s id p
      omega
    · exact ⟨hst, h1, h2, h3, h4⟩
    · rw [occAll_eq_zero] at h0
      have := bucketCnt_le_occQ s id p
      omega
  have hpt : p = t.priority := by
    by_contra hne
    have := bucketCnt_pair_le s id p t.priority hne
    omega
  have hrest0 : rest.count id = 0 := by
    have h1 : (getQ s.queues p).count id = 1 := by
      rw [hpt]
      exact hPQ.2.2.2.2
    rw [hq, List.count_cons_self] at h1
    omega
  have hother0 : ∀ q, q ≠ p → bucketCnt s q id = 0 := by
    intro q hqp
    have := bucketCnt_pair_le s id q p hqp
    have := hbp1
    have := hPQ.2.2.2.1
    omega
  set s1 : Scheduler := { s with queues := setQ s.queues p rest } with hs1
  set fD : Task → Task := fun u => { u with
    status := TaskStatus.RUNNING,
    startedAt := some now,
    lastExecuteTime := some now } with hfD
  have hidrun : id ∉ s.runningTasks := by
    rw [← List.count_eq_zero]
    exact hPQ.2.1
  have hrun2 : (dispatchTask s1 id now).runningTasks =
      s.runningTasks ++ [id] := by
    show addToSet s.runningTasks id = _
    unfold addToSet
    rw [if_neg hidrun]
  have hgq2 : ∀ q, getQ (dispatchTask s1 id now).queues q =
      if q = p then rest else getQ s.queues q := by
    intro q
    show getQ (setQ s.queues p rest) q = _
    by_cases hqp : q = p
    · subst hqp
      rw [getQ_setQ_self, if_pos rfl]
    · rw [getQ_setQ_ne _ _ _ _ hqp, if_neg hqp]
  apply stateOkE_update s (dispatchTask s1 id now) none id fD hok rfl
  · intro k hk
    have hz : List.count k [id] = 0 := List.count_eq_zero.mpr (by simp [hk])
    rw [hrun2, List.count_append, hz, Nat.add_zero]
  · intro k _
    rfl
  · intro k hk q
    unfold bucketCnt
    rw [hgq2]
    by_cases hqp : q = p
    · rw [if_pos hqp, hqp, hq, List.count_cons]
      simp [Ne.symm hk]
    · rw [if_neg hqp]
  · intro u hu _
    have hu' : u = t := Option.some_inj.mp (hu.symm.trans hlk)
    subst hu'
    rw [taskOk_iff]
    refine Or.inl ⟨rfl, ?_, ?_, ?_⟩
    · rw [hrun2, List.count_append, hPQ.2.1]
      simp
    · rw [occQ_eq_zero]
      intro q
      unfold bucketCnt
      rw [hgq2]
      by_cases hqp : q = p
      · rw [if_pos hqp]
        exact hrest0
      · rw [if_neg hqp]
        exact hother0 q hqp
    · exact hPQ.2.2.1
  · apply covered_transfer s _ hok.2.1
    · intro x hx
      show (lookupL (updL s.taskMap id fD) x).isSome = true
      rw [lookupL_isSome_updL]
      exact hx
    · intro x hx
      rw [mem_collMembers] at hx
      by_cases hxid : x = id
      · subst hxid
        right
        rw [hlk]
        rfl
      · left
        rw [mem_collMembers]
        have hgm : ∀ q, x ∈ getQ (dispatchTask s1 id now).queues q →
            x ∈ getQ s.queues q := by
          intro q hxq
          rw [hgq2] at hxq
          by_cases hqp : q = p
          · rw [if_pos hqp] at hxq
            rw [hqp, hq]
            exact List.mem_cons_of_mem _ hxq
          · rw [if_neg hqp] at hxq
            exact hxq
        rcases hx with hx | hx | hx | hx | hx
        · exact Or.inl (hgm _ hx)
        · exact Or.inr (Or.inl (hgm _ hx))
        · exact Or.inr (Or.inr (Or.inl (hgm _ hx)))
        · exact Or.inr (Or.inr (Or.inr (Or.inl hx)))
        · rw [hrun2, List.mem_append] at hx
          rcases hx with hx | hx
          · exact Or.inr (Or.inr (Or.inr (Or.inr hx)))
          · exact absurd (List.mem_singleton.mp hx) hxid

/-- Draining one bucket preserves the invariant. -/
theorem drainPrio_ok (timeUp : Nat → Bool) (p : TaskPriority) (now : Nat)
    (fuel : Nat) :
    ∀ (s : Scheduler) (executed checks : Nat), stateOk s →
      stateOk (drainPrio timeUp p now fuel s executed checks).1 := by
  induction fuel with
  | zero =>
    intro s e c hok
    exact hok
  | succ fuel ih =>
    intro s e c hok
    unfold drainPrio
    cases hq : getQ s.queues p with
    | nil => exact hok
    | cons id rest =>
      dsimp only
      by_cases hc : s.runningTasks.length ≥ s.config.maxConcurrentTasks
      · rw [if_pos hc]
        exact hok
      · rw [if_neg hc]
        have hdisp := dispatch_head_ok s p id rest now hok hq
        have hsome : (lookupTask { s with queues := setQ s.queues p rest }
            id).isSome = true := by
          have hcm : id ∈ collMembers s := by
            rw [mem_collMembers]
            have hmem : id ∈ getQ s.queues p := by
              rw [hq]
              exact List.mem_cons_self _ _
            cases p
            · exact Or.inl hmem
            · exact Or.inr (Or.inl hmem)
            · exact Or.inr (Or.inr (Or.inl hmem))
          exact (covered_iff s).1 hok.2.1 id hcm
        by_cases hp : p ≠ TaskPriority.HIGH
        · rw [if_pos hp]
          by_cases ht : timeUp c = true
          · rw [if_pos ht]
            exact hok
          · rw [if_neg ht]
            by_cases he : e ≥ s.config.maxTasksPerFrame
            · rw [if_pos he]
              exact hok
            · rw [if_neg he]
              cases hlk : lookupTask { s with queues := setQ s.queues p rest }
                  id with
              | none =>
                rw [hlk] at hsome
                cases hsome
              | some u =>
                dsimp only
                exact ih _ _ _ hdisp
        · rw [if_neg hp]
          cases hlk : lookupTask { s with queues := setQ s.queues p rest }
              id with
          | none =>
            rw [hlk] at hsome
            cases hsome
          | some u =>
            dsimp only
            exact ih _ _ _ hdisp

/-- A whole tick (`processTasks`) preserves the invariant. -/
theorem processTasks_ok (s : Scheduler) (timeUp : Nat → Bool)
    (now frameElapsed : Nat) (hok : stateOk s) :
    stateOk (processTasks s timeUp now frameElapsed).1 := by
  have h1 := drainPrio_ok timeUp TaskPriority.HIGH now
    (getQ s.queues TaskPriority.HIGH).length s 0 0 hok
  set rh := drainPrio timeUp TaskPriority.HIGH now
    (getQ s.queues TaskPriority.HIGH).length s 0 0 with hrh
  have h2 := drainPrio_ok timeUp TaskPriority.NORMAL now
    (getQ rh.1.queues TaskPriority.NORMAL).length rh.1 rh.2.1 rh.2.2.1 h1
  set rn := drainPrio timeUp TaskPriority.NORMAL now
    (getQ rh.1.queues TaskPriority.NORMAL).length rh.1 rh.2.1 rh.2.2.1 with hrn
  have h3 := drainPrio_ok timeUp TaskPriority.LOW now
    (getQ rn.1.queues TaskPriority.LOW).length rn.1 rn.2.1 rn.2.2.1 h2
  set rl := drainPrio timeUp TaskPriority.LOW now
    (getQ rn.1.queues TaskPriority.LOW).length rn.1 rn.2.1 rn.2.2.1 with hrl
  show stateOk
    { rl.1 with stats := { rl.1.stats with frameTime := frameElapsed } }
  exact (stateOkE_congr rl.1
    { rl.1 with stats := { rl.1.stats with frameTime := frameElapsed } }
    none rfl rfl rfl rfl).mpr h3

/-- One step of a firing promotion (relocation or plain field write)
preserves the invariant, provided the exempted id is never strictly less
urgent than the target (so the step never touches it). -/
theorem promote_step_ok (s : Scheduler) (id : String) (tg : TaskPriority)
    (e : String) (t : Task) (hok : stateOkE s (some e))
    (hl : lookupTask s id = some t) (hide : id ≠ e)
    (hgt : prioVal tg < prioVal t.priority) :
    (t.status = TaskStatus.PENDING ∧ id ∉ s.blockedTasks →
      stateOkE (promoteRelocate s id t tg) (some e)) ∧
    (¬ (t.status = TaskStatus.PENDING ∧ id ∉ s.blockedTasks) →
      stateOkE (updTask s id fun u => { u with priority := tg })
        (some e)) := by
  have hne : t.priority ≠ tg := by
    intro he
    rw [he] at hgt
    omega
  have htok := stateOkE_lookup s (some e) id t hok hl
    (fun hcontra => hide (Option.some_inj.mp hcontra).symm)
  constructor
  · intro hrel
    have hb0 : s.blockedTasks.count id = 0 :=
      List.count_eq_zero.mpr hrel.2
    have hPQ : s.runningTasks.count id = 0 ∧ occQ s id = 1 ∧
        bucketCnt s t.priority id = 1 := by
      rcases (taskOk_iff s id t).1 htok with ⟨hst, _, _, _⟩ |
        ⟨_, h1, ⟨h2, h3⟩ | ⟨h2, h3, h4⟩⟩ | ⟨_, hst, h0⟩
      · rw [hrel.1] at hst
        exact TaskStatus.noConfusion hst
      · omega
      · exact ⟨h1, h3, h4⟩
      · exact absurd hrel.1 hst
    have htg0 : bucketCnt s tg id = 0 := by
      have := bucketCnt_pair_le s id tg t.priority hne.symm
      omega
    have hoth : ∀ p, p ≠ t.priority → bucketCnt s p id = 0 := by
      intro p hp
      have := bucketCnt_pair_le s id p t.priority hp
      omega
    have hgtg := promoteRelocate_getQ_tg s id t tg hne
    have hgoth := fun p hp => promoteRelocate_getQ_other s id t tg p hp
    have hmapR : (promoteRelocate s id t tg).taskMap =
        updL s.taskMap id fun u => { u with priority := tg } := rfl
    apply stateOkE_update s (promoteRelocate s id t tg) (some e) id
      (fun u => { u with priority := tg }) hok hmapR
    · intro k _
      rw [promoteRelocate_running]
    · intro k _
      rw [promoteRelocate_blocked]
    · intro k hk p
      unfold bucketCnt
      by_cases hp : p = tg
      · subst hp
        rw [hgtg, List.count_append,
          List.count_eq_zero.mpr (by simp [hk] : k ∉ [id]), Nat.add_zero]
      · rw [hgoth p hp]
        by_cases hpt : p = t.priority
        · rw [if_pos hpt, cnt_eraseF_ne _ _ _ hk]
        · rw [if_neg hpt]
    · intro u hu _
      have hu' : u = t := Option.some_inj.mp (hu.symm.trans hl)
      rw [hu']
      rw [taskOk_iff]
      refine Or.inr (Or.inl ⟨hrel.1, ?_, Or.inr ⟨?_, ?_, ?_⟩⟩)
      · rw [promoteRelocate_running]
        exact hPQ.1
      · rw [promoteRelocate_blocked]
        exact hb0
      · unfold occQ bucketCnt
        have hc : ∀ p, (getQ (promoteRelocate s id t tg).queues p).count id =
            if p = tg then 1 else 0 := by
          intro p
          by_cases hp : p = tg
          · subst hp
            rw [hgtg, List.count_append, if_pos rfl]
            unfold bucketCnt at htg0
            simp [htg0]
          · rw [hgoth p hp, if_neg hp]
            by_cases hpt : p = t.priority
            · rw [if_pos hpt, hpt, cnt_eraseF_self]
              have := hPQ.2.2
              unfold bucketCnt at this
              omega
            · rw [if_neg hpt]
              have := hoth p hpt
              unfold bucketCnt at this
              exact this
        rw [hc, hc, hc]
        cases tg <;> simp
      · show (getQ (promoteRelocate s id t tg).queues tg).count id = 1
        rw [hgtg, List.count_append]
        unfold bucketCnt at htg0
        simp [htg0]
    · apply covered_transfer s _ hok.2.1
      · intro x hx
        show (lookupL (promoteRelocate s id t tg).taskMap x).isSome = true
        rw [hmapR, lookupL_isSome_updL]
        exact hx
      · intro x hx
        rw [mem_collMembers] at hx
        by_cases hxid : x = id
        · subst hxid
          right
          rw [hl]
          rfl
        · left
          rw [mem_collMembers]
          have hgm : ∀ p, x ∈ getQ (promoteRelocate s id t tg).queues p →
              x ∈ getQ s.queues p := by
            intro p hxp
            by_cases hp : p = tg
            · subst hp
              rw [hgtg, List.mem_append] at hxp
              rcases hxp with hxp | hxp
              · exact hxp
              · exact absurd (List.mem_singleton.mp hxp) hxid
            · rw [hgoth p hp] at hxp
              by_cases hpt : p = t.priority
              · rw [if_pos hpt] at hxp
                exact mem_of_mem_eraseF _ _ _ hxp
              · rw [if_neg hpt] at hxp
                exact hxp
          rw [promoteRelocate_blocked, promoteRelocate_running] at hx
          rcases hx with hx | hx | hx | hx | hx
          · exact Or.inl (hgm _ hx)
          · exact Or.inr (Or.inl (hgm _ hx))
          · exact Or.inr (Or.inr (Or.inl (hgm _ hx)))
          · exact Or.inr (Or.inr (Or.inr (Or.inl hx)))
          · exact Or.inr (Or.inr (Or.inr (Or.inr hx)))
  · intro hrel
    apply stateOkE_update s
      (updTask s id fun u => { u with priority := tg }) (some e) id
      (fun u => { u with priority := tg }) hok rfl
      (fun k _ => rfl) (fun k _ => rfl) (fun k _ p => rfl)
    · intro u hu _
      have hu' : u = t := Option.some_inj.mp (hu.symm.trans hl)
      rw [hu']
      rw [taskOk_iff]
      rcases (taskOk_iff s id t).1 htok with ⟨hst, h1, h2, h3⟩ |
        ⟨hst, h1, ⟨h2, h3⟩ | ⟨h2, h3, h4⟩⟩ | ⟨hst1, hst2, h0⟩
      · exact Or.inl ⟨hst, h1, h2, h3⟩
      · exact Or.inr (Or.inl ⟨hst, h1, Or.inl ⟨h2, h3⟩⟩)
      · exfalso
        apply hrel
        refine ⟨hst, ?_⟩
        rw [← List.count_eq_zero]
        omega
      · exact Or.inr (Or.inr ⟨hst1, hst2, h0⟩)
    · apply covered_transfer s _ hok.2.1
      · intro x hx
        show (lookupL (updL s.taskMap id _) x).isSome = true
        rw [lookupL_isSome_updL]
        exact hx
      · intro x hx
        exact Or.inl hx

/-- Master preservation lemma for priority inheritance: the recursion
keeps the invariant (with one exempted id), and never touches the
exempted id's record or bucket membership, provided the exempted id is
never strictly less urgent than the target. -/
theorem promote_ok (fuel : Nat) :
    (∀ (s : Scheduler) (id : String) (tg : TaskPriority) (e : String),
      stateOkE s (some e) →
      (∀ u, lookupTask s e = some u → prioVal u.priority ≤ prioVal tg) →
      stateOkE (promotePriority fuel s id tg) (some e) ∧
      lookupTask (promotePriority fuel s id tg) e = lookupTask s e ∧
      (∀ p, bucketCnt (promotePriority fuel s id tg) p e =
        bucketCnt s p e) ∧
      (promotePriority fuel s id tg).blockedTasks = s.blockedTasks ∧
      (promotePriority fuel s id tg).runningTasks = s.runningTasks) ∧
    (∀ (s : Scheduler) (l : List String) (tg : TaskPriority) (e : String),
      stateOkE s (some e) →
      (∀ u, lookupTask s e = some u → prioVal u.priority ≤ prioVal tg) →
      stateOkE (promoteDeps fuel s l tg) (some e) ∧
      lookupTask (promoteDeps fuel s l tg) e = lookupTask s e ∧
      (∀ p, bucketCnt (promoteDeps fuel s l tg) p e = bucketCnt s p e) ∧
      (promoteDeps fuel s l tg).blockedTasks = s.blockedTasks ∧
      (promoteDeps fuel s l tg).runningTasks = s.runningTasks) := by
  induction fuel with
  | zero =>
    constructor
    · intro s id tg e hok _
      rw [promotePriority_zero]
      exact ⟨hok, rfl, fun p => rfl, rfl, rfl⟩
    · intro s l tg e hok _
      rw [promoteDeps_zero]
      exact ⟨hok, rfl, fun p => rfl, rfl, rfl⟩
  | succ fuel ih =>
    have hQ : ∀ (s : Scheduler) (id : String) (tg : TaskPriority)
        (e : String),
        stateOkE s (some e) →
        (∀ u, lookupTask s e = some u → prioVal u.priority ≤ prioVal tg) →
        stateOkE (promotePriority (fuel + 1) s id tg) (some e) ∧
        lookupTask (promotePriority (fuel + 1) s id tg) e =
          lookupTask s e ∧
        (∀ p, bucketCnt (promotePriority (fuel + 1) s id tg) p e =
          bucketCnt s p e) ∧
        (promotePriority (fuel + 1) s id tg).blockedTasks =
          s.blockedTasks ∧
        (promotePriority (fuel + 1) s id tg).runningTasks =
          s.runningTasks := by
      intro s id tg e hok hex
      rw [promotePriority_succ]
      cases hl : lookupTask s id with
      | none => exact ⟨hok, rfl, fun p => rfl, rfl, rfl⟩
      | some t =>
        dsimp only
        by_cases hle : prioVal t.priority ≤ prioVal tg
        · rw [if_pos hle]
          exact ⟨hok, rfl, fun p => rfl, rfl, rfl⟩
        · rw [if_neg hle]
          have hgt : prioVal tg < prioVal t.priority := Nat.lt_of_not_le hle
          have hide : id ≠ e := by
            intro heq
            rw [heq] at hl
            exact hle (hex t hl)
          have hstep := promote_step_ok s id tg e t hok hl hide hgt
          by_cases hrel : t.status = TaskStatus.PENDING ∧
              id ∉ s.blockedTasks
          · rw [if_pos hrel]
            set s1 : Scheduler := promoteRelocate s id t tg with hs1
            have hok1 : stateOkE s1 (some e) := hstep.1 hrel
            have hlk1 : lookupTask s1 e = lookupTask s e := by
              show lookupL s1.taskMap e = lookupL s.taskMap e
              show lookupL (updL s.taskMap id _) e = lookupL s.taskMap e
              rw [lookupL_updL, if_neg (Ne.symm hide)]
            have hex1 : ∀ u, lookupTask s1 e = some u →
                prioVal u.priority ≤ prioVal tg := by
              intro u hu
              rw [hlk1] at hu
              exact hex u hu
            have hbq1 : ∀ p, bucketCnt s1 p e = bucketCnt s p e := by
              intro p
              unfold bucketCnt
              by_cases hp : p = tg
              · rw [hp]
                rw [promoteRelocate_getQ_tg s id t tg (by
                    intro he
                    rw [he] at hgt
                    omega), List.count_append,
                  List.count_eq_zero.mpr
                    (by simp [Ne.symm hide] : e ∉ [id]), Nat.add_zero]
              · rw [promoteRelocate_getQ_other s id t tg p hp]
                by_cases hpt : p = t.priority
                · rw [if_pos hpt, cnt_eraseF_ne _ _ _ (Ne.symm hide)]
                · rw [if_neg hpt]
            obtain ⟨k1, k2, k3, k4, k5⟩ :=
              ih.2 s1 t.dependencies tg e hok1 hex1
            refine ⟨k1, by rw [k2, hlk1], ?_, ?_, ?_⟩
            · intro p
              rw [k3 p, hbq1 p]
            · rw [k4, promoteRelocate_blocked]
            · rw [k5, promoteRelocate_running]
          · rw [if_neg hrel]
            set s1 : Scheduler :=
              updTask s id fun u => { u with priority := tg } with hs1
            have hok1 : stateOkE s1 (some e) := hstep.2 hrel
            have hlk1 : lookupTask s1 e = lookupTask s e := by
              show lookupL (updL s.taskMap id _) e = lookupL s.taskMap e
              rw [lookupL_updL, if_neg (Ne.symm hide)]
            have hex1 : ∀ u, lookupTask s1 e = some u →
                prioVal u.priority ≤ prioVal tg := by
              intro u hu
              rw [hlk1] at hu
              exact hex u hu
            obtain ⟨k1, k2, k3, k4, k5⟩ :=
              ih.2 s1 t.dependencies tg e hok1 hex1
            refine ⟨k1, by rw [k2, hlk1], ?_, ?_, ?_⟩
            · intro p
              rw [k3 p]
              rfl
            · rw [k4]
              rfl
            · rw [k5]
              rfl
    refine ⟨hQ, ?_⟩
    intro s l tg e
    induction l generalizing s with
    | nil =>
      intro hok hex
      rw [promoteDeps]
      exact ⟨hok, rfl, fun p => rfl, rfl, rfl⟩
    | cons d rest ihl =>
      intro hok hex
      rw [promoteDeps_cons]
      have hstep :
          stateOkE (promoteDepStep (fuel + 1) s d tg) (some e) ∧
          lookupTask (promoteDepStep (fuel + 1) s d tg) e =
            lookupTask s e ∧
          (∀ p, bucketCnt (promoteDepStep (fuel + 1) s d tg) p e =
            bucketCnt s p e) ∧
          (promoteDepStep (fuel + 1) s d tg).blockedTasks =
            s.blockedTasks ∧
          (promoteDepStep (fuel + 1) s d tg).runningTasks =
            s.runningTasks := by
        unfold promoteDepStep
        cases hlk : lookupTask s d with
        | none => exact ⟨hok, rfl, fun p => rfl, rfl, rfl⟩
        | some dt =>
          dsimp only
          by_cases hdt : dt.status ≠ TaskStatus.COMPLETED
          · rw [if_pos hdt]
            exact hQ s d tg e hok hex
          · rw [if_neg hdt]
            exact ⟨hok, rfl, fun p => rfl, rfl, rfl⟩
      obtain ⟨j1, j2, j3, j4, j5⟩ := hstep
      have hex1 : ∀ u, lookupTask (promoteDepStep (fuel + 1) s d tg) e =
          some u → prioVal u.priority ≤ prioVal tg := by
        intro u hu
        rw [j2] at hu
        exact hex u hu
      obtain ⟨k1, k2, k3, k4, k5⟩ :=
        ihl (promoteDepStep (fuel + 1) s d tg) j1 hex1
      refine ⟨k1, by rw [k2, j2], ?_, ?_, ?_⟩
      · intro p
        rw [k3 p, j3 p]
      · rw [k4, j4]
      · rw [k5, j5]

/-- `addEdge` only touches the dependency graph. -/
theorem addEdge_components (s : Scheduler) (depId taskId : String) :
    (addEdge s depId taskId).taskMap = s.taskMap ∧
    (addEdge s depId taskId).queues = s.queues ∧
    (addEdge s depId taskId).blockedTasks = s.blockedTasks ∧
    (addEdge s depId taskId).runningTasks = s.runningTasks := by
  unfold addEdge
  cases lookupL s.dependencyGraph depId <;> exact ⟨rfl, rfl, rfl, rfl⟩

/-- The dependency fold of `admitCore` keeps the running set. -/
theorem admitDepStep_running (tid : String) (prio : TaskPriority)
    (acc : Scheduler) (d : String) :
    (admitDepStep tid prio acc d).runningTasks = acc.runningTasks := by
  unfold admitDepStep
  dsimp only
  cases hlk : lookupTask (addEdge acc d tid) d with
  | none => exact (addEdge_components acc d tid).2.2.2
  | some dt =>
    dsimp only
    by_cases hdt : dt.status ≠ TaskStatus.COMPLETED ∧
        dt.status ≠ TaskStatus.FAILED
    · rw [if_pos hdt]
      rw [(promote_components _).1 (addEdge acc d tid) d prio |>.2.2.1]
      exact (addEdge_components acc d tid).2.2.2
    · rw [if_neg hdt]
      exact (addEdge_components acc d tid).2.2.2

theorem foldAdmit_running (deps : List String) (tid : String)
    (prio : TaskPriority) (s : Scheduler) :
    (deps.foldl (admitDepStep tid prio) s).runningTasks = s.runningTasks := by
  induction deps generalizing s with
  | nil => rfl
  | cons d rest ih =>
    rw [List.foldl_cons, ih, admitDepStep_running]

/-- One step of the admission fold preserves the invariant with the new
id exempt, and never touches the new id's record or queue membership
(the new task's priority already equals the inheritance target). -/
theorem admitDepStep_ok (tid : String) (prio : TaskPriority)
    (acc : Scheduler) (d : String) (task : Task)
    (hok : stateOkE acc (some tid))
    (hlkt : lookupTask acc tid = some task)
    (hpr : task.priority = prio) :
    stateOkE (admitDepStep tid prio acc d) (some tid) ∧
    lookupTask (admitDepStep tid prio acc d) tid = some task ∧
    (∀ p, bucketCnt (admitDepStep tid prio acc d) p tid =
      bucketCnt acc p tid) := by
  obtain ⟨em, eq, eb, er⟩ := addEdge_components acc d tid
  have hokE : stateOkE (addEdge acc d tid) (some tid) :=
    (stateOkE_congr acc (addEdge acc d tid) (some tid) eq em eb er).mpr hok
  have hlkE : lookupTask (addEdge acc d tid) tid = some task := by
    show lookupL (addEdge acc d tid).taskMap tid = some task
    rw [em]
    exact hlkt
  have hbqE : ∀ p, bucketCnt (addEdge acc d tid) p tid =
      bucketCnt acc p tid := by
    intro p
    unfold bucketCnt
    rw [eq]
  have hex : ∀ u, lookupTask (addEdge acc d tid) tid = some u →
      prioVal u.priority ≤ prioVal prio := by
    intro u hu
    have := Option.some_inj.mp (hu.symm.trans hlkE)
    rw [← this] at hpr
    rw [hpr]
  unfold admitDepStep
  dsimp only
  cases hlk : lookupTask (addEdge acc d tid) d with
  | none => exact ⟨hokE, hlkE, hbqE⟩
  | some dt =>
    dsimp only
    by_cases hdt : dt.status ≠ TaskStatus.COMPLETED ∧
        dt.status ≠ TaskStatus.FAILED
    · rw [if_pos hdt]
      obtain ⟨k1, k2, k3, _, _⟩ := (promote_ok _).1 (addEdge acc d tid) d
        prio tid hokE hex
      refine ⟨k1, by rw [k2]; exact hlkE, ?_⟩
      intro p
      rw [k3 p, hbqE p]
    · rw [if_neg hdt]
      exact ⟨hokE, hlkE, hbqE⟩

/-- The whole admission fold preserves the invariant with the new id
exempt. -/
theorem foldAdmit_ok (deps : List String) (tid : String)
    (prio : TaskPriority) (s : Scheduler) (task : Task)
    (hok : stateOkE s (some tid)) (hlkt : lookupTask s tid = some task)
    (hpr : task.priority = prio) :
    stateOkE (deps.foldl (admitDepStep tid prio) s) (some tid) ∧
    lookupTask (deps.foldl (admitDepStep tid prio) s) tid = some task ∧
    (∀ p, bucketCnt (deps.foldl (admitDepStep tid prio) s) p tid =
      bucketCnt s p tid) := by
  induction deps generalizing s with
  | nil => exact ⟨hok, hlkt, fun p => rfl⟩
  | cons d rest ih =>
    rw [List.foldl_cons]
    obtain ⟨j1, j2, j3⟩ := admitDepStep_ok tid prio s d task hok hlkt hpr
    obtain ⟨k1, k2, k3⟩ := ih (admitDepStep tid prio s d) j1 j2
    refine ⟨k1, k2, ?_⟩
    intro p
    rw [k3 p, j3 p]

/-- An id absent from the registry is (by `covered`) in no collection. -/
theorem counts_zero_of_unregistered (s : Scheduler) (tid : String)
    (hok : stateOk s) (hnew : lookupTask s tid = none) :
    occQ s tid = 0 ∧ s.blockedTasks.count tid = 0 ∧
      s.runningTasks.count tid = 0 := by
  have hnm : tid ∉ collMembers s := by
    intro hm
    have hs := (covered_iff s).1 hok.2.1 tid hm
    rw [hnew] at hs
    cases hs
  rw [mem_collMembers] at hnm
  push_neg at hnm
  obtain ⟨h1, h2, h3, h4, h5⟩ := hnm
  refine ⟨?_, List.count_eq_zero.mpr h4, List.count_eq_zero.mpr h5⟩
  rw [occQ_eq_zero]
  intro p
  unfold bucketCnt
  cases p
  · exact List.count_eq_zero.mpr h1
  · exact List.count_eq_zero.mpr h2
  · exact List.count_eq_zero.mpr h3

/-- Inserting a fresh record preserves the invariant with the new id
exempt. -/
theorem insertState_okE (s : Scheduler) (tid : String) (task : Task)
    (hok : stateOk s) (hnew : lookupTask s tid = none) :
    stateOkE (insertState s tid task) (some tid) := by
  refine ⟨?_, ?_, ?_⟩
  · intro kv hkv hex
    have hkv' : kv ∈ s.taskMap ++ [(tid, task)] := hkv
    rw [List.mem_append] at hkv'
    rcases hkv' with hkv' | hkv'
    · rw [taskOk_ext s (insertState s tid task) kv.1 kv.2 kv.2 rfl rfl
        rfl rfl (fun p => rfl)]
      exact hok.1 kv hkv' (by simp)
    · exfalso
      apply hex
      rw [List.mem_singleton] at hkv'
      rw [hkv']
  · apply covered_transfer s _ hok.2.1
    · intro x hx
      show (lookupL (s.taskMap ++ [(tid, task)]) x).isSome = true
      exact lookupL_append_isSome s.taskMap tid x task hx
    · intro x hx
      exact Or.inl hx
  · show ((s.taskMap ++ [(tid, task)]).map Prod.fst).Nodup
    rw [List.map_append, List.nodup_append]
    refine ⟨hok.2.2, List.nodup_singleton tid, ?_⟩
    intro a ha hb
    rw [List.map_singleton, List.mem_singleton] at hb
    have hnew' : lookupL s.taskMap tid = none := hnew
    rw [lookupL_none_iff] at hnew'
    rw [hb] at ha
    exact hnew' ha

/-- The successful tail of `addTask` restores the full invariant. -/
theorem admitCore_ok (s : Scheduler) (cfg : TaskConfig) (tid : String)
    (now : Nat) (hok : stateOk s) (hnew : lookupTask s tid = none) :
    stateOk (admitCore s cfg tid now) := by
  obtain ⟨hq0, hb0, hr0⟩ := counts_zero_of_unregistered s tid hok hnew
  set task : Task := buildTask cfg tid now with htask
  set s1 : Scheduler := insertState s tid task with hs1
  have hok1 : stateOkE s1 (some tid) := insertState_okE s tid task hok hnew
  have hlk1 : lookupTask s1 tid = some task := by
    show lookupL (s.taskMap ++ [(tid, task)]) tid = _
    rw [lookupL_append_single, show lookupL s.taskMap tid = none from hnew]
    simp [Option.orElse]
  have hq1 : ∀ p, bucketCnt s1 p tid = 0 := by
    rw [occQ_eq_zero] at hq0
    intro p
    unfold bucketCnt
    rw [insertState_queues]
    exact hq0 p
  unfold admitCore
  dsimp only
  by_cases hcond : (buildTask cfg tid now).dependencies ≠ [] ∧
      ¬ areDependenciesMet (insertState s tid (buildTask cfg tid now))
        (buildTask cfg tid now).dependencies = true
  · rw [if_pos hcond]
    obtain ⟨k1, k2, k3⟩ := foldAdmit_ok (buildTask cfg tid now).dependencies
      tid (buildTask cfg tid now).priority s1 task hok1 hlk1 rfl
    set s2 : Scheduler := (buildTask cfg tid now).dependencies.foldl
      (admitDepStep tid (buildTask cfg tid now).priority) s1 with hs2
    set s3 : Scheduler := { s2 with
      blockedTasks := s2.blockedTasks ++ [tid] } with hs3
    have hok3 : stateOkE s3 (some tid) := by
      apply stateOkE_shift s2 s3 (some tid) tid k1 rfl
      · intro k _
        rfl
      · intro k hk
        show (s2.blockedTasks ++ [tid]).count k = s2.blockedTasks.count k
        rw [List.count_append,
          List.count_eq_zero.mpr (by simp [hk] : k ∉ [tid]), Nat.add_zero]
      · intro k _ p
        rfl
      · intro u hu hex
        exact absurd rfl hex
      · apply covered_transfer s2 _ k1.2.1
        · intro x hx
          exact hx
        · intro x hx
          rw [mem_collMembers] at hx
          by_cases hxt : x = tid
          · subst hxt
            right
            rw [k2]
            rfl
          · left
            rw [mem_collMembers]
            rcases hx with hx | hx | hx | hx | hx
            · exact Or.inl hx
            · exact Or.inr (Or.inl hx)
            · exact Or.inr (Or.inr (Or.inl hx))
            · rw [show s3.blockedTasks = s2.blockedTasks ++ [tid] from rfl,
                List.mem_append] at hx
              rcases hx with hx | hx
              · exact Or.inr (Or.inr (Or.inr (Or.inl hx)))
              · exact absurd (List.mem_singleton.mp hx) hxt
            · exact Or.inr (Or.inr (Or.inr (Or.inr hx)))
    apply stateOkE_strengthen s3 tid hok3
    intro u hu
    have hlk3 : lookupTask s3 tid = some task := by
      show lookupL s3.taskMap tid = some task
      show lookupL s2.taskMap tid = some task
      exact k2
    have hu' : u = task := Option.some_inj.mp (hu.symm.trans hlk3)
    rw [hu']
    rw [taskOk_iff]
    refine Or.inr (Or.inl ⟨rfl, ?_, Or.inl ⟨?_, ?_⟩⟩)
    · show s2.runningTasks.count tid = 0
      rw [hs2, foldAdmit_running]
      show s.runningTasks.count tid = 0
      exact hr0
    · show (s2.blockedTasks ++ [tid]).count tid = 1
      rw [List.count_append, hs2, foldAdmit_blocked]
      have : s1.blockedTasks.count tid = 0 := hb0
      rw [this]
      simp
    · rw [occQ_eq_zero]
      intro p
      show bucketCnt s3 p tid = 0
      have : bucketCnt s3 p tid = bucketCnt s2 p tid := by
        unfold bucketCnt
        rfl
      rw [this, k3 p, hq1 p]
  · rw [if_neg hcond]
    set s3 : Scheduler := enqueueTask s1 tid with hs3
    have hgq3 : ∀ p, getQ s3.queues p =
        if p = task.priority then getQ s1.queues p ++ [tid]
        else getQ s1.queues p :=
      fun p => enqueueTask_queues s1 tid task hlk1 p
    have hok3 : stateOkE s3 (some tid) := by
      apply stateOkE_shift s1 s3 (some tid) tid hok1 (enqueueTask_taskMap s1 tid)
      · intro k _
        rw [enqueueTask_running]
      · intro k _
        rw [enqueueTask_blocked]
      · intro k hk p
        unfold bucketCnt
        rw [hgq3]
        by_cases hp : p = task.priority
        · rw [if_pos hp, List.count_append,
            List.count_eq_zero.mpr (by simp [hk] : k ∉ [tid]), Nat.add_zero]
        · rw [if_neg hp]
      · intro u hu hex
        exact absurd rfl hex
      · apply covered_transfer s1 _ hok1.2.1
        · intro x hx
          show (lookupL s3.taskMap x).isSome = true
          rw [enqueueTask_taskMap]
          exact hx
        · intro x hx
          rw [mem_collMembers] at hx
          by_cases hxt : x = tid
          · subst hxt
            right
            rw [hlk1]
            rfl
          · left
            rw [mem_collMembers]
            have hgm : ∀ p, x ∈ getQ s3.queues p → x ∈ getQ s1.queues p := by
              intro p hxp
              rw [hgq3] at hxp
              by_cases hp : p = task.priority
              · rw [if_pos hp, List.mem_append] at hxp
                rcases hxp with hxp | hxp
                · exact hxp
                · exact absurd (List.mem_singleton.mp hxp) hxt
              · rw [if_neg hp] at hxp
                exact hxp
            rw [enqueueTask_blocked, enqueueTask_running] at hx
            rcases hx with hx | hx | hx | hx | hx
            · exact Or.inl (hgm _ hx)
            · exact Or.inr (Or.inl (hgm _ hx))
            · exact Or.inr (Or.inr (Or.inl (hgm _ hx)))
            · exact Or.inr (Or.inr (Or.inr (Or.inl hx)))
            · exact Or.inr (Or.inr (Or.inr (Or.inr hx)))
    apply stateOkE_strengthen s3 tid hok3
    intro u hu
    have hlk3 : lookupTask s3 tid = some task := by
      show lookupL s3.taskMap tid = some task
      rw [enqueueTask_taskMap]
      exact hlk1
    have hu' : u = task := Option.some_inj.mp (hu.symm.trans hlk3)
    rw [hu']
    rw [taskOk_iff]
    refine Or.inr (Or.inl ⟨rfl, ?_, Or.inr ⟨?_, ?_, ?_⟩⟩)
    · rw [enqueueTask_running]
      exact hr0
    · rw [enqueueTask_blocked]
      exact hb0
    · unfold occQ bucketCnt
      rw [hgq3, hgq3, hgq3]
      have e1 := hq1 TaskPriority.HIGH
      have e2 := hq1 TaskPriority.NORMAL
      have e3 := hq1 TaskPriority.LOW
      unfold bucketCnt at e1 e2 e3
      cases hpp : task.priority <;>
        simp [hpp, List.count_append, e1, e2, e3]
    · unfold bucketCnt
      rw [hgq3, if_pos rfl, List.count_append]
      have := hq1 task.priority
      unfold bucketCnt at this
      simp [this]

/-- `addTask` preserves the invariant: every rejection leaves the state
unchanged (up to the id counter), and a successful admission places the
new task consistently. -/
theorem addTask_ok (s : Scheduler) (cfg : TaskConfig) (now : Nat)
    (hok : stateOk s) : stateOk (addTask s cfg now).1 := by
  unfold addTask
  by_cases h1 : s.taskMap.length ≥ s.config.queueSizeLimit
  · rw [if_pos h1]
    exact hok
  · rw [if_neg h1]
    cases hcid : cfg.id with
    | some i =>
      dsimp only
      by_cases h2 : (lookupTask s i).isSome = true
      · rw [if_pos h2]
        exact hok
      · rw [if_neg h2]
        by_cases h3 : cfg.type ∉ s.executors
        · rw [if_pos h3]
          exact hok
        · rw [if_neg h3]
          have hnew : lookupTask s i = none := by
            cases hl : lookupTask s i with
            | none => rfl
            | some u => rw [hl] at h2; exact absurd rfl h2
          exact (stateOkE_congr (admitCore s cfg i now) _ none rfl rfl rfl
            rfl).mpr (admitCore_ok s cfg i now hok hnew)
    | none =>
      dsimp only
      set sB : Scheduler := { s with taskIdCounter := s.taskIdCounter + 1 }
        with hsB
      have hokB : stateOk sB :=
        (stateOkE_congr s sB none rfl rfl rfl rfl).mpr hok
      set gid : String := generateTaskId (s.taskIdCounter + 1) now with hgid
      by_cases h2 : (lookupTask sB gid).isSome = true
      · rw [if_pos h2]
        exact hokB
      · rw [if_neg h2]
        by_cases h3 : cfg.type ∉ sB.executors
        · rw [if_pos h3]
          exact hokB
        · rw [if_neg h3]
          have hnew : lookupTask sB gid = none := by
            cases hl : lookupTask sB gid with
            | none => rfl
            | some u => rw [hl] at h2; exact absurd rfl h2
          exact (stateOkE_congr (admitCore sB cfg gid now) _ none rfl rfl rfl
            rfl).mpr (admitCore_ok sB cfg gid now hokB hnew)

/-- C7 counterexample: the concrete retry fixture satisfies the
membership invariant, but right after the retryable failure (before the
deferred re-enqueue fires) the retried task is PENDING — non-terminal —
while sitting in none of the three collections, so the "exactly one"
discipline is violated in the retry window; the deferred re-enqueue then
restores it. -/
theorem C7_membership_counterexample :
    stateOk retryFixture ∧
    ((lookupTask (failStep retryFixture "r" 7 2).1 "r").map Task.status =
       some TaskStatus.PENDING) ∧
    occAll (failStep retryFixture "r" 7 2).1 "r" = 0 ∧
    ¬ stateOk (failStep retryFixture "r" 7 2).1 ∧
    stateOk (retryRequeue (failStep retryFixture "r" 7 2).1 "r") := by
  refine ⟨by decide, by decide, by decide, by decide, by decide⟩

/-- C7 (amended): every non-terminal registered task is in exactly one
of {priority queue, blocked pool, running set} and every terminal task
in none (`stateOk`), and this discipline is preserved by `cancelTask`,
`addTask`, a full tick (`processTasks`), and both resolutions of a
RUNNING task's execution — EXCEPT in the window between a retryable
failure and the deferred re-enqueue: there the failed task is PENDING
yet in no collection (`occAll = 0`), the invariant holds only with that
task exempted and genuinely fails without the exemption, and the
deferred re-enqueue (`retryRequeue`) restores it in full. -/
theorem C7_membership_amended (s : Scheduler) (cid : String) (t : Task)
    (cfg : TaskConfig) (timeUp : Nat → Bool) (now res err fe : Nat)
    (hok : stateOk s) (hlk : lookupTask s cid = some t)
    (hst : t.status = TaskStatus.RUNNING) :
    stateOk (cancelTask s cid).1 ∧
    stateOk (addTask s cfg now).1 ∧
    stateOk (processTasks s timeUp now fe).1 ∧
    stateOk (completeStep s cid res now) ∧
    (t.aborted = true ∨ t.retryCount = 0 →
      stateOk (failStep s cid err now).1) ∧
    (t.aborted = false → 0 < t.retryCount →
      stateOkE (failStep s cid err now).1 (some cid) ∧
      ¬ stateOk (failStep s cid err now).1 ∧
      occAll (failStep s cid err now).1 cid = 0 ∧
      (∃ u, lookupTask (failStep s cid err now).1 cid = some u ∧
         u.status = TaskStatus.PENDING ∧ u.priority = t.priority) ∧
      stateOk (retryRequeue (failStep s cid err now).1 cid)) := by
  refine ⟨cancelTask_stateOk s cid hok, addTask_ok s cfg now hok,
    processTasks_ok s timeUp now fe hok,
    completeStep_ok s cid t res now hlk hst hok,
    fun hcase => failStep_terminal_ok s cid t err now hlk hst hok hcase,
    ?_⟩
  intro hab hrc
  obtain ⟨w1, w2, w3, w4⟩ :=
    failStep_retry_window s cid t err now hlk hst hok hab hrc
  refine ⟨w1, ?_, w2, w3, w4⟩
  intro hS
  obtain ⟨u, hu, hup, _⟩ := w3
  have htok := hS.1 (cid, u)
    (lookupL_mem (failStep s cid err now).1.taskMap cid u hu)
    (fun he => Option.noConfusion he)
  rcases (taskOk_iff _ cid u).1 htok with ⟨hstx, _, _, _⟩ |
    ⟨_, h1, ⟨h2, h3⟩ | ⟨h2, h3, h4⟩⟩ | ⟨_, hstx, _⟩
  · rw [hup] at hstx
    exact TaskStatus.noConfusion hstx
  · rw [occAll_eq_zero] at w2
    omega
  · rw [occAll_eq_zero] at w2
    omega
  · exact absurd hup hstx

/-- Closed witness for C7 (amended) at the concrete retry fixture: the
RUNNING task "r" has one retry left, so the retry-window conjunct is
exercised together with the preserved operations. -/
theorem C7_membership_amended_witness :
    stateOk (cancelTask retryFixture "r").1 ∧
    stateOk (addTask retryFixture (baseCfg "w") 2).1 ∧
    stateOk (processTasks retryFixture (fun _ => false) 2 3).1 ∧
    stateOk (completeStep retryFixture "r" 9 2) ∧
    (retryTask.aborted = true ∨ retryTask.retryCount = 0 →
      stateOk (failStep retryFixture "r" 7 2).1) ∧
    (retryTask.aborted = false → 0 < retryTask.retryCount →
      stateOkE (failStep retryFixture "r" 7 2).1 (some "r") ∧
      ¬ stateOk (failStep retryFixture "r" 7 2).1 ∧
      occAll (failStep retryFixture "r" 7 2).1 "r" = 0 ∧
      (∃ u, lookupTask (failStep retryFixture "r" 7 2).1 "r" = some u ∧
         u.status = TaskStatus.PENDING ∧ u.priority = retryTask.priority) ∧
      stateOk (retryRequeue (failStep retryFixture "r" 7 2).1 "r")) :=
  C7_membership_amended retryFixture "r" retryTask (baseCfg "w")
    (fun _ => false) 2 9 7 3 (by decide) (by decide) (by decide)

end Sched
